import Mathlib

/-!
# pggen: table metadata, include-spec closure and generated accessors

A shallow embedding of `gen/gen_table.go`.

* Generation time: the table registry (`g.tables`), `ensureSpec`, the
  reference filter of `genTable`.
* Run time: the functions emitted by `tableShimTmpl`, as functions of the
  generation context and of the answers of the database.

Pointers are modelled by names.  A `*tableMeta` is the `PgName` of the table it
points to.  A `*include.Spec` is the registry key of the `tableGenInfo` whose
`allIncludeSpec` field holds the object: `ensureSpec` allocates exactly one
`include.Spec` per `tableGenInfo`, stores it in that field, and every other
pointer to it is read back from that field.
-/

namespace Pggen

/-! ## Generation-time data model -/

/-- The fields of `colMeta` read by `gen_table.go`. -/
structure colMeta where
  PgName : String
  GoName : String
  Nullable : Bool
  IsPrimary : Bool
  /-- The field `TypeInfo.IsTimestampWithZone`. -/
  IsTimestampWithZone : Bool
deriving DecidableEq, Repr

deriving instance DecidableEq for Except

/-- A reference `PointsFrom -> PointsTo`; the two `*tableMeta` are table names,
the `[]*colMeta` are lists of possibly nil columns. -/
structure refMeta where
  PointsTo : String
  PointsToFields : List (Option colMeta)
  PointsFrom : String
  PointsFromFields : List (Option colMeta)
  OneToOne : Bool
  Nullable : Bool
deriving DecidableEq, Repr

/-- One `belongs_to` entry of a table's configuration. -/
structure belongsTo where
  Table : String
  KeyField : String
  OneToOne : Bool
deriving DecidableEq, Repr

/-- The fields of `tableConfig` read by `gen_table.go`. -/
structure tableConfig where
  Name : String
  NoInferBelongsTo : Bool
  CreatedAtField : String
  UpdatedAtField : String
  BelongsTo : List belongsTo
deriving DecidableEq, Repr

/-- The fields of `tableMeta` read by `gen_table.go`. -/
structure tableMeta where
  PgName : String
  GoName : String
  PkeyCol : Option colMeta
  PkeyColIdx : Nat
  Cols : List colMeta
  References : List refMeta
deriving DecidableEq, Repr

/-- An `include.Spec` object.  `Includes` is a Go map from table name to
`*include.Spec`; `none` is the nil map.  The pointer is the registry key of the
owning `tableGenInfo`. -/
structure Spec where
  TableName : String
  Includes : Option (List (String × String))
deriving DecidableEq, Repr

/-- The struct `tableGenInfo`. -/
structure tableGenInfo where
  config : tableConfig
  explicitBelongsTo : List refMeta
  allIncludeSpec : Option Spec
  hasUpdateAtField : Bool
  updatedAtFieldIsNullable : Bool
  updatedAtHasTimezone : Bool
  hasCreatedAtField : Bool
  createdAtFieldIsNullable : Bool
  createdAtHasTimezone : Bool
  meta : tableMeta
deriving DecidableEq, Repr

/-- The registry `g.tables : map[string]*tableGenInfo`.  `populateTableInfo`
stores each info under `table.Name`, which is `info.config.Name`; an entry is
found by the first match on that name. -/
abbrev Registry := List tableGenInfo

/-- The map read `tables[name]`. -/
def lookupInfo (tables : Registry) (name : String) : Option tableGenInfo :=
  tables.find? (fun info => info.config.Name == name)

/-- Apply `f` to the info stored under `name` (a write through the pointer
`tables[name]`). -/
def modifyInfo (f : tableGenInfo → tableGenInfo) (name : String) : Registry → Registry
  | [] => []
  | info :: rest =>
    if info.config.Name == name then f info :: rest
    else info :: modifyInfo f name rest

/-- Map assignment `m[k] = v` on an association list: an existing key is
overwritten in place, a new key is added at the end. -/
def mapInsert (k v : String) : List (String × String) → List (String × String)
  | [] => [(k, v)]
  | (k', v') :: rest =>
    if k' == k then (k, v) :: rest else (k', v') :: mapInsert k v rest

/-- The assignment `info.allIncludeSpec.Includes[key] = sub` of
`ensureReferencedSpec`, on the `Spec` object itself.  A write to a nil map does
not occur in `ensureSpec`, which creates the map with the object. -/
def Spec.insert (s : Spec) (key sub : String) : Spec :=
  { s with Includes := some (mapInsert key sub (s.Includes.getD [])) }

/-- The write `info.allIncludeSpec.Includes[key] = sub` on the info itself. -/
def insertInclude (key sub : String) (info : tableGenInfo) : tableGenInfo :=
  { info with allIncludeSpec := info.allIncludeSpec.map (fun s => s.insert key sub) }

/-- The write `info.allIncludeSpec.Includes[key] = sub` for the info stored
under `owner`. -/
def addInclude (tables : Registry) (owner key sub : String) : Registry :=
  modifyInfo (insertInclude key sub) owner tables

/-- The closing statement of `ensureSpec`:
`if len(Includes) == 0 { Includes = nil }`. -/
def Spec.normalize (s : Spec) : Spec :=
  if (s.Includes.getD []).length = 0 then { s with Includes := none } else s

/-- The object `&include.Spec{TableName: info.meta.PgName, Includes: map[string]*include.Spec{}}`
that `ensureSpec` stores in a fresh `info.allIncludeSpec`. -/
def newSpec (info : tableGenInfo) : Spec :=
  { TableName := info.meta.PgName, Includes := some [] }

/-- The write `info.allIncludeSpec = &include.Spec{...}` on the info itself. -/
def initSpec (info : tableGenInfo) : tableGenInfo :=
  { info with allIncludeSpec := some (newSpec info) }

/-- The closing write of `ensureSpec` on the info itself. -/
def normalizeInfo (info : tableGenInfo) : tableGenInfo :=
  { info with allIncludeSpec := info.allIncludeSpec.map Spec.normalize }

/-- The result of a generation-time function: `Except.error` is a returned Go
error. -/
abbrev GenResult := Except String Registry

/-- The two loops of `ensureSpec` over `ensureReferencedSpec`, for the info
stored under `owner`; `recurse` is the recursive call `ensureSpec(tables, subInfo)`
and answers `none` when it runs out of fuel. -/
def ensureReferencedSpecs (recurse : Registry → String → Option GenResult) (owner : String) :
    List refMeta → Registry → Option GenResult
  | [], tables => some (.ok tables)
  | ref :: rest, tables =>
    match lookupInfo tables ref.PointsFrom with
    | none =>
      -- referenced in the database schema but not in the config file
      ensureReferencedSpecs recurse owner rest tables
    | some _ =>
      match recurse tables ref.PointsFrom with
      | none => none
      | some (.error e) => some (.error e)
      | some (.ok tables1) =>
        match (lookupInfo tables1 ref.PointsFrom).bind (fun sub => sub.allIncludeSpec) with
        | none => some (.error "nil pointer dereference")
        | some subSpec =>
          ensureReferencedSpecs recurse owner rest
            (addInclude tables1 owner subSpec.TableName ref.PointsFrom)

/-- The function `ensureSpec(tables, info)`, `info` being the entry stored under
`name`; the first argument bounds the recursion depth. -/
def ensureSpec : Nat → Registry → String → Option GenResult
  | 0, _, _ => none
  | fuel + 1, tables, name =>
    match lookupInfo tables name with
    | none => some (.error "nil pointer dereference")
    | some info =>
      if info.allIncludeSpec.isSome then
        -- Some other ensureSpec already filled this in
        some (.ok tables)
      else
        let tables0 := modifyInfo initSpec name tables
        match ensureReferencedSpecs (ensureSpec fuel) name
            (info.meta.References ++ info.explicitBelongsTo) tables0 with
        | none => none
        | some (.error e) => some (.error e)
        | some (.ok tables1) =>
          some (.ok (modifyInfo normalizeInfo name tables1))

/-- The loop `for _, info := range g.tables { ensureSpec(g.tables, info) }` of
`populateTableInfo`; `order` is the order in which the map is iterated. -/
def ensureAllSpecs (fuel : Nat) : List String → Registry → Option GenResult
  | [], tables => some (.ok tables)
  | name :: rest, tables =>
    match ensureSpec fuel tables name with
    | none => none
    | some (.error e) => some (.error e)
    | some (.ok tables1) => ensureAllSpecs fuel rest tables1

/-- The include spec object a pointer refers to. -/
def specAt (tables : Registry) (ptr : String) : Option Spec :=
  (lookupInfo tables ptr).bind (fun info => info.allIncludeSpec)

/-- The entries of the `Includes` map of the spec a pointer refers to. -/
def includesAt (tables : Registry) (ptr : String) : List (String × String) :=
  ((specAt tables ptr).bind (fun s => s.Includes)).getD []

/-- Whether `key` is a key of an `Includes` map at most `depth` levels below the
spec `ptr` refers to (`depth = 0`: the spec's own map). -/
def nestedKeyWithin (tables : Registry) : Nat → String → String → Bool
  | 0, ptr, key => (includesAt tables ptr).any (fun e => e.1 == key)
  | depth + 1, ptr, key =>
    (includesAt tables ptr).any (fun e => e.1 == key) ||
    (includesAt tables ptr).any (fun e => nestedKeyWithin tables depth e.2 key)

/-- The number of registry entries whose `allIncludeSpec` is still nil. -/
def nilCount (tables : Registry) : Nat :=
  tables.countP (fun info => info.allIncludeSpec.isNone)

/-- An info without its include spec: what `ensureSpec` never writes. -/
def eraseSpec (info : tableGenInfo) : tableGenInfo :=
  { info with allIncludeSpec := none }

/-- The references `ensureSpec` walks for an info: the catalog references, then
the explicit belongs-to references. -/
def walkedRefs (info : tableGenInfo) : List refMeta :=
  info.meta.References ++ info.explicitBelongsTo

/-- The relationship edge followed by `ensureSpec`: the table stored under `a`
has a walked reference whose referencing table is stored under `b`. -/
def refEdge (tables : Registry) (a b : String) : Prop :=
  ∃ info, lookupInfo tables a = some info ∧
    (∃ ref ∈ walkedRefs info, ref.PointsFrom = b) ∧ (lookupInfo tables b).isSome

/-- Soundness of the stored include specs: every spec carries the `PgName` of
its table, and every entry of its `Includes` map comes from a walked reference
of that table and is keyed by the `PgName` of the referencing table. -/
def SpecSound (tables : Registry) : Prop :=
  ∀ info ∈ tables, ∀ s, info.allIncludeSpec = some s →
    s.TableName = info.meta.PgName ∧
    ∀ e ∈ s.Includes.getD [],
      (∃ ref ∈ walkedRefs info, ref.PointsFrom = e.2) ∧
      ∃ sub, lookupInfo (tables.map eraseSpec) e.2 = some sub ∧ sub.meta.PgName = e.1

/-- What a run of `ensureSpec` keeps: it returns a registry, writes nothing but
include specs, leaves no more nil specs than before, removes no spec, and keeps
the stored specs sound. -/
def EnsureOk (t : Registry) (r : Option GenResult) : Prop :=
  ∃ t', r = some (.ok t') ∧ t'.map eraseSpec = t.map eraseSpec ∧
    nilCount t' ≤ nilCount t ∧
    (∀ k, (specAt t k).isSome → (specAt t' k).isSome) ∧
    (SpecSound t → SpecSound t')

/-- The include spec of the table stored under `k` is closed: for every
relationship edge from `k` to a table `b`, the `Includes` map of the spec holds
the spec of `b` under the name of `b`. -/
def specClosed (tables : Registry) (k : String) : Prop :=
  ∀ b, refEdge tables k b → (b, b) ∈ includesAt tables k

/-- Every include spec that exists is closed, except for the tables `pending`,
whose call of `ensureSpec` has not returned yet. -/
def SpecComplete (pending : List String) (tables : Registry) : Prop :=
  ∀ k, (specAt tables k).isSome → k ∈ pending ∨ specClosed tables k

/-- No entry that maps the name of a table to the spec of that table has been
removed from an `Includes` map. -/
def includesKept (t t' : Registry) : Prop :=
  ∀ k b, (b, b) ∈ includesAt t k → (b, b) ∈ includesAt t' k

/-! ## Example schemas -/

/-- A column `id`, the primary key of the example tables. -/
def exampleIdCol : colMeta :=
  { PgName := "id", GoName := "Id", Nullable := false, IsPrimary := true,
    IsTimestampWithZone := false }

/-- A foreign-key column of the example tables. -/
def exampleFkCol (name goName : String) : colMeta :=
  { PgName := name, GoName := goName, Nullable := false, IsPrimary := false,
    IsTimestampWithZone := false }

/-- The single-column foreign key `frm.fk -> dst.id`, as the catalog reports it. -/
def exampleRef (frm dst : String) : refMeta :=
  { PointsTo := dst, PointsToFields := [some exampleIdCol], PointsFrom := frm,
    PointsFromFields := [some (exampleFkCol (dst ++ "_id") "Fk")], OneToOne := false,
    Nullable := false }

/-- A freshly populated registry entry (`info := &tableGenInfo{}` with `config`
and `meta` filled in) for a table with primary key `id` and the given
references pointing at it. -/
def exampleInfo (name : String) (noInfer : Bool) (refs : List refMeta) : tableGenInfo :=
  { config := { Name := name, NoInferBelongsTo := noInfer, CreatedAtField := "",
                UpdatedAtField := "", BelongsTo := [] },
    explicitBelongsTo := [], allIncludeSpec := none,
    hasUpdateAtField := false, updatedAtFieldIsNullable := false, updatedAtHasTimezone := false,
    hasCreatedAtField := false, createdAtFieldIsNullable := false, createdAtHasTimezone := false,
    meta := { PgName := name, GoName := name, PkeyCol := some exampleIdCol, PkeyColIdx := 0,
              Cols := [exampleIdCol], References := refs } }

/-- One table `t` with a foreign key to itself. -/
def selfRefRegistry : Registry :=
  [exampleInfo "t" false [exampleRef "t" "t"]]

/-- One table `t` with a foreign key to itself, configured with
`no_infer_belongs_to`. -/
def selfRefNoInferRegistry : Registry :=
  [exampleInfo "t" true [exampleRef "t" "t"]]

/-- Two tables referencing each other: `b` has a foreign key to `a` and `a` has
one to `b`. -/
def cyclicRegistry : Registry :=
  [exampleInfo "a" false [exampleRef "b" "a"], exampleInfo "b" false [exampleRef "a" "b"]]

/-- Table `b` has a foreign key to `a`; no cycle. -/
def chainRegistry : Registry :=
  [exampleInfo "a" false [exampleRef "b" "a"], exampleInfo "b" false []]

/-- Table `b` has a foreign key to `a` and is configured with
`no_infer_belongs_to`. -/
def noInferRegistry : Registry :=
  [exampleInfo "a" false [exampleRef "b" "a"], exampleInfo "b" true []]

/-! ## The reference filter of `genTable` -/

/-- The loop `for _, ref := range genCtx.References` of `genTable`, from index
`i` on, `n` elements being left.  `arr` is the backing array of the slice, which
`tableGenCtxFromInfo` shares with `info.meta.References`; the loop writes the
kept references to `arr[kept]`.  Returns the array and `kept`. -/
def filterReferencesLoop (tables : Registry) :
    Nat → Nat → List refMeta → Nat → Except String (List refMeta × Nat)
  | 0, _, arr, kept => .ok (arr, kept)
  | n + 1, i, arr, kept =>
    match arr[i]? with
    | none => .ok (arr, kept)
    | some ref =>
      let step : List refMeta × Nat :=
        match lookupInfo tables ref.PointsFrom with
        | some fromTable =>
          if !fromTable.config.NoInferBelongsTo then (arr.set kept ref, kept + 1)
          else (arr, kept)
        | none => (arr, kept)
      if ref.PointsFromFields.length != 1 then
        .error "multi-column foreign keys not supported"
      else filterReferencesLoop tables n (i + 1) step.1 step.2

/-- The reference list `genTable` hands to the templates for the table stored
under `name`: the primary-key check, the filter loop, the slice
`genCtx.References[:kept]`, then the table's `explicitBelongsTo` appended; an
error is wrapped by the deferred function with the table's name.  `genTables`
calls it for registered tables only; the first branch stands for the nil
dereference on any other name. -/
def genTableReferences (tables : Registry) (name : String) : Except String (List refMeta) :=
  match lookupInfo tables name with
  | none => .error ("while generating table '" ++ name ++ "': nil pointer dereference")
  | some tableInfo =>
    match tableInfo.meta.PkeyCol with
    | none => .error ("while generating table '" ++ name ++ "': no primary key for table")
    | some _ =>
      match filterReferencesLoop tables tableInfo.meta.References.length 0
          tableInfo.meta.References 0 with
      | .error e => .error ("while generating table '" ++ name ++ "': " ++ e)
      | .ok (arr, kept) => .ok (arr.take kept ++ tableInfo.explicitBelongsTo)

/-! ## Run-time data model of the generated code -/

/-- A `time.Time`: an instant and the location it is expressed in. -/
structure Time where
  instant : Int
  location : String
deriving DecidableEq, Repr

/-- The method `time.Time.UTC`: the same instant, in the location UTC. -/
def Time.UTC (t : Time) : Time :=
  { t with location := "UTC" }

/-- A value of a column, of a key or of a statement argument. -/
inductive Val where
  | null
  | int (n : Int)
  | str (s : String)
  | time (t : Time)
deriving DecidableEq, Repr

/-- The column fields of a generated record struct, in generation-time column
order. -/
abbrev Row := List Val

/-- An argument of a statement: a value, or `pq.Array(ids)`. -/
inductive SqlArg where
  | scalar (v : Val)
  | array (vs : List Val)
deriving DecidableEq, Repr

/-- A statement handed to the database: its text and its arguments. -/
abbrev Stmt := String × List SqlArg

/-- An open `*sql.Rows`: one entry per `rows.Next()` that answers true, holding
what scanning that row yields (the record or key, or the error of `Scan`), and
the result of `rows.Close()`. -/
structure Rows where
  scans : List (Except String Row)
  closeErr : Option String
deriving DecidableEq

/-- A `sql.Result`: what `RowsAffected()` answers. -/
structure ExecResult where
  RowsAffected : Except String Int
deriving DecidableEq

/-- The database handle `p.db` as an oracle for the three calls the generated
code makes. -/
structure DB where
  QueryContext : String → List SqlArg → Except String Rows
  ExecContext : String → List SqlArg → Except String ExecResult
  /-- The call `QueryRowContext(...).Scan(&id)`: the scanned key or its error. -/
  QueryRowContext : String → List SqlArg → Except String Val

/-- The generation context `tableGenCtx` the templates are executed with
(`AllIncludeSpec`, the text of the include spec, apart). -/
structure tableGenCtx where
  PgName : String
  GoName : String
  PkeyCol : Option colMeta
  PkeyColIdx : Nat
  Cols : List colMeta
  References : List refMeta
  HasCreatedAtField : Bool
  CreatedAtFieldIsNullable : Bool
  CreatedAtHasTimezone : Bool
  CreatedAtField : String
  HasUpdatedAtField : Bool
  UpdatedAtHasTimezone : Bool
  UpdatedAtFieldIsNullable : Bool
  UpdatedAtField : String
deriving DecidableEq, Repr

/-- The template expression `.PkeyCol.PgName`; `genTable` emits no code when
`PkeyCol` is nil. -/
def tableGenCtx.pkeyPgName (ctx : tableGenCtx) : String :=
  (ctx.PkeyCol.map (fun c => c.PgName)).getD ""

/-- The template expression `.PkeyCol.GoName`. -/
def tableGenCtx.pkeyGoName (ctx : tableGenCtx) : String :=
  (ctx.PkeyCol.map (fun c => c.GoName)).getD ""

/-- The generated constant `<GoName><field>FieldIndex`: the constants block
declares one per column, the `i`-th column getting the value `i`. -/
def tableGenCtx.fieldIndex (ctx : tableGenCtx) (goName : String) : Nat :=
  ctx.Cols.findIdx (fun c => c.GoName == goName)

/-- The generated variable `fieldsFor<GoName>`. -/
def tableGenCtx.fieldsFor (ctx : tableGenCtx) : List String :=
  ctx.Cols.map (fun c => c.PgName)

/-- What a generated function hands back: its results and the statements it
sent to the database, in order. -/
structure Outcome (α : Type) where
  ret : α
  err : Option String
  trace : List Stmt
deriving DecidableEq

/-- The text of the query of `List<GoName>`. -/
def listStmt (ctx : tableGenCtx) : String :=
  "SELECT * FROM \"" ++ ctx.PgName ++ "\" WHERE \"" ++ ctx.pkeyPgName ++ "\" = ANY($1)"

/-- The loop `for rows.Next() { err = value.Scan(...); ...; ret = append(ret, value) }`:
the records appended so far, or the first scan error. -/
def scanRows : List (Except String Row) → List Row → Except String (List Row)
  | [], ret => .ok ret
  | .error e :: _, _ => .error e
  | .ok value :: rest, ret => scanRows rest (ret ++ [value])

/-- The deferred function of `List<GoName>`: it closes the rows and folds the
result of `Close` into the named results `ret` and `err`. -/
def listDeferred (closeErr : Option String) (ret : Option (List Row)) (err : Option String) :
    Option (List Row) × Option String :=
  match err with
  | none =>
    match closeErr with
    | none => (ret, none)
    | some ce => (none, some ce)
  | some e =>
    match closeErr with
    | none => (ret, some e)
    | some rowErr => (ret, some (e ++ " AND " ++ rowErr))

/-- The generated `pgClientImpl.List<GoName>`; a nil slice is `none`. -/
def ListGoName (ctx : tableGenCtx) (db : DB) (ids : List Val) : Outcome (Option (List Row)) :=
  if ids.length = 0 then
    { ret := some [], err := none, trace := [] }
  else
    match db.QueryContext (listStmt ctx) [.array ids] with
    | .error e => { ret := none, err := some e, trace := [(listStmt ctx, [.array ids])] }
    | .ok rows =>
      let body : Option (List Row) × Option String :=
        match scanRows rows.scans [] with
        | .error e => (none, some e)
        | .ok ret =>
          if ret.length != ids.length then
            (none, some ("List" ++ ctx.GoName ++ ": asked for " ++ toString ids.length
              ++ " records, found " ++ toString ret.length))
          else (some ret, none)
      let final := listDeferred rows.closeErr body.1 body.2
      { ret := final.1, err := final.2, trace := [(listStmt ctx, [.array ids])] }

/-- The generated `pgClientImpl.Get<GoName>`.  `none` is the run-time panic of
`values[0]` on a slice without elements. -/
def GetGoName (ctx : tableGenCtx) (db : DB) (id : Val) : Option (Outcome (Option Row)) :=
  let listed := ListGoName ctx db [id]
  match listed.err with
  | some e => some { ret := none, err := some e, trace := listed.trace }
  | none =>
    match (listed.ret.getD [])[0]? with
    | none => none
    | some value => some { ret := some value, err := none, trace := listed.trace }

/-- The text of the statement of `BulkDelete<GoName>`. -/
def bulkDeleteStmt (ctx : tableGenCtx) : String :=
  "DELETE FROM \"" ++ ctx.PgName ++ "\" WHERE \"" ++ ctx.pkeyPgName ++ "\" = ANY($1)"

/-- The generated `pgClientImpl.BulkDelete<GoName>`. -/
def BulkDeleteGoName (ctx : tableGenCtx) (db : DB) (ids : List Val) : Outcome Unit :=
  if ids.length = 0 then
    { ret := (), err := none, trace := [] }
  else
    match db.ExecContext (bulkDeleteStmt ctx) [.array ids] with
    | .error e => { ret := (), err := some e, trace := [(bulkDeleteStmt ctx, [.array ids])] }
    | .ok res =>
      match res.RowsAffected with
      | .error e => { ret := (), err := some e, trace := [(bulkDeleteStmt ctx, [.array ids])] }
      | .ok nrows =>
        if nrows != (ids.length : Int) then
          { ret := (),
            err := some ("BulkDelete" ++ ctx.GoName ++ ": " ++ toString nrows
              ++ " rows deleted, expected " ++ toString ids.length),
            trace := [(bulkDeleteStmt ctx, [.array ids])] }
        else
          { ret := (), err := none, trace := [(bulkDeleteStmt ctx, [.array ids])] }

/-! ## A database holding one table -/

/-- The key of a stored row: its column `pk`. -/
def rowKey (pk : Nat) (r : Row) : Val :=
  r.getD pk Val.null

/-- The rows of `stored` matched by `pkey = ANY(ids)`: every stored row whose
key is among `ids`, once each, in stored order. -/
def matching (pk : Nat) (stored : List Row) (ids : List Val) : List Row :=
  stored.filter (fun r => decide (rowKey pk r ∈ ids))

/-- A database whose one table holds the rows `stored`.  It answers a query with
one array argument by the matching rows, each scanning without error, and a
statement with one array argument by the number of matching rows. -/
def storedDB (pk : Nat) (stored : List Row) : DB where
  QueryContext := fun _ args =>
    match args with
    | [.array ids] => .ok { scans := (matching pk stored ids).map Except.ok, closeErr := none }
    | _ => .error "unexpected arguments"
  ExecContext := fun _ args =>
    match args with
    | [.array ids] => .ok { RowsAffected := .ok ((matching pk stored ids).length : Int) }
    | _ => .error "unexpected arguments"
  QueryRowContext := fun _ _ => .error "sql: no rows in result set"

/-- The generation context of a table `users(id, name)` without timestamp
fields. -/
def usersCtx : tableGenCtx :=
  { PgName := "users", GoName := "User", PkeyCol := some exampleIdCol, PkeyColIdx := 0,
    Cols := [exampleIdCol, exampleFkCol "name" "Name"], References := [],
    HasCreatedAtField := false, CreatedAtFieldIsNullable := false,
    CreatedAtHasTimezone := false, CreatedAtField := "",
    HasUpdatedAtField := false, UpdatedAtHasTimezone := false,
    UpdatedAtFieldIsNullable := false, UpdatedAtField := "" }

/-- Two stored rows of `users`, with keys 1 and 2. -/
def usersRows : List Row :=
  [[Val.int 1, Val.str "ann"], [Val.int 2, Val.str "bob"]]

/-! ## Field masks, `Update`, `BulkInsert`, `BulkUpsert` -/

/-- Modelled from the spec: the type `pggen.FieldSet`, which is declared outside
`gen_table.go`: "a fixed-size bitset, one bit per column", bit `i` standing for
the `i`-th column in generation-time order. -/
structure FieldSet where
  bits : List Bool
deriving DecidableEq, Repr

/-- Modelled from the spec: the method `FieldSet.Test`, which reads one bit. -/
def FieldSet.Test (m : FieldSet) (i : Nat) : Bool :=
  m.bits.getD i false

/-- Modelled from the spec: the method `FieldSet.Set`, which writes one bit. -/
def FieldSet.Set (m : FieldSet) (i : Nat) (v : Bool) : FieldSet :=
  if i < m.bits.length then { bits := m.bits.set i v }
  else { bits := m.bits ++ List.replicate (i - m.bits.length) false ++ [v] }

/-- Modelled from the spec: the method `FieldSet.CountSetBits`. -/
def FieldSet.CountSetBits (m : FieldSet) : Nat :=
  m.bits.count true

/-- The struct field `value.<goName>` of a record: the column whose Go name is
`goName`. -/
def tableGenCtx.field (ctx : tableGenCtx) (goName : String) (value : Row) : Val :=
  value.getD (ctx.fieldIndex goName) Val.null

/-- The assignment `value.<goName> = v`. -/
def tableGenCtx.setField (ctx : tableGenCtx) (goName : String) (v : Val) (value : Row) : Row :=
  value.set (ctx.fieldIndex goName) v

/-- The timestamp a generated function stamps: `now` when the flag says the
column keeps its time zone, `now.UTC()` otherwise. -/
def stampTime (hasTimezone : Bool) (now : Time) : Time :=
  if hasTimezone then now else now.UTC

/-- What `Update<GoName>` hands back: the named results (`ret` is `none` while
it holds the zero value), the record behind the pointer `value` after the call,
and the statements sent. -/
structure UpdateOutcome where
  ret : Option Val
  err : Option String
  value : Row
  trace : List Stmt
deriving DecidableEq

/-- The block `{{- range .Cols }} if fieldMask.Test(<col>FieldIndex) { args =
append(args, value.<col>) }` of `Update<GoName>`; the template function
`SqlArgument` wraps the value for the driver and is taken as the identity. -/
def maskedArgs (ctx : tableGenCtx) (fieldMask : FieldSet) (value : Row) : List SqlArg :=
  ctx.Cols.filterMap (fun c =>
    if fieldMask.Test (ctx.fieldIndex c.GoName) then some (.scalar (ctx.field c.GoName value))
    else none)

/-- The generated `pgClientImpl.Update<GoName>`.  `genUpdateStmt` is defined
outside `gen_table.go` and is a parameter; `now` is what `time.Now()` answers. -/
def UpdateGoName (ctx : tableGenCtx)
    (genUpdateStmt : String → String → List String → FieldSet → String → String)
    (db : DB) (now : Time) (value : Row) (fieldMask : FieldSet) : UpdateOutcome :=
  if !fieldMask.Test (ctx.fieldIndex ctx.pkeyGoName) then
    { ret := none,
      err := some ("primary key required for updates to '" ++ ctx.PgName ++ "'"),
      value := value, trace := [] }
  else
    let value1 : Row :=
      if ctx.HasUpdatedAtField then
        ctx.setField ctx.UpdatedAtField (Val.time (stampTime ctx.UpdatedAtHasTimezone now)) value
      else value
    let fieldMask1 : FieldSet :=
      if ctx.HasUpdatedAtField then fieldMask.Set (ctx.fieldIndex ctx.UpdatedAtField) true
      else fieldMask
    let updateStmt :=
      genUpdateStmt ctx.PgName ctx.pkeyPgName ctx.fieldsFor fieldMask1 ctx.pkeyPgName
    let args := maskedArgs ctx fieldMask1 value1 ++ [.scalar (ctx.field ctx.pkeyGoName value1)]
    match db.QueryRowContext updateStmt args with
    | .error e => { ret := none, err := some e, value := value1, trace := [(updateStmt, args)] }
    | .ok id => { ret := some id, err := none, value := value1, trace := [(updateStmt, args)] }

/-- What a bulk write hands back: the keys (a nil slice is `none`), the error,
the elements of the caller's slice `values` after the call, and the statements
sent. -/
structure BulkOutcome where
  ret : Option (List Val)
  err : Option String
  values : List Row
  trace : List Stmt
deriving DecidableEq

/-- The loop `for rows.Next() { err = rows.Scan(&id); ...; ids = append(ids, id) }`
over the rows of a `RETURNING` clause, each holding the key in its one column. -/
def scanIds : List (Except String Row) → List Val → Except String (List Val)
  | [], ids => .ok ids
  | .error e :: _, _ => .error e
  | .ok r :: rest, ids => scanIds rest (ids ++ [r.getD 0 Val.null])

/-- The query and the scan loop that end `BulkInsert<GoName>` and
`BulkUpsert<GoName>`; the result of the deferred `rows.Close()` is dropped. -/
def queryIds (db : DB) (stmt : String) (args : List SqlArg) (values : List Row) : BulkOutcome :=
  match db.QueryContext stmt args with
  | .error e => { ret := none, err := some e, values := values, trace := [(stmt, args)] }
  | .ok rows =>
    match scanIds rows.scans [] with
    | .error e => { ret := none, err := some e, values := values, trace := [(stmt, args)] }
    | .ok ids => { ret := some ids, err := none, values := values, trace := [(stmt, args)] }

/-- The created-at loop of `BulkInsert<GoName>` and `BulkUpsert<GoName>`. -/
def stampCreatedAt (ctx : tableGenCtx) (now : Time) (values : List Row) : List Row :=
  if ctx.HasCreatedAtField then
    values.map (ctx.setField ctx.CreatedAtField (Val.time (stampTime ctx.CreatedAtHasTimezone now)))
  else values

/-- The updated-at loop of `BulkInsert<GoName>`, whose template tests
`.CreatedAtHasTimezone`. -/
def insertStampUpdatedAt (ctx : tableGenCtx) (now : Time) (values : List Row) : List Row :=
  if ctx.HasUpdatedAtField then
    values.map (ctx.setField ctx.UpdatedAtField (Val.time (stampTime ctx.CreatedAtHasTimezone now)))
  else values

/-- The updated-at loop of `BulkUpsert<GoName>`, whose template tests
`.UpdatedAtHasTimezone`. -/
def upsertStampUpdatedAt (ctx : tableGenCtx) (now : Time) (values : List Row) : List Row :=
  if ctx.HasUpdatedAtField then
    values.map (ctx.setField ctx.UpdatedAtField (Val.time (stampTime ctx.UpdatedAtHasTimezone now)))
  else values

/-- The generated slice `fields` of `BulkInsert<GoName>`: the columns that are
not primary. -/
def insertFields (ctx : tableGenCtx) : List String :=
  (ctx.Cols.filter (fun c => !c.IsPrimary)).map (fun c => c.PgName)

/-- The arguments `BulkInsert<GoName>` appends for one record. -/
def insertArgsOf (ctx : tableGenCtx) (v : Row) : List SqlArg :=
  (ctx.Cols.filter (fun c => !c.IsPrimary)).map (fun c => .scalar (ctx.field c.GoName v))

/-- The generated `pgClientImpl.BulkInsert<GoName>`.  `genBulkInsertStmt` is
defined outside `gen_table.go` and is a parameter. -/
def BulkInsertGoName (ctx : tableGenCtx)
    (genBulkInsertStmt : String → List String → Nat → String → String)
    (db : DB) (now : Time) (values : List Row) : BulkOutcome :=
  if values.length = 0 then
    { ret := some [], err := none, values := values, trace := [] }
  else
    let values1 := insertStampUpdatedAt ctx now (stampCreatedAt ctx now values)
    let args := values1.flatMap (insertArgsOf ctx)
    let bulkInsertQuery :=
      genBulkInsertStmt ctx.PgName (insertFields ctx) values1.length ctx.pkeyPgName
    queryIds db bulkInsertQuery args values1

/-- The field mask `BulkUpsert<GoName>` builds its statement from: the caller's
mask after `fieldMask.Set(<GoName><UpdatedAtField>FieldIndex, true)` when the
table has an updated-at field. -/
def upsertMask (ctx : tableGenCtx) (fieldMask : FieldSet) : FieldSet :=
  if ctx.HasUpdatedAtField then fieldMask.Set (ctx.fieldIndex ctx.UpdatedAtField) true
  else fieldMask

/-- The slice `updateCols` of `BulkUpsert<GoName>`. -/
def updateCols (ctx : tableGenCtx) (fieldMask : FieldSet) : List String :=
  ctx.Cols.filterMap (fun c =>
    if fieldMask.Test (ctx.fieldIndex c.GoName) then some c.PgName else none)

/-- The slice `updateExprs` of `BulkUpsert<GoName>`. -/
def updateExprs (ctx : tableGenCtx) (fieldMask : FieldSet) : List String :=
  ctx.Cols.filterMap (fun c =>
    if fieldMask.Test (ctx.fieldIndex c.GoName) then some ("excluded." ++ c.PgName) else none)

/-- A joined list between the runes `(` and `)` written `if len(updateCols) > 1`. -/
def parenIfMany (ncols : Nat) (joined : String) : String :=
  (if ncols > 1 then "(" else "") ++ joined ++ (if ncols > 1 then ")" else "")

/-- The conflict clause `BulkUpsert<GoName>` writes after the text of
`genInsertCommon`. -/
def conflictClause (ctx : tableGenCtx) (constraintNames : List String) (fieldMask : FieldSet) :
    String :=
  if fieldMask.CountSetBits > 0 then
    "ON CONFLICT (" ++ ",".intercalate constraintNames ++ ") DO UPDATE SET "
      ++ parenIfMany (updateCols ctx fieldMask).length (",".intercalate (updateCols ctx fieldMask))
      ++ " = "
      ++ parenIfMany (updateCols ctx fieldMask).length (",".intercalate (updateExprs ctx fieldMask))
  else "ON CONFLICT DO NOTHING"

/-- The arguments `BulkUpsert<GoName>` appends for one record, from column index
`i` on: the column at index `PkeyColIdx` only when its bit is set. -/
def upsertArgsFrom (ctx : tableGenCtx) (fieldMask : FieldSet) (v : Row) :
    Nat → List colMeta → List SqlArg
  | _, [] => []
  | i, col :: rest =>
    (if i = ctx.PkeyColIdx then
      (if fieldMask.Test (ctx.fieldIndex col.GoName) then [.scalar (ctx.field col.GoName v)]
       else [])
     else [.scalar (ctx.field col.GoName v)])
    ++ upsertArgsFrom ctx fieldMask v (i + 1) rest

/-- The text of the statement of `BulkUpsert<GoName>` for `n` records;
`genInsertCommon` is defined outside `gen_table.go`, and stands for the text it
writes to the builder. -/
def upsertStmt (ctx : tableGenCtx)
    (genInsertCommon : String → List String → Nat → String → Bool → String)
    (n : Nat) (constraintNames : List String) (fieldMask : FieldSet) : String :=
  genInsertCommon ctx.PgName ctx.fieldsFor n ctx.pkeyPgName
      (fieldMask.Test (ctx.fieldIndex ctx.pkeyGoName))
    ++ conflictClause ctx constraintNames fieldMask
    ++ " RETURNING \"" ++ ctx.pkeyPgName ++ "\""

/-- The generated `pgClientImpl.BulkUpsert<GoName>`; a nil `constraintNames` is
the empty list. -/
def BulkUpsertGoName (ctx : tableGenCtx)
    (genInsertCommon : String → List String → Nat → String → Bool → String)
    (db : DB) (now : Time) (values : List Row) (constraintNames : List String)
    (fieldMask : FieldSet) : BulkOutcome :=
  if values.length = 0 then
    { ret := some [], err := none, values := values, trace := [] }
  else
    let constraintNames1 :=
      if constraintNames.length = 0 then [ctx.pkeyPgName] else constraintNames
    let values1 := upsertStampUpdatedAt ctx now (stampCreatedAt ctx now values)
    let fieldMask1 := upsertMask ctx fieldMask
    let stmt := upsertStmt ctx genInsertCommon values1.length constraintNames1 fieldMask1
    let args := values1.flatMap (fun v => upsertArgsFrom ctx fieldMask1 v 0 ctx.Cols)
    queryIds db stmt args values1

/-- The columns selected by a list of bits, one bit per column in
generation-time order. -/
def maskedColumns (cols : List colMeta) (bits : List Bool) : List colMeta :=
  (cols.zip bits).filterMap (fun p => if p.2 then some p.1 else none)

/-- The columns whose bit is set in the mask `BulkUpsert<GoName>` builds its
statement from, in generation-time order. -/
def upsertColumns (ctx : tableGenCtx) (fieldMask : FieldSet) : List colMeta :=
  maskedColumns ctx.Cols (upsertMask ctx fieldMask).bits

/-- The generation context of a table `notes(id, body, updated_at)` with an
updated-at field. -/
def notesCtx : tableGenCtx :=
  { PgName := "notes", GoName := "Note", PkeyCol := some exampleIdCol, PkeyColIdx := 0,
    Cols := [exampleIdCol, exampleFkCol "body" "Body",
      { PgName := "updated_at", GoName := "UpdatedAt", Nullable := false, IsPrimary := false,
        IsTimestampWithZone := true }],
    References := [],
    HasCreatedAtField := false, CreatedAtFieldIsNullable := false,
    CreatedAtHasTimezone := false, CreatedAtField := "",
    HasUpdatedAtField := true, UpdatedAtHasTimezone := true,
    UpdatedAtFieldIsNullable := false, UpdatedAtField := "UpdatedAt" }

/-- A stand-in for `genInsertCommon`: the head of an insert statement. -/
def exampleInsertCommon (table : String) (_fields : List String) (_n : Nat) (_pkey : String)
    (_includeID : Bool) : String :=
  "INSERT INTO \"" ++ table ++ "\" VALUES ... "

/-- A database that refuses every call. -/
def refusingDB : DB where
  QueryContext := fun _ _ => .error "connection refused"
  ExecContext := fun _ _ => .error "connection refused"
  QueryRowContext := fun _ _ => .error "connection refused"

/-! ## Include filling -/

/-- A requested `*include.Spec` at run time: a table name and the map from
related-table name to the nested spec. -/
inductive IncludeSpec where
  | mk (TableName : String) (Includes : List (String × IncludeSpec))

/-- The field `TableName` of a requested spec. -/
def IncludeSpec.TableName : IncludeSpec → String
  | .mk name _ => name

/-- The field `Includes` of a requested spec. -/
def IncludeSpec.Includes : IncludeSpec → List (String × IncludeSpec)
  | .mk _ includes => includes

/-- A generated record struct behind a pointer: its column fields, its
one-to-one fields `<PointsFrom.GoName> *T` (absent: nil) and its one-to-many
fields `<PointsFrom.PluralGoName> []*T`, both keyed by the referencing table. -/
structure Record where
  cols : Row
  single : List (String × Nat)
  plural : List (String × List (Option Nat))
deriving DecidableEq, Repr

/-- Map assignment `m[k] = v` on an association list. -/
def assocSet {κ ν : Type} [BEq κ] (k : κ) (v : ν) : List (κ × ν) → List (κ × ν)
  | [] => [(k, v)]
  | (k', v') :: rest =>
    if k' == k then (k, v) :: rest else (k', v') :: assocSet k v rest

/-- The assignment `parentRec.<PointsFrom.GoName> = childRec`. -/
def Record.assignSingle (parent : Record) (table : String) (child : Nat) : Record :=
  { parent with single := assocSet table child parent.single }

/-- The assignment `parentRec.<PointsFrom.PluralGoName> = append(..., childRec)`. -/
def Record.appendPlural (parent : Record) (table : String) (child : Nat) : Record :=
  { parent with
    plural := assocSet table (((parent.plural.lookup table).getD []) ++ [some child]) parent.plural }

/-- The memory and effects of one include-filling call: the records behind
pointers (a pointer is an index), the map `loadedRecordTab` from table name to
the map from key to record pointer, and the statements sent so far. -/
structure FillState where
  heap : List Record
  loadedRecordTab : List (String × List (Val × Nat))
  trace : List Stmt
deriving DecidableEq

/-- How a generated function ends: it returns with a state and an error, or it
panics. -/
inductive Step (σ : Type) where
  | ret (st : σ) (err : Option String)
  | panic (msg : String)
deriving DecidableEq

/-- The generated code of the table named `name`. -/
def ctxOf (prog : List tableGenCtx) (name : String) : Option tableGenCtx :=
  prog.find? (fun c => c.PgName == name)

/-- The template expression `(index .PointsFromFields 0).GoName`. -/
def refMeta.fromGoName (ref : refMeta) : String :=
  (ref.PointsFromFields.head?.join.map (fun c => c.GoName)).getD ""

/-- The template expression `(index .PointsFromFields 0).PgName`. -/
def refMeta.fromPgName (ref : refMeta) : String :=
  (ref.PointsFromFields.head?.join.map (fun c => c.PgName)).getD ""

/-- The template expression `(index .PointsToFields 0).GoName`. -/
def refMeta.toGoName (ref : refMeta) : String :=
  (ref.PointsToFields.head?.join.map (fun c => c.GoName)).getD ""

/-- The two loops of `impl<GoName>BulkFillIncludes` that enter `recs` in the
map `idToRecord`: with `keepLoaded` (the table was already in
`loadedRecordTab`) a key already present is kept, otherwise every record is
assigned.  `none` is the panic of reading a field through a nil pointer. -/
def loadRecords (ctx : tableGenCtx) (heap : List Record) (keepLoaded : Bool) :
    List (Option Nat) → List (Val × Nat) → Option (List (Val × Nat))
  | [], idToRecord => some idToRecord
  | none :: _, _ => none
  | some r :: rest, idToRecord =>
    match heap[r]? with
    | none => none
    | some record =>
      if keepLoaded && (idToRecord.lookup (ctx.field ctx.pkeyGoName record.cols)).isSome then
        loadRecords ctx heap keepLoaded rest idToRecord
      else
        loadRecords ctx heap keepLoaded rest
          (assocSet (ctx.field ctx.pkeyGoName record.cols) r idToRecord)

/-- The text of the query of `private<GoName>Fill<PointsFrom.GoName>`. -/
def fillStmt (ref : refMeta) : String :=
  "SELECT * FROM \"" ++ ref.PointsFrom ++ "\"\n\t\t WHERE \"" ++ ref.fromPgName
    ++ "\" = ANY($1)" ++ (if ref.OneToOne then "\n\t\t LIMIT 1" else "") ++ "\n\t\t "

/-- The loop `for rows.Next()` of `private<GoName>Fill<PointsFrom.GoName>`, which
associates each scanned child with its parent; `childCtx` is the generated code
of the referencing table. -/
def attachChildren (childCtx : tableGenCtx) (ref : refMeta)
    (parentIDToRecord childIDToRecord : List (Val × Nat)) :
    List (Except String Row) → List Record → Step (List Record)
  | [], heap => .ret heap none
  | .error e :: _, heap => .ret heap (some e)
  | .ok scannedChildRec :: rest, heap =>
    let alloc : List Record × Nat :=
      match childIDToRecord.lookup (childCtx.field childCtx.pkeyGoName scannedChildRec) with
      | some preloadedChildRec => (heap, preloadedChildRec)
      | none => (heap ++ [{ cols := scannedChildRec, single := [], plural := [] }], heap.length)
    match alloc.1[alloc.2]? with
    | none => .panic "invalid memory address or nil pointer dereference"
    | some child =>
      if ref.Nullable && childCtx.field ref.fromGoName child.cols == Val.null then
        .panic "invalid memory address or nil pointer dereference"
      else
        match (parentIDToRecord.lookup (childCtx.field ref.fromGoName child.cols)).bind
            (fun p => (alloc.1[p]?).map (fun parent => (p, parent))) with
        | none => .panic "invalid memory address or nil pointer dereference"
        | some (p, parent) =>
          if ref.OneToOne then
            -- parentRec.<child> = childRec; break
            .ret (alloc.1.set p (parent.assignSingle ref.PointsFrom alloc.2)) none
          else
            attachChildren childCtx ref parentIDToRecord childIDToRecord rest
              (alloc.1.set p (parent.appendPlural ref.PointsFrom alloc.2))

/-- The generated `private<GoName>Fill<PointsFrom.GoName>` for the reference
`ref` of a table; `prog` holds the generated code of every table.  The loop
over the map `parentIDToRecord` visits its entries in the order they were
entered. -/
def privateGoNameFill (prog : List tableGenCtx) (db : DB) (ref : refMeta) (st : FillState) :
    Step FillState :=
  match st.loadedRecordTab.lookup ref.PointsTo with
  | none => .ret st (some "internal pggen error: table not pre-loaded")
  | some parentIDToRecord =>
    match ctxOf prog ref.PointsTo, ctxOf prog ref.PointsFrom with
    | some parentCtx, some childCtx =>
      let ids := parentIDToRecord.map (fun e =>
        parentCtx.field ref.toGoName ((st.heap[e.2]?.map (fun r => r.cols)).getD []))
      let childIDToRecord := (st.loadedRecordTab.lookup ref.PointsFrom).getD []
      let sent : FillState := { st with trace := st.trace ++ [(fillStmt ref, [.array ids])] }
      match db.QueryContext (fillStmt ref) [.array ids] with
      | .error e => .ret sent (some e)
      | .ok rows =>
        match attachChildren childCtx ref parentIDToRecord childIDToRecord rows.scans
            sent.heap with
        | .panic msg => .panic msg
        | .ret heap err => .ret { sent with heap := heap } err
    | _, _ => .panic "no generated code for the table"

/-- The loop of `impl<GoName>BulkFillIncludes` that gathers `subRecs` from the
records `recs` for the reference `ref`. -/
def collectSubRecs (ref : refMeta) (heap : List Record) :
    List (Option Nat) → Option (List (Option Nat))
  | [] => some []
  | none :: _ => none
  | some outer :: rest =>
    match heap[outer]?, collectSubRecs ref heap rest with
    | some record, some more =>
      if ref.OneToOne then
        match record.single.lookup ref.PointsFrom with
        | some child => some (some child :: more)
        | none => some more
      else
        some (((record.plural.lookup ref.PointsFrom).getD []).filter
          (fun child => !(ref.Nullable && child.isNone)) ++ more)
    | _, _ => none

/-- The block `{{- range .References }}` of `impl<GoName>BulkFillIncludes`;
`recurse` is the call of the referencing table's `impl...BulkFillIncludes` and
answers `none` when it runs out of fuel. -/
def fillReferences (prog : List tableGenCtx) (db : DB)
    (recurse : String → List (Option Nat) → IncludeSpec → FillState → Option (Step FillState))
    (recs : List (Option Nat)) (includes : IncludeSpec) :
    List refMeta → FillState → Option (Step FillState)
  | [], st => some (.ret st none)
  | ref :: rest, st =>
    match includes.Includes.lookup ref.PointsFrom with
    | none => fillReferences prog db recurse recs includes rest st
    | some subSpec =>
      match privateGoNameFill prog db ref st with
      | .panic msg => some (.panic msg)
      | .ret st1 (some e) => some (.ret st1 (some e))
      | .ret st1 none =>
        match collectSubRecs ref st1.heap recs with
        | none => some (.panic "invalid memory address or nil pointer dereference")
        | some subRecs =>
          match recurse ref.PointsFrom subRecs subSpec st1 with
          | none => none
          | some (.panic msg) => some (.panic msg)
          | some (.ret st2 (some e)) => some (.ret st2 (some e))
          | some (.ret st2 none) => fillReferences prog db recurse recs includes rest st2

/-- The generated `pgClientImpl.impl<GoName>BulkFillIncludes` of the table named
`table`; the first argument bounds the depth of the calls. -/
def implGoNameBulkFillIncludes (prog : List tableGenCtx) (db : DB) :
    Nat → String → List (Option Nat) → IncludeSpec → FillState → Option (Step FillState)
  | 0, _, _, _, _ => none
  | fuel + 1, table, recs, includes, st =>
    match ctxOf prog table with
    | none => some (.panic "no generated code for the table")
    | some ctx =>
      if includes.TableName != ctx.PgName then
        some (.ret st (some ("expected includes for '" ++ ctx.PgName ++ "', got '"
          ++ includes.TableName ++ "'")))
      else
        let loaded : Option (List (Val × Nat)) :=
          match st.loadedRecordTab.lookup ctx.PgName with
          | some idToRecord => loadRecords ctx st.heap true recs idToRecord
          | none => loadRecords ctx st.heap false recs []
        match loaded with
        | none => some (.panic "invalid memory address or nil pointer dereference")
        | some idToRecord =>
          fillReferences prog db (implGoNameBulkFillIncludes prog db fuel) recs includes
            ctx.References
            { st with loadedRecordTab := assocSet ctx.PgName idToRecord st.loadedRecordTab }

/-- The generated `pgClientImpl.<GoName>BulkFillIncludes`: it starts from an
empty `loadedRecordTab`. -/
def GoNameBulkFillIncludes (prog : List tableGenCtx) (db : DB) (fuel : Nat) (table : String)
    (heap : List Record) (recs : List (Option Nat)) (includes : IncludeSpec) :
    Option (Step FillState) :=
  implGoNameBulkFillIncludes prog db fuel table recs includes
    { heap := heap, loadedRecordTab := [], trace := [] }

/-- The generation context of `customers(id, name)`, which `orders.customer_id`
references. -/
def customersCtx : tableGenCtx :=
  { PgName := "customers", GoName := "Customer", PkeyCol := some exampleIdCol, PkeyColIdx := 0,
    Cols := [exampleIdCol, exampleFkCol "name" "Name"],
    References := [{ PointsTo := "customers", PointsToFields := [some exampleIdCol],
                     PointsFrom := "orders",
                     PointsFromFields := [some (exampleFkCol "customer_id" "CustomerId")],
                     OneToOne := false, Nullable := false }],
    HasCreatedAtField := false, CreatedAtFieldIsNullable := false,
    CreatedAtHasTimezone := false, CreatedAtField := "",
    HasUpdatedAtField := false, UpdatedAtHasTimezone := false,
    UpdatedAtFieldIsNullable := false, UpdatedAtField := "" }

/-- The generation context of `orders(id, customer_id)`. -/
def ordersCtx : tableGenCtx :=
  { PgName := "orders", GoName := "Order", PkeyCol := some exampleIdCol, PkeyColIdx := 0,
    Cols := [exampleIdCol, exampleFkCol "customer_id" "CustomerId"], References := [],
    HasCreatedAtField := false, CreatedAtFieldIsNullable := false,
    CreatedAtHasTimezone := false, CreatedAtField := "",
    HasUpdatedAtField := false, UpdatedAtHasTimezone := false,
    UpdatedAtFieldIsNullable := false, UpdatedAtField := "" }

/-- The generated code of `customers` and `orders`. -/
def shopProg : List tableGenCtx :=
  [customersCtx, ordersCtx]

/-- The requested spec `customers.orders`. -/
def customersWithOrders : IncludeSpec :=
  .mk "customers" [("orders", .mk "orders" [])]

/-- Two customers behind the pointers 0 and 1. -/
def customersHeap : List Record :=
  [{ cols := [Val.int 1, Val.str "ann"], single := [], plural := [] },
   { cols := [Val.int 2, Val.str "bob"], single := [], plural := [] }]

/-- The requested spec `customers` with the one key `ghost`, a table that is no
reference of `customers`. -/
def customersWithGhost : IncludeSpec :=
  .mk "customers" [("ghost", .mk "ghost" [])]

/-! ## `genTable` -/

/-- The function `tableGenCtxFromInfo` (the field `AllIncludeSpec` apart);
`pgToGoName` is defined outside `gen_table.go` and is a parameter.  The slice
`References` of the result shares its backing array with `info.meta.References`. -/
def tableGenCtxFromInfo (pgToGoName : String → String) (info : tableGenInfo) : tableGenCtx :=
  { PgName := info.meta.PgName
    GoName := info.meta.GoName
    PkeyCol := info.meta.PkeyCol
    PkeyColIdx := info.meta.PkeyColIdx
    Cols := info.meta.Cols
    References := info.meta.References
    HasCreatedAtField := info.hasCreatedAtField
    CreatedAtField := pgToGoName info.config.CreatedAtField
    CreatedAtFieldIsNullable := info.createdAtFieldIsNullable
    CreatedAtHasTimezone := info.createdAtHasTimezone
    HasUpdatedAtField := info.hasUpdateAtField
    UpdatedAtField := pgToGoName info.config.UpdatedAtField
    UpdatedAtFieldIsNullable := info.updatedAtFieldIsNullable
    UpdatedAtHasTimezone := info.updatedAtHasTimezone }

/-- The test of the filter loop of `genTable`: the referencing table is in the
registry and has not set `NoInferBelongsTo`. -/
def inferenceKept (tables : Registry) (ref : refMeta) : Bool :=
  match lookupInfo tables ref.PointsFrom with
  | some fromTable => !fromTable.config.NoInferBelongsTo
  | none => false

/-- Where the filter loop of `genTable` stands: the backing array shared by
`genCtx.References` and `info.meta.References`, the counter `kept`, and the
error it returned with, if any. -/
structure FilterRun where
  arr : List refMeta
  kept : Nat
  err : Option String
deriving DecidableEq, Repr

/-- The loop `for _, ref := range genCtx.References` of `genTable`, from index
`i` on, `n` elements being left, with the array as the loop leaves it also when
it returns the multi-column error. -/
def filterReferencesRun (tables : Registry) : Nat → Nat → List refMeta → Nat → FilterRun
  | 0, _, arr, kept => { arr := arr, kept := kept, err := none }
  | n + 1, i, arr, kept =>
    match arr[i]? with
    | none => { arr := arr, kept := kept, err := none }
    | some ref =>
      let step : List refMeta × Nat :=
        if inferenceKept tables ref then (arr.set kept ref, kept + 1) else (arr, kept)
      if ref.PointsFromFields.length != 1 then
        { arr := step.1, kept := step.2, err := some "multi-column foreign keys not supported" }
      else filterReferencesRun tables n (i + 1) step.1 step.2

/-- The visible part of the array behind `info.meta.References` after
`append(genCtx.References[:kept], explicitBelongsTo...)` has written in place. -/
def appendInPlace (arr : List refMeta) (kept : Nat) (explicit : List refMeta) : List refMeta :=
  (arr.take kept ++ explicit ++ arr.drop (kept + explicit.length)).take arr.length

/-- The write of the array behind `info.meta.References` on the info itself. -/
def setReferencesOf (arr : List refMeta) (info : tableGenInfo) : tableGenInfo :=
  { info with meta := { info.meta with References := arr } }

/-- The error message the deferred function of `genTable` builds. -/
def genTableError (name e : String) : String :=
  "while generating table '" ++ name ++ "': " ++ e

/-- What `genTable` leaves behind: the context the templates were executed
with (`none`: no template was executed, no code emitted), the registry
`g.tables`, and whether `g.imports` received `"time"`. -/
structure genTableState where
  emitted : Option tableGenCtx
  tables : Registry
  importsTime : Bool
deriving DecidableEq

/-- The method `Generator.genTable`.  `emit` stands for the execution of the
three templates and `emitType`, and answers their error; `cap` is the capacity
of the slice `info.meta.References`. -/
def genTable (pgToGoName : String → String) (emit : tableGenCtx → Option String) (cap : Nat)
    (tables : Registry) (table : tableConfig) : Step genTableState :=
  match lookupInfo tables table.Name with
  | none => .panic "invalid memory address or nil pointer dereference"
  | some tableInfo =>
    match (tableGenCtxFromInfo pgToGoName tableInfo).PkeyCol with
    | none =>
      .ret { emitted := none, tables := tables, importsTime := false }
        (some (genTableError table.Name "no primary key for table"))
    | some _ =>
      let run := filterReferencesRun tables tableInfo.meta.References.length 0
        tableInfo.meta.References 0
      match run.err with
      | some e =>
        .ret { emitted := none,
               tables := modifyInfo (setReferencesOf run.arr) table.Name tables,
               importsTime := false }
          (some (genTableError table.Name e))
      | none =>
        let references := run.arr.take run.kept ++ tableInfo.explicitBelongsTo
        let arr1 :=
          if run.kept + tableInfo.explicitBelongsTo.length ≤ cap then
            appendInPlace run.arr run.kept tableInfo.explicitBelongsTo
          else run.arr
        let genCtx : tableGenCtx :=
          { tableGenCtxFromInfo pgToGoName tableInfo with References := references }
        .ret { emitted := some genCtx,
               tables := modifyInfo (setReferencesOf arr1) table.Name tables,
               importsTime := tableInfo.hasUpdateAtField || tableInfo.hasCreatedAtField }
          ((emit genCtx).map (genTableError table.Name))

/-- Table `a` is referenced by `ghost`, which is not configured, and by `b`. -/
def aliasRegistry : Registry :=
  [exampleInfo "a" false [exampleRef "ghost" "a", exampleRef "b" "a"], exampleInfo "b" false []]

/-- The configuration of an example table. -/
def exampleConfig (name : String) : tableConfig :=
  { Name := name, NoInferBelongsTo := false, CreatedAtField := "", UpdatedAtField := "",
    BelongsTo := [] }

/-- Table `a` is referenced by a two-column foreign key of `b`. -/
def compositeRegistry : Registry :=
  [exampleInfo "a" false
    [{ PointsTo := "a", PointsToFields := [some exampleIdCol, some exampleIdCol],
       PointsFrom := "b",
       PointsFromFields := [some (exampleFkCol "x" "X"), some (exampleFkCol "y" "Y")],
       OneToOne := false, Nullable := false }],
   exampleInfo "b" false []]

/-- The registry after `genTable` has run for `a` in `aliasRegistry` with
capacity 2: the kept reference has been written over the first element. -/
def aliasRegistryAfter : Registry :=
  [exampleInfo "a" false [exampleRef "b" "a", exampleRef "b" "a"], exampleInfo "b" false []]

/-- Table `a` is referenced by `ghost`, which is not configured, and `b`
declares an explicit belongs-to on `a`. -/
def explicitRegistry : Registry :=
  [{ exampleInfo "a" false [exampleRef "ghost" "a"] with
      explicitBelongsTo := [exampleRef "b" "a"] },
   exampleInfo "b" false []]

/-- Table `a` is referenced by `ghost`, which is not configured, by `b`, and by
`c`, which is configured with `no_infer_belongs_to`; `c` also declares an
explicit one-to-one belongs-to on `a`. -/
def inferenceRegistry : Registry :=
  [{ exampleInfo "a" false [exampleRef "ghost" "a", exampleRef "b" "a", exampleRef "c" "a"] with
      explicitBelongsTo := [{ exampleRef "c" "a" with OneToOne := true }] },
   exampleInfo "b" false [], exampleInfo "c" true []]

/-! ## `buildExplicitBelongsToMapping` -/

/-- The loop `for i, col := range pointsFromTable.meta.Cols` of
`buildExplicitBelongsToMapping`: the last column named `keyField`, if any. -/
def findKeyColumn (cols : List colMeta) (keyField : String) : Option colMeta :=
  cols.foldl (fun found col => if col.PgName == keyField then some col else found) none

/-- The reference `buildExplicitBelongsToMapping` builds for a belongs-to entry
of the table `pointsFromTable` on the table `pointsTo`, through the column
`belongsToColMeta`. -/
def explicitRef (pointsFromTable pointsTo : tableGenInfo) (belongsToColMeta : colMeta)
    (oneToOne : Bool) : refMeta :=
  { PointsTo := pointsTo.meta.PgName
    PointsToFields := [pointsTo.meta.PkeyCol]
    PointsFrom := pointsFromTable.meta.PgName
    PointsFromFields := [some belongsToColMeta]
    OneToOne := oneToOne
    Nullable := belongsToColMeta.Nullable }

/-- The write `info.explicitBelongsTo = append(info.explicitBelongsTo, ref)` on
the info itself. -/
def appendExplicit (ref : refMeta) (info : tableGenInfo) : tableGenInfo :=
  { info with explicitBelongsTo := info.explicitBelongsTo ++ [ref] }

/-- The body of the loop `for _, belongsTo := range table.BelongsTo` of
`buildExplicitBelongsToMapping`, for the configured table named `tableName`;
`infoTab` is `g.tables`. -/
def attachBelongsTo (infoTab : Registry) (tableName : String) (entry : belongsTo) :
    Step Registry :=
  if entry.Table.length = 0 then
    .ret infoTab (some (tableName ++ ": belongs_to requires 'name' key"))
  else if entry.KeyField.length = 0 then
    .ret infoTab (some (tableName ++ ": belongs_to requires 'key_field' key"))
  else
    match lookupInfo infoTab tableName with
    | none => .panic "invalid memory address or nil pointer dereference"
    | some pointsFromTable =>
      match findKeyColumn pointsFromTable.meta.Cols entry.KeyField with
      | none =>
        .ret infoTab
          (some ("table '" ++ tableName ++ "' has no field '" ++ entry.KeyField ++ "'"))
      | some belongsToColMeta =>
        match lookupInfo infoTab entry.Table with
        | none => .panic "invalid memory address or nil pointer dereference"
        | some pointsTo =>
          .ret (modifyInfo
              (appendExplicit (explicitRef pointsFromTable pointsTo belongsToColMeta entry.OneToOne))
              entry.Table infoTab) none

/-- The loop `for _, belongsTo := range table.BelongsTo`. -/
def attachAllBelongsTo (tableName : String) : List belongsTo → Registry → Step Registry
  | [], infoTab => .ret infoTab none
  | entry :: rest, infoTab =>
    match attachBelongsTo infoTab tableName entry with
    | .panic msg => .panic msg
    | .ret infoTab1 (some e) => .ret infoTab1 (some e)
    | .ret infoTab1 none => attachAllBelongsTo tableName rest infoTab1

/-- The method `Generator.buildExplicitBelongsToMapping(tables, infoTab)`,
`infoTab` being `g.tables`. -/
def buildExplicitBelongsToMapping : List tableConfig → Registry → Step Registry
  | [], infoTab => .ret infoTab none
  | table :: rest, infoTab =>
    match attachAllBelongsTo table.Name table.BelongsTo infoTab with
    | .panic msg => .panic msg
    | .ret infoTab1 (some e) => .ret infoTab1 (some e)
    | .ret infoTab1 none => buildExplicitBelongsToMapping rest infoTab1

/-- The configuration of `orders`, which declares `belongs_to` the table `dst`
through its column `keyField`. -/
def ordersConfig (dst keyField : String) : tableConfig :=
  { Name := "orders", NoInferBelongsTo := false, CreatedAtField := "", UpdatedAtField := "",
    BelongsTo := [{ Table := dst, KeyField := keyField, OneToOne := true }] }

/-- A freshly populated registry entry for the configuration `config` with the
columns `cols`, the first one being the primary key. -/
def freshInfo (config : tableConfig) (cols : List colMeta) : tableGenInfo :=
  { config := config, explicitBelongsTo := [], allIncludeSpec := none,
    hasUpdateAtField := false, updatedAtFieldIsNullable := false, updatedAtHasTimezone := false,
    hasCreatedAtField := false, createdAtFieldIsNullable := false, createdAtHasTimezone := false,
    meta := { PgName := config.Name, GoName := config.Name, PkeyCol := cols.head?,
              PkeyColIdx := 0, Cols := cols, References := [] } }

/-- The nullable column `orders.customer_id`. -/
def customerIdCol : colMeta :=
  { PgName := "customer_id", GoName := "CustomerId", Nullable := true, IsPrimary := false,
    IsTimestampWithZone := false }

/-- The registry of `customers(id)` and `orders(id, customer_id)`, `orders`
declaring `belongs_to` the table `dst`. -/
def shopRegistry (dst keyField : String) : Registry :=
  [freshInfo (exampleConfig "customers") [exampleIdCol],
   freshInfo (ordersConfig dst keyField) [exampleIdCol, customerIdCol]]

/-- The configuration of `payments`, which declares `belongs_to` the table
`customers` through `customer_id` and, one-to-one, the table `orders` through
`order_id`. -/
def paymentsConfig : tableConfig :=
  { Name := "payments", NoInferBelongsTo := false, CreatedAtField := "", UpdatedAtField := "",
    BelongsTo := [{ Table := "customers", KeyField := "customer_id", OneToOne := false },
                  { Table := "orders", KeyField := "order_id", OneToOne := true }] }

/-- The configured tables `customers`, `orders` and `payments`, `orders`
declaring `belongs_to` the table `customers` through `keyField`. -/
def ledgerTables (keyField : String) : List tableConfig :=
  [exampleConfig "customers", ordersConfig "customers" keyField, paymentsConfig]

/-- The registry of `customers(id)`, `orders(id, customer_id)` and
`payments(id, customer_id, order_id)`. -/
def ledgerRegistry (keyField : String) : Registry :=
  [freshInfo (exampleConfig "customers") [exampleIdCol],
   freshInfo (ordersConfig "customers" keyField) [exampleIdCol, customerIdCol],
   freshInfo paymentsConfig [exampleIdCol, customerIdCol, exampleFkCol "order_id" "OrderId"]]

/-- What `buildExplicitBelongsToMapping` has made of the registry `infoTab0`
once its loops have visited the entries `done`, each paired with the name of the
table that declares it: every registered table `T` holds its former explicit
references followed by one reference per visited entry that names `T`, in the
order visited, and is otherwise as it was. -/
def belongsToAttached (infoTab0 : Registry) (done : List (String × belongsTo))
    (infoTab : Registry) : Prop :=
  ∀ (T : String) (infoT : tableGenInfo), lookupInfo infoTab0 T = some infoT →
    ∃ (infoT' : tableGenInfo) (added : List refMeta),
      lookupInfo infoTab T = some infoT' ∧
      { infoT' with explicitBelongsTo := infoT.explicitBelongsTo } = infoT ∧
      infoT'.explicitBelongsTo = infoT.explicitBelongsTo ++ added ∧
      List.Forall₂ (fun (se : String × belongsTo) (ref : refMeta) =>
          ∃ (infoS : tableGenInfo) (col : colMeta), lookupInfo infoTab0 se.1 = some infoS ∧
            col ∈ infoS.meta.Cols ∧ col.PgName = se.2.KeyField ∧
            ref = ⟨infoT.meta.PgName, [infoT.meta.PkeyCol], infoS.meta.PgName, [some col],
              se.2.OneToOne, col.Nullable⟩)
        (done.filter (fun se => se.2.Table == T)) added

/-! ## `setTimestampFlags` and `populateTableInfo` -/

/-- The created-at half of `setTimestampFlags`: the new info and the texts
handed to `g.warn`. -/
def setCreatedAtFlags (info : tableGenInfo) : tableGenInfo × List String :=
  if info.config.CreatedAtField.length > 0 then
    let info1 : tableGenInfo :=
      match info.meta.Cols.find? (fun cm => cm.PgName == info.config.CreatedAtField) with
      | some cm =>
        { info with hasCreatedAtField := true, createdAtFieldIsNullable := cm.Nullable,
                    createdAtHasTimezone := cm.IsTimestampWithZone }
      | none => info
    if !info1.hasCreatedAtField then
      (info1, ["WARN: table '" ++ info.config.Name ++ "' has no '" ++ info.config.CreatedAtField
        ++ "' created at timestamp\n"])
    else (info1, [])
  else (info, [])

/-- The updated-at half of `setTimestampFlags`. -/
def setUpdatedAtFlags (info : tableGenInfo) : tableGenInfo × List String :=
  if info.config.UpdatedAtField.length > 0 then
    let info1 : tableGenInfo :=
      match info.meta.Cols.find? (fun cm => cm.PgName == info.config.UpdatedAtField) with
      | some cm =>
        { info with hasUpdateAtField := true, updatedAtFieldIsNullable := cm.Nullable,
                    updatedAtHasTimezone := cm.IsTimestampWithZone }
      | none => info
    if !info1.hasUpdateAtField then
      (info1, ["WARN: table '" ++ info.config.Name ++ "' has no '" ++ info.config.UpdatedAtField
        ++ "' updated at timestamp\n"])
    else (info1, [])
  else (info, [])

/-- The method `Generator.setTimestampFlags(info)`, which returns nothing: the
info after the call and the texts handed to `g.warn`. -/
def setTimestampFlags (info : tableGenInfo) : tableGenInfo × List String :=
  ((setUpdatedAtFlags (setCreatedAtFlags info).1).1,
    (setCreatedAtFlags info).2 ++ (setUpdatedAtFlags (setCreatedAtFlags info).1).2)

/-- The loop `for _, info := range g.tables { g.setTimestampFlags(info) }` of
`populateTableInfo`, the map being iterated in the order `order`. -/
def setAllTimestampFlags : List String → Registry → Registry × List String
  | [], tables => (tables, [])
  | name :: rest, tables =>
    match lookupInfo tables name with
    | none => setAllTimestampFlags rest tables
    | some info =>
      let after := setAllTimestampFlags rest
        (modifyInfo (fun _ => (setTimestampFlags info).1) name tables)
      (after.1, (setTimestampFlags info).2 ++ after.2)

/-- The map assignment `g.tables[table.Name] = info`. -/
def registryInsert (info : tableGenInfo) : Registry → Registry
  | [] => [info]
  | i :: rest =>
    if i.config.Name == info.config.Name then info :: rest else i :: registryInsert info rest

/-- The info `populateTableInfo` creates for a configured table: `&tableGenInfo{}`
with `config` and `meta` set. -/
def newTableInfo (config : tableConfig) (m : tableMeta) : tableGenInfo :=
  { config := config, explicitBelongsTo := [], allIncludeSpec := none,
    hasUpdateAtField := false, updatedAtFieldIsNullable := false, updatedAtHasTimezone := false,
    hasCreatedAtField := false, createdAtFieldIsNullable := false, createdAtHasTimezone := false,
    meta := m }

/-- The first loop of `populateTableInfo` (the map `tableTyNameToTableName`
apart): the registry it leaves and the error it returns.  The method
`g.tableMeta` is defined outside `gen_table.go` and is the parameter
`tableMetaOf`. -/
def newTableInfos (tableMetaOf : String → Except String tableMeta) :
    List tableConfig → Registry → Registry × Option String
  | [], tables => (tables, none)
  | table :: rest, tables =>
    match tableMetaOf table.Name with
    | .error e => (tables, some ("table '" ++ table.Name ++ "': " ++ e))
    | .ok m => newTableInfos tableMetaOf rest (registryInsert (newTableInfo table m) tables)

/-- The write of `table.meta` through the pointer handed to
`fillTableReferences`. -/
def setMetaOf (m : tableMeta) (info : tableGenInfo) : tableGenInfo :=
  { info with meta := m }

/-- The second loop of `populateTableInfo`; `fillTableReferences` is defined
outside `gen_table.go` and is a parameter, answering the metadata it leaves
behind the pointer. -/
def fillAllTableReferences (fillTableReferences : Registry → tableMeta → Except String tableMeta) :
    List String → Registry → Registry × Option String
  | [], tables => (tables, none)
  | name :: rest, tables =>
    match lookupInfo tables name with
    | none => fillAllTableReferences fillTableReferences rest tables
    | some info =>
      match fillTableReferences tables info.meta with
      | .error e => (tables, some e)
      | .ok m =>
        fillAllTableReferences fillTableReferences rest (modifyInfo (setMetaOf m) name tables)

/-- The method `Generator.populateTableInfo` up to the loop over `ensureSpec`
included; the maps are iterated in the orders given. -/
def populateBeforeTimestamps (tableMetaOf : String → Except String tableMeta)
    (fillTableReferences : Registry → tableMeta → Except String tableMeta)
    (fillOrder specOrder : List String) (tables : List tableConfig) : Step Registry :=
  match newTableInfos tableMetaOf tables [] with
  | (tables1, some e) => .ret tables1 (some e)
  | (tables1, none) =>
    match fillAllTableReferences fillTableReferences fillOrder tables1 with
    | (tables2, some e) => .ret tables2 (some e)
    | (tables2, none) =>
      match buildExplicitBelongsToMapping tables tables2 with
      | .panic msg => .panic msg
      | .ret tables3 (some e) => .ret tables3 (some e)
      | .ret tables3 none =>
        match ensureAllSpecs (tables3.length + 1) specOrder tables3 with
        | none => .panic "stack overflow"
        | some (.error e) => .ret tables3 (some e)
        | some (.ok tables4) => .ret tables4 none

/-- The method `Generator.populateTableInfo`: the registry `g.tables` it leaves,
the texts handed to `g.warn`, and the error it returns. -/
def populateTableInfo (tableMetaOf : String → Except String tableMeta)
    (fillTableReferences : Registry → tableMeta → Except String tableMeta)
    (fillOrder specOrder flagOrder : List String) (tables : List tableConfig) :
    Step (Registry × List String) :=
  match populateBeforeTimestamps tableMetaOf fillTableReferences fillOrder specOrder tables with
  | .panic msg => .panic msg
  | .ret tables1 (some e) => .ret (tables1, []) (some e)
  | .ret tables1 none => .ret (setAllTimestampFlags flagOrder tables1) none

/-- The configuration of `events`, which names the created-at field
`created_at` and the updated-at field `updated_at`. -/
def eventsConfig : tableConfig :=
  { Name := "events", NoInferBelongsTo := false, CreatedAtField := "created_at",
    UpdatedAtField := "updated_at", BelongsTo := [] }

/-- The catalog metadata of `events(id, updated_at)`: the table has no column
`created_at`. -/
def eventsMeta : tableMeta :=
  { PgName := "events", GoName := "Event", PkeyCol := some exampleIdCol, PkeyColIdx := 0,
    Cols := [exampleIdCol,
      { PgName := "updated_at", GoName := "UpdatedAt", Nullable := false, IsPrimary := false,
        IsTimestampWithZone := true }],
    References := [] }

/-! ## `Scan` and the column-position table -/

/-- The loop `for genIdx, runIdx := range client.colIdxTabFor<GoName>` of the
generated `Scan`, from generation-time index `genIdx` on.  A scan target is the
generation-time index of the column whose scanner `scannerTabFor<GoName>[genIdx]`
returns, `none` a nil target; the result `none` is the panic of an index out of
range, `ncols` being the length of the array `scannerTabFor<GoName>`. -/
def fillScanTgts (ncols : Nat) : Nat → List Nat → List (Option Nat) → Option (List (Option Nat))
  | _, [], scanTgts => some scanTgts
  | genIdx, runIdx :: rest, scanTgts =>
    if genIdx < ncols ∧ runIdx < scanTgts.length then
      fillScanTgts ncols (genIdx + 1) rest (scanTgts.set runIdx (some genIdx))
    else none

/-- The call `rs.Scan(scanTgts...)` of the standard library `database/sql`, from
position `pos` on: the value of each column of the current row is converted and
stored through the target at the same position, and the first failure ends the
call with what was stored so far.  A nil target is an error.
`convertAssign genIdx v` is the library's conversion of the driver value `v`
into the receiver `scannerTabFor<GoName>[genIdx]` returns: the value stored, or
the conversion error (a NULL for a receiver that takes none, a value of another
type); the receiver types are fixed outside `gen_table.go`.  The error text
leaves out the column name the library adds. -/
def rowsScanFrom (convertAssign : Nat → Val → Except String Val) :
    Nat → List (Option Nat) → List Val → Row → Row × Option String
  | _, [], _, staged => (staged, none)
  | _, some _ :: _, [], staged => (staged, none)
  | pos, none :: _, _, staged =>
    (staged, some ("sql: Scan error on column index " ++ toString pos
      ++ ": destination not a pointer"))
  | pos, some genIdx :: dest, v :: vals, staged =>
    match convertAssign genIdx v with
    | .error e => (staged, some ("sql: Scan error on column index " ++ toString pos ++ ": " ++ e))
    | .ok stored => rowsScanFrom convertAssign (pos + 1) dest vals (staged.set genIdx stored)

/-- The call `rs.Scan(scanTgts...)` of the standard library `database/sql` on
the current row `rs`, whose values stand in the column order of the deployed
database; it wants as many targets as the row has columns. -/
def rowsScan (convertAssign : Nat → Val → Except String Val) (scanTgts : List (Option Nat))
    (rs : List Val) (staged : Row) : Row × Option String :=
  if scanTgts.length != rs.length then
    (staged, some ("sql: expected " ++ toString rs.length
      ++ " destination arguments in Scan, not " ++ toString scanTgts.length))
  else rowsScanFrom convertAssign 0 scanTgts rs staged

/-- The fields the scanners point at before `rs.Scan`: the field of the record
for a column that is not nullable, the zero field of `nullableTgts` for a
nullable one. -/
def scanStage (cols : List colMeta) (r : Row) : Row :=
  (List.range r.length).map (fun i =>
    if ((cols.get? i).map (fun c => c.Nullable)).getD false then Val.null
    else r.getD i Val.null)

/-- The record after a failed `rs.Scan`: the nullable fields are not converted
back and keep their value, the others hold what was scanned into them. -/
def scanUnstage (cols : List colMeta) (r staged : Row) : Row :=
  (List.range r.length).map (fun i =>
    if ((cols.get? i).map (fun c => c.Nullable)).getD false then r.getD i Val.null
    else staged.getD i Val.null)

/-- What the generated `Scan` leaves: the table `client.colIdxTabFor<GoName>`,
the record `*r`, and the error. -/
structure ScanOutcome where
  colIdxTab : Option (List Nat)
  record : Row
  err : Option String
deriving DecidableEq, Repr

/-- The generated method `Scan` of a record type.  `fillColPosTab` is defined
outside `gen_table.go`: the parameter is its result, the error or the table it
stores in the client.  `convertAssign` is the conversion `rs.Scan` applies for
each receiver.  `colIdxTab` is `client.colIdxTabFor<GoName>` before the call,
`r` the record, `rs` the current row in deployed column order.  The result
`none` is a panic. -/
def ScanGoName (ctx : tableGenCtx) (convertAssign : Nat → Val → Except String Val)
    (fillColPosTab : Except String (List Nat))
    (colIdxTab : Option (List Nat)) (r : Row) (rs : List Val) : Option ScanOutcome :=
  let filled : Except String (List Nat) :=
    match colIdxTab with
    | some tab => .ok tab
    | none => fillColPosTab
  match filled with
  | .error e => some { colIdxTab := none, record := r, err := some e }
  | .ok tab =>
    match fillScanTgts ctx.Cols.length 0 tab (List.replicate tab.length none) with
    | none => none
    | some scanTgts =>
      match rowsScan convertAssign scanTgts rs (scanStage ctx.Cols r) with
      | (staged, some e) =>
        some { colIdxTab := some tab, record := scanUnstage ctx.Cols r staged, err := some e }
      | (staged, none) => some { colIdxTab := some tab, record := staged, err := none }

/-- The generation context of `people(id, name, email)`, `email` nullable. -/
def peopleCtx : tableGenCtx :=
  { PgName := "people", GoName := "Person", PkeyCol := some exampleIdCol, PkeyColIdx := 0,
    Cols := [exampleIdCol, exampleFkCol "name" "Name",
      { PgName := "email", GoName := "Email", Nullable := true, IsPrimary := false,
        IsTimestampWithZone := false }],
    References := [],
    HasCreatedAtField := false, CreatedAtFieldIsNullable := false,
    CreatedAtHasTimezone := false, CreatedAtField := "",
    HasUpdatedAtField := false, UpdatedAtHasTimezone := false,
    UpdatedAtFieldIsNullable := false, UpdatedAtField := "" }

/-- The conversions of `database/sql` into the receivers of `people`: an
`int64` for `id`, a `string` for `name`, which takes no NULL, and a
`sql.NullString` for the nullable `email`. -/
def peopleConvertAssign : Nat → Val → Except String Val
  | 0, .int n => .ok (.int n)
  | 1, .str t => .ok (.str t)
  | 2, .str t => .ok (.str t)
  | 2, .null => .ok .null
  | _, .null => .error "converting NULL is unsupported"
  | _, _ => .error "converting driver.Value type is unsupported"

/-! ## A one-to-one reference -/

/-- A database whose table `ref.PointsFrom` holds the rows `stored`, the
referencing column being column `fk`.  It answers the statement of
`private<GoName>Fill<PointsFrom.GoName>` in its two forms: without `LIMIT` by
every stored row whose referencing column is among the keys asked for, in
stored order, and with `LIMIT 1` by the first of them only. -/
def referencingDB (ref : refMeta) (fk : Nat) (stored : List Row) : DB where
  QueryContext := fun text args =>
    match args with
    | [.array ids] =>
      if text == fillStmt { ref with OneToOne := false } then
        .ok { scans := (matching fk stored ids).map Except.ok, closeErr := none }
      else if text == fillStmt { ref with OneToOne := true } then
        .ok { scans := ((matching fk stored ids).take 1).map Except.ok, closeErr := none }
      else .error "unexpected statement"
    | _ => .error "unexpected arguments"
  ExecContext := fun _ _ => .error "unexpected statement"
  QueryRowContext := fun _ _ => .error "sql: no rows in result set"

/-- The reference `profiles.customer_id -> customers.id`; `oneToOne` says whether
the referencing column is unique. -/
def profilesRef (oneToOne : Bool) : refMeta :=
  { PointsTo := "customers", PointsToFields := [some exampleIdCol],
    PointsFrom := "profiles",
    PointsFromFields := [some (exampleFkCol "customer_id" "CustomerId")],
    OneToOne := oneToOne, Nullable := false }

/-- The generation context of `profiles(id, customer_id)`. -/
def profilesCtx : tableGenCtx :=
  { PgName := "profiles", GoName := "Profile", PkeyCol := some exampleIdCol, PkeyColIdx := 0,
    Cols := [exampleIdCol, exampleFkCol "customer_id" "CustomerId"], References := [],
    HasCreatedAtField := false, CreatedAtFieldIsNullable := false,
    CreatedAtHasTimezone := false, CreatedAtField := "",
    HasUpdatedAtField := false, UpdatedAtHasTimezone := false,
    UpdatedAtFieldIsNullable := false, UpdatedAtField := "" }

/-- The generated code of `customers` and `profiles`, each customer having a
profile through the reference `profilesRef oneToOne`. -/
def clubProg (oneToOne : Bool) : List tableGenCtx :=
  [{ customersCtx with References := [profilesRef oneToOne] }, profilesCtx]

/-- The stored rows of `profiles`: profile 10 of customer 1 and profile 11 of
customer 2. -/
def profilesRows : List Row :=
  [[Val.int 10, Val.int 1], [Val.int 11, Val.int 2]]

/-- The state in which the two customers of `customersHeap` are loaded. -/
def customersLoaded : FillState :=
  { heap := customersHeap,
    loadedRecordTab := [("customers", [(Val.int 1, 0), (Val.int 2, 1)])],
    trace := [] }

/-! ## Theorems: the registry writes -/

theorem map_eraseSpec_modifyInfo (f : tableGenInfo → tableGenInfo) (name : String)
    (hf : ∀ i, eraseSpec (f i) = eraseSpec i) (tables : Registry) :
    (modifyInfo f name tables).map eraseSpec = tables.map eraseSpec := by
  induction tables with
  | nil => rfl
  | cons info rest ih =>
    unfold modifyInfo
    split
    · simp [hf]
    · simp [ih]

theorem lookupInfo_eraseSpec (tables : Registry) (k : String) :
    lookupInfo (tables.map eraseSpec) k = (lookupInfo tables k).map eraseSpec := by
  induction tables with
  | nil => rfl
  | cons info rest ih =>
    unfold lookupInfo at ih ⊢
    simp only [List.map_cons, List.find?_cons]
    have : (eraseSpec info).config.Name = info.config.Name := rfl
    rw [this]
    split
    · rfl
    · exact ih

theorem lookupInfo_of_sameShape {t t' : Registry} (h : t'.map eraseSpec = t.map eraseSpec)
    (k : String) : (lookupInfo t' k).map eraseSpec = (lookupInfo t k).map eraseSpec := by
  rw [← lookupInfo_eraseSpec, ← lookupInfo_eraseSpec, h]

theorem lookupInfo_isSome_of_sameShape {t t' : Registry}
    (h : t'.map eraseSpec = t.map eraseSpec) (k : String) :
    (lookupInfo t' k).isSome = (lookupInfo t k).isSome := by
  have := congrArg Option.isSome (lookupInfo_of_sameShape h k)
  simpa using this

theorem lookupInfo_modifyInfo_self (f : tableGenInfo → tableGenInfo) (name : String)
    (hf : ∀ i, (f i).config = i.config) (tables : Registry) :
    lookupInfo (modifyInfo f name tables) name = (lookupInfo tables name).map f := by
  induction tables with
  | nil => rfl
  | cons info rest ih =>
    unfold lookupInfo at ih ⊢
    unfold modifyInfo
    by_cases hn : (info.config.Name == name) = true
    · simp [hn, List.find?_cons, hf]
    · simp only [hn, List.find?_cons, if_false]
      simp only [Bool.not_eq_true] at hn
      simp [hn, ih]

theorem lookupInfo_modifyInfo_ne (f : tableGenInfo → tableGenInfo) (name k : String)
    (hf : ∀ i, (f i).config = i.config) (hk : k ≠ name) (tables : Registry) :
    lookupInfo (modifyInfo f name tables) k = lookupInfo tables k := by
  induction tables with
  | nil => rfl
  | cons info rest ih =>
    unfold lookupInfo at ih ⊢
    unfold modifyInfo
    by_cases hn : (info.config.Name == name) = true
    · have hne : (info.config.Name == k) = false := by
        have : info.config.Name = name := by simpa using hn
        simp [this, Ne.symm hk]
      have hne2 : ((f info).config.Name == k) = false := by rw [hf]; exact hne
      simp [hn, List.find?_cons, hne, hne2]
    · rw [if_neg hn]
      simp only [List.find?_cons]
      rw [ih]

theorem nilCount_modifyInfo_le (f : tableGenInfo → tableGenInfo) (name : String)
    (hf : ∀ i, i.allIncludeSpec.isSome → (f i).allIncludeSpec.isSome) (tables : Registry) :
    nilCount (modifyInfo f name tables) ≤ nilCount tables := by
  induction tables with
  | nil => simp [modifyInfo]
  | cons info rest ih =>
    unfold modifyInfo
    unfold nilCount at ih ⊢
    split
    · simp only [List.countP_cons]
      have : (if (f info).allIncludeSpec.isNone = true then 1 else 0)
          ≤ (if info.allIncludeSpec.isNone = true then 1 else 0) := by
        cases h : info.allIncludeSpec with
        | none => split <;> simp
        | some s =>
          have := hf info (by simp [h])
          cases h2 : (f info).allIncludeSpec with
          | none => simp [h2] at this
          | some s2 => simp
      omega
    · simp only [List.countP_cons]
      omega

theorem nilCount_modifyInfo_lt (f : tableGenInfo → tableGenInfo) (name : String)
    (hf : ∀ i, (f i).allIncludeSpec.isSome) (tables : Registry) (info : tableGenInfo)
    (hl : lookupInfo tables name = some info) (hnil : info.allIncludeSpec = none) :
    nilCount (modifyInfo f name tables) + 1 = nilCount tables := by
  induction tables with
  | nil => simp [lookupInfo] at hl
  | cons i rest ih =>
    unfold modifyInfo
    unfold lookupInfo at hl ih
    unfold nilCount at ih ⊢
    rw [List.find?_cons] at hl
    by_cases hn : (i.config.Name == name) = true
    · simp only [hn, if_true] at hl ⊢
      have hi : i = info := by simpa using hl
      subst hi
      have h1 := hf i
      simp only [List.countP_cons]
      cases h2 : (f i).allIncludeSpec with
      | none => simp [h2] at h1
      | some s => simp [hnil]
    · rw [if_neg hn]
      simp only [Bool.not_eq_true] at hn
      simp only [hn] at hl
      simp only [List.countP_cons]
      have := ih hl
      omega

theorem mem_modifyInfo (f : tableGenInfo → tableGenInfo) (name : String) (tables : Registry)
    (x : tableGenInfo) (hx : x ∈ modifyInfo f name tables) :
    x ∈ tables ∨ ∃ i, lookupInfo tables name = some i ∧ x = f i := by
  induction tables with
  | nil => simp [modifyInfo] at hx
  | cons info rest ih =>
    unfold modifyInfo at hx
    unfold lookupInfo at ih ⊢
    by_cases hn : (info.config.Name == name) = true
    · rw [if_pos hn] at hx
      rcases List.mem_cons.1 hx with h | h
      · right
        exact ⟨info, by simp [List.find?_cons, hn], h⟩
      · left
        exact List.mem_cons_of_mem _ h
    · rw [if_neg hn] at hx
      rcases List.mem_cons.1 hx with h | h
      · left
        rw [h]
        exact List.mem_cons_self _ _
      · rcases ih h with h2 | ⟨i, hi, hxi⟩
        · left
          exact List.mem_cons_of_mem _ h2
        · right
          refine ⟨i, ?_, hxi⟩
          simp only [Bool.not_eq_true] at hn
          simp [List.find?_cons, hn, hi]

theorem mem_mapInsert (k v : String) (l : List (String × String)) (e : String × String)
    (he : e ∈ mapInsert k v l) : e ∈ l ∨ e = (k, v) := by
  induction l with
  | nil =>
    right
    simpa [mapInsert] using he
  | cons hd tl ih =>
    obtain ⟨k', v'⟩ := hd
    unfold mapInsert at he
    split at he
    · rcases List.mem_cons.1 he with h | h
      · right
        exact h
      · left
        exact List.mem_cons_of_mem _ h
    · rcases List.mem_cons.1 he with h | h
      · left
        rw [h]
        exact List.mem_cons_self _ _
      · rcases ih h with h2 | h2
        · left
          exact List.mem_cons_of_mem _ h2
        · right
          exact h2

theorem lookupInfo_mem {tables : Registry} {k : String} {info : tableGenInfo}
    (h : lookupInfo tables k = some info) : info ∈ tables :=
  List.mem_of_find?_eq_some h

theorem lookupInfo_name {tables : Registry} {k : String} {info : tableGenInfo}
    (h : lookupInfo tables k = some info) : info.config.Name = k := by
  have := List.find?_some h
  simpa using this

theorem specAt_modifyInfo_isSome (f : tableGenInfo → tableGenInfo) (name : String)
    (hc : ∀ i, (f i).config = i.config)
    (hf : ∀ i, i.allIncludeSpec.isSome → (f i).allIncludeSpec.isSome)
    (tables : Registry) (k : String) (h : (specAt tables k).isSome) :
    (specAt (modifyInfo f name tables) k).isSome := by
  unfold specAt at h ⊢
  by_cases hk : k = name
  · subst hk
    rw [lookupInfo_modifyInfo_self f k hc]
    cases hl : lookupInfo tables k with
    | none => simp [hl] at h
    | some i =>
      simp only [hl, Option.some_bind] at h
      simpa using hf i h
  · rw [lookupInfo_modifyInfo_ne f name k hc hk]
    exact h

theorem SpecSound_modifyInfo (f : tableGenInfo → tableGenInfo) (name : String)
    (tables : Registry) (hf : ∀ i, eraseSpec (f i) = eraseSpec i) (h : SpecSound tables)
    (hnew : ∀ i, lookupInfo tables name = some i → ∀ s, (f i).allIncludeSpec = some s →
      s.TableName = i.meta.PgName ∧
      ∀ e ∈ s.Includes.getD [],
        (∃ ref ∈ walkedRefs i, ref.PointsFrom = e.2) ∧
        ∃ sub, lookupInfo (tables.map eraseSpec) e.2 = some sub ∧ sub.meta.PgName = e.1) :
    SpecSound (modifyInfo f name tables) := by
  intro x hx s hs
  rw [map_eraseSpec_modifyInfo f name hf]
  rcases mem_modifyInfo f name tables x hx with hmem | ⟨i, hi, hxi⟩
  · exact h x hmem s hs
  · subst hxi
    have hmeta : (f i).meta = i.meta := by
      have h1 := congrArg (fun z : tableGenInfo => z.meta) (hf i)
      exact h1
    have hexp : (f i).explicitBelongsTo = i.explicitBelongsTo := by
      have h1 := congrArg (fun z : tableGenInfo => z.explicitBelongsTo) (hf i)
      exact h1
    have hw : walkedRefs (f i) = walkedRefs i := by
      unfold walkedRefs
      rw [hmeta, hexp]
    rw [hmeta, hw]
    exact hnew i hi s hs

theorem eraseSpec_insertInclude (k v : String) (i : tableGenInfo) :
    eraseSpec (insertInclude k v i) = eraseSpec i := rfl

theorem eraseSpec_normalizeInfo (i : tableGenInfo) :
    eraseSpec (normalizeInfo i) = eraseSpec i := rfl

theorem SpecSound_addInclude (t : Registry) (owner : String) (ref : refMeta)
    (subInfo : tableGenInfo) (subSpec : Spec)
    (hsub : lookupInfo t ref.PointsFrom = some subInfo)
    (hspec : subInfo.allIncludeSpec = some subSpec)
    (howner : ∃ i, lookupInfo (t.map eraseSpec) owner = some i ∧ ref ∈ walkedRefs i)
    (h : SpecSound t) :
    SpecSound (addInclude t owner subSpec.TableName ref.PointsFrom) := by
  unfold addInclude
  refine SpecSound_modifyInfo _ owner t (eraseSpec_insertInclude _ _) h ?_
  intro i hi s hs
  have hs' : i.allIncludeSpec.map (fun s => s.insert subSpec.TableName ref.PointsFrom) = some s := hs
  cases h0 : i.allIncludeSpec with
  | none => simp [h0] at hs'
  | some s0 =>
    simp only [h0, Option.map_some', Option.some.injEq] at hs'
    subst hs'
    have hi0 := h i (lookupInfo_mem hi) s0 h0
    refine ⟨hi0.1, ?_⟩
    intro e he
    have he' : e ∈ mapInsert subSpec.TableName ref.PointsFrom (s0.Includes.getD []) := by
      simpa [Spec.insert] using he
    rcases mem_mapInsert _ _ _ _ he' with hold | hnew
    · exact hi0.2 e hold
    · subst hnew
      obtain ⟨i0, hl0, hr0⟩ := howner
      rw [lookupInfo_eraseSpec, hi] at hl0
      simp only [Option.map_some', Option.some.injEq] at hl0
      subst hl0
      refine ⟨⟨ref, hr0, rfl⟩, eraseSpec subInfo, ?_, ?_⟩
      · rw [lookupInfo_eraseSpec, hsub]
        rfl
      · exact ((h subInfo (lookupInfo_mem hsub) subSpec hspec).1).symm

theorem ensureReferencedSpecs_ok (recurse : Registry → String → Option GenResult)
    (fuel : Nat) (owner : String) (shape : List tableGenInfo)
    (hrec : ∀ t name, t.map eraseSpec = shape → nilCount t < fuel →
      (lookupInfo t name).isSome →
      EnsureOk t (recurse t name) ∧
        ∀ t', recurse t name = some (.ok t') → (specAt t' name).isSome)
    (refs : List refMeta) :
    ∀ t : Registry, t.map eraseSpec = shape → nilCount t < fuel →
      (∀ ref ∈ refs, ∃ i, lookupInfo shape owner = some i ∧ ref ∈ walkedRefs i) →
      EnsureOk t (ensureReferencedSpecs recurse owner refs t) := by
  induction refs with
  | nil =>
    intro t _ _ _
    exact ⟨t, rfl, rfl, le_refl _, fun _ h => h, fun h => h⟩
  | cons ref rest ih =>
    intro t hshape hfuel howner
    have hrest : ∀ r ∈ rest, ∃ i, lookupInfo shape owner = some i ∧ r ∈ walkedRefs i :=
      fun r hr => howner r (List.mem_cons_of_mem _ hr)
    unfold ensureReferencedSpecs
    cases hl : lookupInfo t ref.PointsFrom with
    | none => exact ih t hshape hfuel hrest
    | some found =>
      simp only []
      obtain ⟨⟨t1, hr1, hshape1, hcount1, hkeep1, hsound1⟩, hsome1⟩ :=
        hrec t ref.PointsFrom hshape hfuel (by simp [hl])
      have hspec1 := hsome1 t1 hr1
      rw [hr1]
      simp only []
      unfold specAt at hspec1
      cases hsub : lookupInfo t1 ref.PointsFrom with
      | none => simp [hsub] at hspec1
      | some subInfo =>
        simp only [hsub, Option.some_bind] at hspec1 ⊢
        cases hsp : subInfo.allIncludeSpec with
        | none => simp [hsp] at hspec1
        | some subSpec =>
          simp only []
          have hshape2 : (addInclude t1 owner subSpec.TableName ref.PointsFrom).map eraseSpec
              = shape := by
            unfold addInclude
            rw [map_eraseSpec_modifyInfo _ _ (eraseSpec_insertInclude _ _), hshape1, hshape]
          have hcount2 : nilCount (addInclude t1 owner subSpec.TableName ref.PointsFrom)
              ≤ nilCount t1 := by
            unfold addInclude
            apply nilCount_modifyInfo_le
            intro i hi
            cases h0 : i.allIncludeSpec with
            | none => simp [h0] at hi
            | some s0 => simp [insertInclude, h0]
          obtain ⟨t3, hr3, hshape3, hcount3, hkeep3, hsound3⟩ :=
            ih (addInclude t1 owner subSpec.TableName ref.PointsFrom) hshape2
              (by omega) hrest
          refine ⟨t3, hr3, ?_, by omega, ?_, ?_⟩
          · rw [hshape3, hshape2, hshape]
          · intro k hk
            apply hkeep3
            unfold addInclude
            refine specAt_modifyInfo_isSome (insertInclude subSpec.TableName ref.PointsFrom)
              owner (fun _ => rfl) ?_ t1 k (hkeep1 k hk)
            intro i hi
            cases h0 : i.allIncludeSpec with
            | none => simp [h0] at hi
            | some s0 => simp [insertInclude, h0]
          · intro hs
            apply hsound3
            apply SpecSound_addInclude t1 owner ref subInfo subSpec hsub hsp ?_ (hsound1 hs)
            rw [hshape1, hshape]
            exact howner ref (List.mem_cons_self _ _)

theorem SpecSound_initSpec (t : Registry) (name : String) (h : SpecSound t) :
    SpecSound (modifyInfo initSpec name t) := by
  refine SpecSound_modifyInfo initSpec name t (fun _ => rfl) h ?_
  intro i _ s hs
  have hs' : some (newSpec i) = some s := hs
  simp only [Option.some.injEq] at hs'
  subst hs'
  refine ⟨rfl, ?_⟩
  intro e he
  simp [newSpec] at he

theorem SpecSound_normalizeInfo (t : Registry) (name : String) (h : SpecSound t) :
    SpecSound (modifyInfo normalizeInfo name t) := by
  refine SpecSound_modifyInfo normalizeInfo name t eraseSpec_normalizeInfo h ?_
  intro i hi s hs
  have hs' : i.allIncludeSpec.map Spec.normalize = some s := hs
  cases h0 : i.allIncludeSpec with
  | none => simp [h0] at hs'
  | some s0 =>
    simp only [h0, Option.map_some', Option.some.injEq] at hs'
    subst hs'
    have hi0 := h i (lookupInfo_mem hi) s0 h0
    unfold Spec.normalize
    split
    · refine ⟨hi0.1, ?_⟩
      intro e he
      simp at he
    · exact hi0

theorem normalizeInfo_isSome (i : tableGenInfo) (h : i.allIncludeSpec.isSome) :
    (normalizeInfo i).allIncludeSpec.isSome := by
  cases h0 : i.allIncludeSpec with
  | none => simp [h0] at h
  | some s0 => simp [normalizeInfo, h0]

theorem ensureSpec_ok : ∀ (fuel : Nat) (t : Registry) (name : String),
    nilCount t < fuel → (lookupInfo t name).isSome →
    EnsureOk t (ensureSpec fuel t name) ∧
      ∀ t', ensureSpec fuel t name = some (.ok t') → (specAt t' name).isSome := by
  intro fuel
  induction fuel with
  | zero =>
    intro t name h _
    omega
  | succ fuel ih =>
    intro t name hfuel hex
    unfold ensureSpec
    cases hl : lookupInfo t name with
    | none => simp [hl] at hex
    | some info =>
      simp only []
      by_cases hspec : info.allIncludeSpec.isSome = true
      · rw [if_pos hspec]
        refine ⟨⟨t, rfl, rfl, le_refl _, fun _ h => h, fun h => h⟩, ?_⟩
        intro t' ht'
        simp only [Option.some.injEq, Except.ok.injEq] at ht'
        subst ht'
        unfold specAt
        rw [hl]
        exact hspec
      · rw [if_neg hspec]
        have hnil : info.allIncludeSpec = none := by
          cases h0 : info.allIncludeSpec with
          | none => rfl
          | some s0 => simp [h0] at hspec
        have hshape0 : (modifyInfo initSpec name t).map eraseSpec = t.map eraseSpec :=
          map_eraseSpec_modifyInfo initSpec name (fun _ => rfl) t
        have hcount0 : nilCount (modifyInfo initSpec name t) + 1 = nilCount t :=
          nilCount_modifyInfo_lt initSpec name (fun _ => rfl) t info hl hnil
        have hself0 : (specAt (modifyInfo initSpec name t) name).isSome := by
          unfold specAt
          rw [lookupInfo_modifyInfo_self initSpec name (fun _ => rfl), hl]
          rfl
        have hrec : ∀ (t2 : Registry) (n2 : String), t2.map eraseSpec = t.map eraseSpec →
            nilCount t2 < fuel → (lookupInfo t2 n2).isSome →
            EnsureOk t2 (ensureSpec fuel t2 n2) ∧
              ∀ t', ensureSpec fuel t2 n2 = some (.ok t') → (specAt t' n2).isSome :=
          fun t2 n2 _ h2 h3 => ih t2 n2 h2 h3
        have howner : ∀ ref ∈ info.meta.References ++ info.explicitBelongsTo,
            ∃ i, lookupInfo (t.map eraseSpec) name = some i ∧ ref ∈ walkedRefs i := by
          intro ref hr
          refine ⟨eraseSpec info, ?_, hr⟩
          rw [lookupInfo_eraseSpec, hl]
          rfl
        obtain ⟨t1, hr1, hshape1, hcount1, hkeep1, hsound1⟩ :=
          ensureReferencedSpecs_ok (ensureSpec fuel) fuel name (t.map eraseSpec) hrec
            (info.meta.References ++ info.explicitBelongsTo) (modifyInfo initSpec name t)
            hshape0 (by omega) howner
        rw [hr1]
        simp only []
        have hfinal : (specAt (modifyInfo normalizeInfo name t1) name).isSome :=
          specAt_modifyInfo_isSome normalizeInfo name (fun _ => rfl) normalizeInfo_isSome
            t1 name (hkeep1 name hself0)
        refine ⟨⟨modifyInfo normalizeInfo name t1, rfl, ?_, ?_, ?_, ?_⟩, ?_⟩
        · rw [map_eraseSpec_modifyInfo normalizeInfo name eraseSpec_normalizeInfo, hshape1,
            hshape0]
        · have := nilCount_modifyInfo_le normalizeInfo name normalizeInfo_isSome t1
          omega
        · intro k hk
          apply specAt_modifyInfo_isSome normalizeInfo name (fun _ => rfl)
            normalizeInfo_isSome t1 k
          apply hkeep1
          exact specAt_modifyInfo_isSome initSpec name (fun _ => rfl) (fun _ _ => rfl) t k hk
        · intro hs
          exact SpecSound_normalizeInfo t1 name (hsound1 (SpecSound_initSpec t name hs))
        · intro t' ht'
          simp only [Option.some.injEq, Except.ok.injEq] at ht'
          subst ht'
          exact hfinal

/-! ## Theorems: `ensureSpec` -/

theorem ensureSpec_immediate (fuel : Nat) (tables : Registry) (name : String)
    (h : (specAt tables name).isSome) :
    ensureSpec (fuel + 1) tables name = some (.ok tables) := by
  unfold specAt at h
  unfold ensureSpec
  cases hl : lookupInfo tables name with
  | none => simp [hl] at h
  | some info =>
    simp only [hl, Option.some_bind] at h
    simp [h]

/-- C1: `ensureSpec` terminates on every registry, cyclic and self-referencing
schemas included: for a registered table it returns a registry (never an
error) as soon as the recursion depth allowed exceeds the number of tables
whose spec is not yet built, it writes nothing but include specs, leaves no
more unbuilt specs than it found, keeps every spec that was already built, and
a call on a table whose spec already exists returns at once with the registry
unchanged. -/
theorem ensureSpec_terminates (tables : Registry) (name : String)
    (h : (lookupInfo tables name).isSome) :
    (∀ fuel, nilCount tables < fuel →
      ∃ tables', ensureSpec fuel tables name = some (.ok tables') ∧
        tables'.map eraseSpec = tables.map eraseSpec ∧
        nilCount tables' ≤ nilCount tables ∧
        (∀ k, (specAt tables k).isSome → (specAt tables' k).isSome) ∧
        (specAt tables' name).isSome ∧
        ∀ fuel', ensureSpec (fuel' + 1) tables' name = some (.ok tables')) ∧
    nilCount tables ≤ tables.length := by
  refine ⟨?_, List.countP_le_length _⟩
  intro fuel hfuel
  obtain ⟨⟨t', hr, hshape, hcount, hkeep, _⟩, hsome⟩ := ensureSpec_ok fuel tables name hfuel h
  exact ⟨t', hr, hshape, hcount, hkeep, hsome t' hr,
    fun fuel' => ensureSpec_immediate fuel' t' name (hsome t' hr)⟩

/-- C1 at the schema where `a` and `b` reference each other. -/
theorem ensureSpec_terminates_witness :
    (lookupInfo cyclicRegistry "a").isSome ∧
    ((∀ fuel, nilCount cyclicRegistry < fuel →
      ∃ tables', ensureSpec fuel cyclicRegistry "a" = some (.ok tables') ∧
        tables'.map eraseSpec = cyclicRegistry.map eraseSpec ∧
        nilCount tables' ≤ nilCount cyclicRegistry ∧
        (∀ k, (specAt cyclicRegistry k).isSome → (specAt tables' k).isSome) ∧
        (specAt tables' "a").isSome ∧
        ∀ fuel', ensureSpec (fuel' + 1) tables' "a" = some (.ok tables')) ∧
    nilCount cyclicRegistry ≤ cyclicRegistry.length) :=
  ⟨by decide, ensureSpec_terminates cyclicRegistry "a" (by decide)⟩

/-- C2, refuted as stated: for the table `t` with a foreign key to itself,
`t` is a key of the `Includes` map of its own spec; for `a` and `b` referencing
each other, `a` is a key of the map of the spec nested under `b` in the spec of
`a`, whichever table `populateTableInfo` visits first. -/
theorem include_spec_contains_root :
    (∃ tables', ensureAllSpecs 2 ["t"] selfRefRegistry = some (.ok tables') ∧
      nestedKeyWithin tables' 0 "t" "t" = true) ∧
    (∃ tables', ensureAllSpecs 3 ["a", "b"] cyclicRegistry = some (.ok tables') ∧
      includesAt tables' "a" = [("b", "b")] ∧ includesAt tables' "b" = [("a", "a")] ∧
      nestedKeyWithin tables' 1 "a" "a" = true) ∧
    (∃ tables', ensureAllSpecs 3 ["b", "a"] cyclicRegistry = some (.ok tables') ∧
      nestedKeyWithin tables' 1 "a" "a" = true) := by
  refine ⟨⟨_, rfl, ?_⟩, ⟨_, rfl, ?_, ?_, ?_⟩, ⟨_, rfl, ?_⟩⟩ <;> decide

theorem ensureAllSpecs_ok (fuel : Nat) (order : List String) :
    ∀ t : Registry, nilCount t < fuel → (∀ k ∈ order, (lookupInfo t k).isSome) →
      EnsureOk t (ensureAllSpecs fuel order t) := by
  induction order with
  | nil =>
    intro t _ _
    exact ⟨t, rfl, rfl, le_refl _, fun _ h => h, fun h => h⟩
  | cons name rest ih =>
    intro t hfuel horder
    obtain ⟨⟨t1, hr1, hshape1, hcount1, hkeep1, hsound1⟩, _⟩ :=
      ensureSpec_ok fuel t name hfuel (horder name (List.mem_cons_self _ _))
    have horder1 : ∀ k ∈ rest, (lookupInfo t1 k).isSome := by
      intro k hk
      rw [lookupInfo_isSome_of_sameShape hshape1]
      exact horder k (List.mem_cons_of_mem _ hk)
    obtain ⟨t2, hr2, hshape2, hcount2, hkeep2, hsound2⟩ := ih t1 (by omega) horder1
    unfold ensureAllSpecs
    rw [hr1]
    refine ⟨t2, hr2, ?_, by omega, fun k hk => hkeep2 k (hkeep1 k hk),
      fun hs => hsound2 (hsound1 hs)⟩
    rw [hshape2, hshape1]

theorem walkedRefs_eraseSpec (i : tableGenInfo) : walkedRefs (eraseSpec i) = walkedRefs i := rfl

theorem refEdge_of_sameShape {t t' : Registry} (h : t'.map eraseSpec = t.map eraseSpec)
    (a b : String) (he : refEdge t' a b) : refEdge t a b := by
  obtain ⟨info', hl', ⟨ref, hr, hp⟩, hb'⟩ := he
  have h1 := lookupInfo_of_sameShape h a
  rw [hl'] at h1
  cases hl : lookupInfo t a with
  | none => simp [hl] at h1
  | some info =>
    rw [hl] at h1
    simp only [Option.map_some', Option.some.injEq] at h1
    refine ⟨info, hl, ⟨ref, ?_, hp⟩, ?_⟩
    · rw [← walkedRefs_eraseSpec info, ← h1]
      exact hr
    · rw [← lookupInfo_isSome_of_sameShape h]
      exact hb'

theorem mem_includesAt {t : Registry} {ptr : String} {e : String × String}
    (he : e ∈ includesAt t ptr) :
    ∃ info s, lookupInfo t ptr = some info ∧ info.allIncludeSpec = some s ∧
      e ∈ s.Includes.getD [] := by
  unfold includesAt specAt at he
  cases hl : lookupInfo t ptr with
  | none => simp [hl] at he
  | some info =>
    cases hs : info.allIncludeSpec with
    | none => simp [hl, hs] at he
    | some s =>
      refine ⟨info, s, rfl, hs, ?_⟩
      simp only [hl, hs, Option.some_bind] at he
      cases hi : s.Includes with
      | none => simp [hi] at he
      | some l =>
        simp only [hi, Option.getD_some] at he ⊢
        exact he

theorem includesAt_edge {t : Registry} (hs : SpecSound t)
    (hkeyed : ∀ info ∈ t, info.meta.PgName = info.config.Name)
    {ptr : String} {e : String × String} (he : e ∈ includesAt t ptr) :
    e.1 = e.2 ∧ refEdge t ptr e.2 := by
  obtain ⟨info, s, hl, hspec, hmem⟩ := mem_includesAt he
  obtain ⟨⟨ref, hr, hp⟩, sub, hsub, hname⟩ := (hs info (lookupInfo_mem hl) s hspec).2 e hmem
  rw [lookupInfo_eraseSpec] at hsub
  cases hl2 : lookupInfo t e.2 with
  | none => simp [hl2] at hsub
  | some sub0 =>
    rw [hl2] at hsub
    simp only [Option.map_some', Option.some.injEq] at hsub
    subst hsub
    have h1 : sub0.meta.PgName = e.1 := hname
    have h2 := hkeyed sub0 (lookupInfo_mem hl2)
    have h3 := lookupInfo_name hl2
    refine ⟨?_, info, hl, ⟨ref, hr, hp⟩, by simp [hl2]⟩
    rw [← h1, h2, h3]

theorem nestedKeyWithin_reachable {t : Registry} (hs : SpecSound t)
    (hkeyed : ∀ info ∈ t, info.meta.PgName = info.config.Name) :
    ∀ (depth : Nat) (ptr key : String), nestedKeyWithin t depth ptr key = true →
      Relation.TransGen (refEdge t) ptr key := by
  have direct : ∀ (ptr key : String),
      (includesAt t ptr).any (fun e => e.1 == key) = true →
      Relation.TransGen (refEdge t) ptr key := by
    intro ptr key h
    obtain ⟨e, he, hk⟩ := List.any_eq_true.1 h
    obtain ⟨h12, hedge⟩ := includesAt_edge hs hkeyed he
    have hk' : e.1 = key := by simpa using hk
    rw [← hk', h12]
    exact Relation.TransGen.single hedge
  intro depth
  induction depth with
  | zero =>
    intro ptr key h
    exact direct ptr key h
  | succ depth ih =>
    intro ptr key h
    unfold nestedKeyWithin at h
    rcases Bool.or_eq_true_iff.1 h with h1 | h2
    · exact direct ptr key h1
    · obtain ⟨e, he, hk⟩ := List.any_eq_true.1 h2
      obtain ⟨_, hedge⟩ := includesAt_edge hs hkeyed he
      exact Relation.TransGen.head hedge (ih e.2 key hk)

theorem keyed_of_sameShape {t t' : Registry} (h : t'.map eraseSpec = t.map eraseSpec)
    (hkeyed : ∀ info ∈ t, info.meta.PgName = info.config.Name) :
    ∀ info ∈ t', info.meta.PgName = info.config.Name := by
  intro info' hmem
  have h1 : eraseSpec info' ∈ t'.map eraseSpec := List.mem_map_of_mem _ hmem
  rw [h] at h1
  obtain ⟨info, hi, heq⟩ := List.mem_map.1 h1
  have h2 := hkeyed info hi
  have hm : info.meta = info'.meta := by
    have h3 := congrArg (fun z : tableGenInfo => z.meta) heq
    exact h3
  have hc : info.config = info'.config := by
    have h3 := congrArg (fun z : tableGenInfo => z.config) heq
    exact h3
  rw [← hm, ← hc]
  exact h2

theorem SpecSound_fresh (t : Registry) (h : ∀ info ∈ t, info.allIncludeSpec = none) :
    SpecSound t := by
  intro info hi s hs
  rw [h info hi] at hs
  cases hs

theorem chainRegistry_no_edge_from_b (c : String) : ¬ refEdge chainRegistry "b" c := by
  rintro ⟨info, hl, ⟨ref, hr, _⟩, _⟩
  have h0 : lookupInfo chainRegistry "b" = some (exampleInfo "b" false []) := by decide
  rw [h0] at hl
  simp only [Option.some.injEq] at hl
  subst hl
  simp [walkedRefs, exampleInfo] at hr

theorem chainRegistry_edge_from_a (c : String) (h : refEdge chainRegistry "a" c) : c = "b" := by
  obtain ⟨info, hl, ⟨ref, hr, hp⟩, _⟩ := h
  have h0 : lookupInfo chainRegistry "a" = some (exampleInfo "a" false [exampleRef "b" "a"]) := by
    decide
  rw [h0] at hl
  simp only [Option.some.injEq] at hl
  subst hl
  simp only [walkedRefs, exampleInfo, List.append_nil, List.mem_singleton] at hr
  subst hr
  exact hp.symm

theorem chainRegistry_acyclic : ¬ Relation.TransGen (refEdge chainRegistry) "a" "a" := by
  intro h
  obtain ⟨b, hab, hba⟩ := Relation.TransGen.head'_iff.1 h
  have hb := chainRegistry_edge_from_a b hab
  subst hb
  rcases Relation.ReflTransGen.cases_head hba with heq | ⟨c, hbc, _⟩
  · exact absurd heq (by decide)
  · exact chainRegistry_no_edge_from_b c hbc

theorem mem_mapInsert_self (k v : String) (l : List (String × String)) :
    (k, v) ∈ mapInsert k v l := by
  induction l with
  | nil => simp [mapInsert]
  | cons hd tl ih =>
    obtain ⟨k', v'⟩ := hd
    unfold mapInsert
    split
    · exact List.mem_cons_self _ _
    · exact List.mem_cons_of_mem _ ih

theorem mem_mapInsert_keep (b c : String) (l : List (String × String)) (h : (c, c) ∈ l) :
    (c, c) ∈ mapInsert b b l := by
  induction l with
  | nil => cases h
  | cons hd tl ih =>
    obtain ⟨k', v'⟩ := hd
    unfold mapInsert
    by_cases hk : (k' == b) = true
    · rw [if_pos hk]
      rcases List.mem_cons.1 h with heq | hmem
      · have h1 : c = k' := congrArg Prod.fst heq
        have h2 : k' = b := by simpa using hk
        rw [h1, h2]
        exact List.mem_cons_self _ _
      · exact List.mem_cons_of_mem _ hmem
    · rw [if_neg hk]
      rcases List.mem_cons.1 h with heq | hmem
      · rw [heq]
        exact List.mem_cons_self _ _
      · exact List.mem_cons_of_mem _ (ih hmem)

theorem specAt_modifyInfo_ne (f : tableGenInfo → tableGenInfo) (name k : String)
    (hc : ∀ i, (f i).config = i.config) (hk : k ≠ name) (t : Registry) :
    specAt (modifyInfo f name t) k = specAt t k := by
  unfold specAt
  rw [lookupInfo_modifyInfo_ne f name k hc hk]

theorem includesAt_modifyInfo_ne (f : tableGenInfo → tableGenInfo) (name k : String)
    (hc : ∀ i, (f i).config = i.config) (hk : k ≠ name) (t : Registry) :
    includesAt (modifyInfo f name t) k = includesAt t k := by
  unfold includesAt
  rw [specAt_modifyInfo_ne f name k hc hk]

theorem includesAt_normalizeInfo (name k : String) (t : Registry) :
    includesAt (modifyInfo normalizeInfo name t) k = includesAt t k := by
  by_cases hk : k = name
  · subst hk
    unfold includesAt specAt
    rw [lookupInfo_modifyInfo_self normalizeInfo k (fun _ => rfl)]
    cases lookupInfo t k with
    | none => rfl
    | some i =>
      simp only [Option.map_some', Option.some_bind, normalizeInfo]
      cases i.allIncludeSpec with
      | none => rfl
      | some s0 =>
        simp only [Option.map_some', Option.some_bind, Spec.normalize]
        split
        · rename_i hlen
          have hnil := List.eq_nil_of_length_eq_zero hlen
          rw [hnil]
          rfl
        · rfl
  · exact includesAt_modifyInfo_ne normalizeInfo name k (fun _ => rfl) hk t

theorem specAt_normalizeInfo_isSome (name k : String) (t : Registry) :
    (specAt (modifyInfo normalizeInfo name t) k).isSome = (specAt t k).isSome := by
  by_cases hk : k = name
  · subst hk
    unfold specAt
    rw [lookupInfo_modifyInfo_self normalizeInfo k (fun _ => rfl)]
    cases lookupInfo t k with
    | none => rfl
    | some i =>
      simp only [Option.map_some', Option.some_bind, normalizeInfo]
      cases i.allIncludeSpec with
      | none => rfl
      | some s0 => rfl
  · rw [specAt_modifyInfo_ne normalizeInfo name k (fun _ => rfl) hk t]

theorem specAt_addInclude_isSome (t : Registry) (owner key sub k : String) :
    (specAt (addInclude t owner key sub) k).isSome = (specAt t k).isSome := by
  unfold addInclude
  by_cases hk : k = owner
  · subst hk
    unfold specAt
    rw [lookupInfo_modifyInfo_self (insertInclude key sub) k (fun _ => rfl)]
    cases lookupInfo t k with
    | none => rfl
    | some i =>
      simp only [Option.map_some', Option.some_bind, insertInclude]
      cases i.allIncludeSpec with
      | none => rfl
      | some s0 => rfl
  · rw [specAt_modifyInfo_ne (insertInclude key sub) owner k (fun _ => rfl) hk t]

theorem includesAt_addInclude_self (t : Registry) (owner key sub : String)
    (h : (specAt t owner).isSome) :
    includesAt (addInclude t owner key sub) owner = mapInsert key sub (includesAt t owner) := by
  unfold addInclude includesAt specAt at *
  rw [lookupInfo_modifyInfo_self (insertInclude key sub) owner (fun _ => rfl)]
  cases hl : lookupInfo t owner with
  | none => simp [hl] at h
  | some i =>
    cases hs : i.allIncludeSpec with
    | none => simp [hl, hs] at h
    | some s0 => simp [insertInclude, hs, Spec.insert]

theorem includesKept_addInclude (t : Registry) (owner b : String) :
    includesKept t (addInclude t owner b b) := by
  intro k c hc
  by_cases hk : k = owner
  · subst hk
    by_cases hsome : (specAt t k).isSome = true
    · rw [includesAt_addInclude_self t k b b hsome]
      exact mem_mapInsert_keep b c _ hc
    · exfalso
      unfold includesAt at hc
      cases hsp : specAt t k with
      | none => simp [hsp] at hc
      | some sp => simp [hsp] at hsome
  · unfold addInclude
    rw [includesAt_modifyInfo_ne (insertInclude b b) owner k (fun _ => rfl) hk t]
    exact hc

theorem specClosed_of_kept {t t' : Registry} (hshape : t'.map eraseSpec = t.map eraseSpec)
    (hkept : includesKept t t') (k : String) (h : specClosed t k) : specClosed t' k := by
  intro b hedge
  exact hkept k b (h b (refEdge_of_sameShape hshape k b hedge))

theorem SpecComplete_of_kept {t t' : Registry} (pending : List String)
    (hshape : t'.map eraseSpec = t.map eraseSpec) (hkept : includesKept t t')
    (hspec : ∀ k, (specAt t' k).isSome → (specAt t k).isSome)
    (h : SpecComplete pending t) : SpecComplete pending t' := by
  intro k hk
  rcases h k (hspec k hk) with hp | hc
  · exact Or.inl hp
  · exact Or.inr (specClosed_of_kept hshape hkept k hc)

theorem ensureReferencedSpecs_complete (recurse : Registry → String → Option GenResult)
    (fuel : Nat) (owner : String) (pending : List String)
    (hrecOk : ∀ t name, nilCount t < fuel → (lookupInfo t name).isSome →
      EnsureOk t (recurse t name) ∧
        ∀ t', recurse t name = some (.ok t') → (specAt t' name).isSome)
    (hrecC : ∀ t name, nilCount t < fuel → (lookupInfo t name).isSome →
      (∀ info ∈ t, info.meta.PgName = info.config.Name) → SpecSound t →
      SpecComplete pending t →
      ∀ t', recurse t name = some (.ok t') → includesKept t t' ∧ SpecComplete pending t')
    (refs : List refMeta) :
    ∀ t : Registry, nilCount t < fuel →
      (∀ info ∈ t, info.meta.PgName = info.config.Name) → SpecSound t →
      SpecComplete pending t → (specAt t owner).isSome →
      (∀ ref ∈ refs, ∃ i, lookupInfo (t.map eraseSpec) owner = some i ∧ ref ∈ walkedRefs i) →
      ∀ t', ensureReferencedSpecs recurse owner refs t = some (.ok t') →
        includesKept t t' ∧ SpecComplete pending t' ∧
        ∀ ref ∈ refs, (lookupInfo t ref.PointsFrom).isSome →
          (ref.PointsFrom, ref.PointsFrom) ∈ includesAt t' owner := by
  induction refs with
  | nil =>
    intro t _ _ _ hcomp _ _ t' hres
    unfold ensureReferencedSpecs at hres
    cases hres
    exact ⟨fun _ _ h => h, hcomp, fun _ h => absurd h (List.not_mem_nil _)⟩
  | cons ref rest ih =>
    intro t hfuel hkey hsound hcomp hown howner t' hres
    have hrest : ∀ r ∈ rest,
        ∃ i, lookupInfo (t.map eraseSpec) owner = some i ∧ r ∈ walkedRefs i :=
      fun r hr => howner r (List.mem_cons_of_mem _ hr)
    unfold ensureReferencedSpecs at hres
    cases hl : lookupInfo t ref.PointsFrom with
    | none =>
      rw [hl] at hres
      obtain ⟨hkept, hcomp', hmem⟩ := ih t hfuel hkey hsound hcomp hown hrest t' hres
      refine ⟨hkept, hcomp', ?_⟩
      intro r hr hsome
      rcases List.mem_cons.1 hr with heq | hr'
      · rw [heq, hl] at hsome
        cases hsome
      · exact hmem r hr' hsome
    | some found =>
      rw [hl] at hres
      simp only [] at hres
      obtain ⟨⟨t1, hr1, hshape1, hcount1, hkeep1, hsound1⟩, hsome1⟩ :=
        hrecOk t ref.PointsFrom hfuel (by simp [hl])
      obtain ⟨hkept1, hcomp1⟩ :=
        hrecC t ref.PointsFrom hfuel (by simp [hl]) hkey hsound hcomp t1 hr1
      have hspec1 := hsome1 t1 hr1
      rw [hr1] at hres
      simp only [] at hres
      unfold specAt at hspec1
      cases hsub : lookupInfo t1 ref.PointsFrom with
      | none => simp [hsub] at hspec1
      | some subInfo =>
        simp only [hsub, Option.some_bind] at hspec1 hres
        cases hsp : subInfo.allIncludeSpec with
        | none => simp [hsp] at hspec1
        | some subSpec =>
          rw [hsp] at hres
          simp only [] at hres
          have hkey1 := keyed_of_sameShape hshape1 hkey
          have htn : subSpec.TableName = ref.PointsFrom := by
            rw [(hsound1 hsound subInfo (lookupInfo_mem hsub) subSpec hsp).1,
              hkey1 subInfo (lookupInfo_mem hsub), lookupInfo_name hsub]
          have hsound2 : SpecSound (addInclude t1 owner subSpec.TableName ref.PointsFrom) := by
            apply SpecSound_addInclude t1 owner ref subInfo subSpec hsub hsp ?_ (hsound1 hsound)
            rw [hshape1]
            exact howner ref (List.mem_cons_self _ _)
          rw [htn] at hres hsound2
          have hshape2 : (addInclude t1 owner ref.PointsFrom ref.PointsFrom).map eraseSpec
              = t1.map eraseSpec := by
            unfold addInclude
            exact map_eraseSpec_modifyInfo _ _ (eraseSpec_insertInclude _ _) t1
          have hcount2 : nilCount (addInclude t1 owner ref.PointsFrom ref.PointsFrom)
              ≤ nilCount t1 := by
            unfold addInclude
            apply nilCount_modifyInfo_le
            intro i hi
            cases h0 : i.allIncludeSpec with
            | none => simp [h0] at hi
            | some s0 => simp [insertInclude, h0]
          have hown1 : (specAt t1 owner).isSome := hkeep1 owner hown
          have hown2 : (specAt (addInclude t1 owner ref.PointsFrom ref.PointsFrom) owner).isSome := by
            rw [specAt_addInclude_isSome]
            exact hown1
          have hkept12 := includesKept_addInclude t1 owner ref.PointsFrom
          have hcomp2 : SpecComplete pending
              (addInclude t1 owner ref.PointsFrom ref.PointsFrom) :=
            SpecComplete_of_kept pending hshape2 hkept12
              (fun k hk => by rw [specAt_addInclude_isSome] at hk; exact hk) hcomp1
          have hmem2 : (ref.PointsFrom, ref.PointsFrom)
              ∈ includesAt (addInclude t1 owner ref.PointsFrom ref.PointsFrom) owner := by
            rw [includesAt_addInclude_self t1 owner _ _ hown1]
            exact mem_mapInsert_self _ _ _
          obtain ⟨hkept3, hcomp3, hmem3⟩ :=
            ih (addInclude t1 owner ref.PointsFrom ref.PointsFrom) (by omega)
              (keyed_of_sameShape hshape2 hkey1) hsound2 hcomp2 hown2
              (by
                intro r hr
                rw [hshape2, hshape1]
                exact hrest r hr)
              t' hres
          refine ⟨fun k b h => hkept3 k b (hkept12 k b (hkept1 k b h)), hcomp3, ?_⟩
          intro r hr hsome
          rcases List.mem_cons.1 hr with heq | hr'
          · rw [heq]
            exact hkept3 owner _ hmem2
          · apply hmem3 r hr'
            rw [lookupInfo_isSome_of_sameShape hshape2, lookupInfo_isSome_of_sameShape hshape1]
            exact hsome

theorem ensureSpec_complete : ∀ (fuel : Nat) (t : Registry) (name : String)
    (pending : List String),
    nilCount t < fuel → (lookupInfo t name).isSome →
    (∀ info ∈ t, info.meta.PgName = info.config.Name) → SpecSound t →
    SpecComplete pending t →
    ∀ t', ensureSpec fuel t name = some (.ok t') →
      includesKept t t' ∧ SpecComplete pending t' := by
  intro fuel
  induction fuel with
  | zero =>
    intro t name _ h
    omega
  | succ fuel ih =>
    intro t name pending hfuel hex hkey hsound hcomp t' hres
    unfold ensureSpec at hres
    cases hl : lookupInfo t name with
    | none => simp [hl] at hex
    | some info =>
      rw [hl] at hres
      simp only [] at hres
      by_cases hspec : info.allIncludeSpec.isSome = true
      · rw [if_pos hspec] at hres
        cases hres
        exact ⟨fun _ _ h => h, hcomp⟩
      · rw [if_neg hspec] at hres
        have hnil : info.allIncludeSpec = none := by
          cases h0 : info.allIncludeSpec with
          | none => rfl
          | some s0 => simp [h0] at hspec
        have hshape0 : (modifyInfo initSpec name t).map eraseSpec = t.map eraseSpec :=
          map_eraseSpec_modifyInfo initSpec name (fun _ => rfl) t
        have hcount0 : nilCount (modifyInfo initSpec name t) + 1 = nilCount t :=
          nilCount_modifyInfo_lt initSpec name (fun _ => rfl) t info hl hnil
        have hself0 : (specAt (modifyInfo initSpec name t) name).isSome := by
          unfold specAt
          rw [lookupInfo_modifyInfo_self initSpec name (fun _ => rfl), hl]
          rfl
        have hinc0 : includesAt t name = [] := by
          unfold includesAt specAt
          rw [hl]
          simp [hnil]
        have hkept0 : includesKept t (modifyInfo initSpec name t) := by
          intro k b hb
          by_cases hk : k = name
          · subst hk
            rw [hinc0] at hb
            cases hb
          · rw [includesAt_modifyInfo_ne initSpec name k (fun _ => rfl) hk t]
            exact hb
        have hcomp0 : SpecComplete (name :: pending) (modifyInfo initSpec name t) := by
          intro k hk
          by_cases hkn : k = name
          · exact Or.inl (by rw [hkn]; exact List.mem_cons_self _ _)
          · rw [specAt_modifyInfo_ne initSpec name k (fun _ => rfl) hkn t] at hk
            rcases hcomp k hk with hp | hc
            · exact Or.inl (List.mem_cons_of_mem _ hp)
            · exact Or.inr (specClosed_of_kept hshape0 hkept0 k hc)
        have hrecOk : ∀ (t2 : Registry) (n2 : String), nilCount t2 < fuel →
            (lookupInfo t2 n2).isSome →
            EnsureOk t2 (ensureSpec fuel t2 n2) ∧
              ∀ t', ensureSpec fuel t2 n2 = some (.ok t') → (specAt t' n2).isSome :=
          fun t2 n2 h2 h3 => ensureSpec_ok fuel t2 n2 h2 h3
        have hrecOkShape : ∀ (t2 : Registry) (n2 : String),
            t2.map eraseSpec = t.map eraseSpec → nilCount t2 < fuel →
            (lookupInfo t2 n2).isSome →
            EnsureOk t2 (ensureSpec fuel t2 n2) ∧
              ∀ t', ensureSpec fuel t2 n2 = some (.ok t') → (specAt t' n2).isSome :=
          fun t2 n2 _ h2 h3 => ensureSpec_ok fuel t2 n2 h2 h3
        have howner : ∀ ref ∈ info.meta.References ++ info.explicitBelongsTo,
            ∃ i, lookupInfo (t.map eraseSpec) name = some i ∧ ref ∈ walkedRefs i := by
          intro ref hr
          refine ⟨eraseSpec info, ?_, hr⟩
          rw [lookupInfo_eraseSpec, hl]
          rfl
        obtain ⟨t1, hr1, hshape1, _, _, _⟩ :=
          ensureReferencedSpecs_ok (ensureSpec fuel) fuel name (t.map eraseSpec) hrecOkShape
            (info.meta.References ++ info.explicitBelongsTo) (modifyInfo initSpec name t)
            hshape0 (by omega) howner
        rw [hr1] at hres
        simp only [] at hres
        cases hres
        obtain ⟨hkept1, hcomp1, hmem1⟩ :=
          ensureReferencedSpecs_complete (ensureSpec fuel) fuel name (name :: pending) hrecOk
            (fun t2 n2 h2 h3 h4 h5 h6 t3 h7 => ih t2 n2 (name :: pending) h2 h3 h4 h5 h6 t3 h7)
            (info.meta.References ++ info.explicitBelongsTo) (modifyInfo initSpec name t)
            (by omega) (keyed_of_sameShape hshape0 hkey) (SpecSound_initSpec t name hsound)
            hcomp0 hself0
            (by
              intro ref hr
              rw [hshape0]
              exact howner ref hr)
            t1 hr1
        have hshapeF : (modifyInfo normalizeInfo name t1).map eraseSpec = t.map eraseSpec := by
          rw [map_eraseSpec_modifyInfo normalizeInfo name eraseSpec_normalizeInfo, hshape1,
            hshape0]
        have hkeptF : includesKept t (modifyInfo normalizeInfo name t1) := by
          intro k b hb
          rw [includesAt_normalizeInfo]
          exact hkept1 k b (hkept0 k b hb)
        have hkept1F : includesKept t1 (modifyInfo normalizeInfo name t1) := by
          intro k b hb
          rw [includesAt_normalizeInfo]
          exact hb
        refine ⟨hkeptF, ?_⟩
        intro k hk
        by_cases hkn : k = name
        · right
          rw [hkn]
          intro b hedge
          have hedge0 := refEdge_of_sameShape hshapeF name b hedge
          obtain ⟨info', hl', ⟨ref, hr, hp⟩, hb⟩ := hedge0
          rw [hl] at hl'
          cases hl'
          rw [includesAt_normalizeInfo, ← hp]
          apply hmem1 ref hr
          rw [lookupInfo_isSome_of_sameShape hshape0, hp]
          exact hb
        · rw [specAt_normalizeInfo_isSome] at hk
          rcases hcomp1 k hk with hp | hc
          · rcases List.mem_cons.1 hp with h1 | h1
            · exact absurd h1 hkn
            · exact Or.inl h1
          · right
            refine specClosed_of_kept ?_ hkept1F k hc
            exact map_eraseSpec_modifyInfo normalizeInfo name eraseSpec_normalizeInfo t1

theorem ensureAllSpecs_complete (fuel : Nat) (order : List String) :
    ∀ t : Registry, nilCount t < fuel → (∀ k ∈ order, (lookupInfo t k).isSome) →
      (∀ info ∈ t, info.meta.PgName = info.config.Name) → SpecSound t → SpecComplete [] t →
      ∀ t', ensureAllSpecs fuel order t = some (.ok t') →
        SpecComplete [] t' ∧ ∀ k ∈ order, (specAt t' k).isSome := by
  induction order with
  | nil =>
    intro t _ _ _ _ hcomp t' hres
    unfold ensureAllSpecs at hres
    cases hres
    exact ⟨hcomp, fun _ h => absurd h (List.not_mem_nil _)⟩
  | cons name rest ih =>
    intro t hfuel horder hkey hsound hcomp t' hres
    obtain ⟨⟨t1, hr1, hshape1, hcount1, hkeep1, hsound1⟩, hsome1⟩ :=
      ensureSpec_ok fuel t name hfuel (horder name (List.mem_cons_self _ _))
    obtain ⟨_, hcomp1⟩ := ensureSpec_complete fuel t name [] hfuel
      (horder name (List.mem_cons_self _ _)) hkey hsound hcomp t1 hr1
    have horder1 : ∀ k ∈ rest, (lookupInfo t1 k).isSome := by
      intro k hk
      rw [lookupInfo_isSome_of_sameShape hshape1]
      exact horder k (List.mem_cons_of_mem _ hk)
    unfold ensureAllSpecs at hres
    rw [hr1] at hres
    simp only [] at hres
    obtain ⟨hcomp', hall'⟩ := ih t1 (by omega) horder1 (keyed_of_sameShape hshape1 hkey)
      (hsound1 hsound) hcomp1 t' hres
    obtain ⟨t2, hr2, _, _, hkeep2, _⟩ := ensureAllSpecs_ok fuel rest t1 (by omega) horder1
    rw [hr2] at hres
    cases hres
    refine ⟨hcomp', ?_⟩
    intro k hk
    rcases List.mem_cons.1 hk with heq | hk'
    · rw [heq]
      exact hkeep2 name (hsome1 t1 hr1)
    · exact hall' k hk'

theorem nestedKey_of_path {t : Registry}
    (hclosed : ∀ k, (lookupInfo t k).isSome → specClosed t k) (a b : String)
    (h : Relation.TransGen (refEdge t) a b) :
    ∃ depth, nestedKeyWithin t depth a b = true := by
  induction h using Relation.TransGen.head_induction_on with
  | @base a0 hedge =>
    have hreg : (lookupInfo t a0).isSome := by
      obtain ⟨info, hl, _, _⟩ := hedge
      simp [hl]
    refine ⟨0, ?_⟩
    unfold nestedKeyWithin
    exact List.any_eq_true.2 ⟨(b, b), hclosed a0 hreg b hedge, by simp⟩
  | @ih a0 c0 hedge _ hrec =>
    have hreg : (lookupInfo t a0).isSome := by
      obtain ⟨info, hl, _, _⟩ := hedge
      simp [hl]
    obtain ⟨depth, hd⟩ := hrec
    refine ⟨depth + 1, ?_⟩
    unfold nestedKeyWithin
    apply Bool.or_eq_true_iff.2
    right
    exact List.any_eq_true.2 ⟨(c0, c0), hclosed a0 hreg c0 hedge, hd⟩

/-- C2, amended: on a freshly populated registry keyed by table name, the loop
of `populateTableInfo` over `ensureSpec` returns a registry, whatever the order
of the tables.  An edge leads from a table to each configured table that holds
a catalog reference or an explicit belongs-to reference to it, whether or not
inference is disabled for the referencing table.  In the registry returned the
name of a table `T` is a key of an `Includes` map at no depth of `T`'s own
include spec when no chain of such edges leads from `T` back to `T`; when the
loop visits every registered table and such a chain exists, the name of `T` is
a key at some depth of `T`'s own spec. -/
theorem root_nested_iff_on_reference_cycle (tables : Registry) (order : List String)
    (T : String)
    (hfresh : ∀ info ∈ tables, info.allIncludeSpec = none)
    (hkeyed : ∀ info ∈ tables, info.meta.PgName = info.config.Name)
    (horder : ∀ k ∈ order, (lookupInfo tables k).isSome) :
    ∃ tables', ensureAllSpecs (tables.length + 1) order tables = some (.ok tables') ∧
      (¬ Relation.TransGen (refEdge tables) T T →
        ∀ depth, nestedKeyWithin tables' depth T T = false) ∧
      ((∀ info ∈ tables, info.config.Name ∈ order) →
        Relation.TransGen (refEdge tables) T T →
        ∃ depth, nestedKeyWithin tables' depth T T = true) := by
  have hfuel : nilCount tables < tables.length + 1 :=
    Nat.lt_succ_of_le (List.countP_le_length _)
  obtain ⟨t', hr, hshape, _, _, hsound⟩ :=
    ensureAllSpecs_ok (tables.length + 1) order tables hfuel horder
  have hsound0 := SpecSound_fresh tables hfresh
  have hcomp0 : SpecComplete [] tables := by
    intro k hk
    exfalso
    unfold specAt at hk
    cases hl : lookupInfo tables k with
    | none => simp [hl] at hk
    | some info => simp [hl, hfresh info (lookupInfo_mem hl)] at hk
  obtain ⟨hcomp, hall⟩ := ensureAllSpecs_complete (tables.length + 1) order tables hfuel horder
    hkeyed hsound0 hcomp0 t' hr
  refine ⟨t', hr, ?_, ?_⟩
  · intro hacyclic depth
    cases hn : nestedKeyWithin t' depth T T with
    | false => rfl
    | true =>
      exfalso
      apply hacyclic
      have hpath := nestedKeyWithin_reachable (hsound hsound0)
        (keyed_of_sameShape hshape hkeyed) depth T T hn
      exact Relation.TransGen.mono (fun a b => refEdge_of_sameShape hshape a b) hpath
  · intro hcover hcycle
    have hclosed : ∀ k, (lookupInfo t' k).isSome → specClosed t' k := by
      intro k hk
      rw [lookupInfo_isSome_of_sameShape hshape] at hk
      cases hl : lookupInfo tables k with
      | none => simp [hl] at hk
      | some info =>
        have hmem : k ∈ order := by
          have h1 := hcover info (lookupInfo_mem hl)
          rw [lookupInfo_name hl] at h1
          exact h1
        rcases hcomp k (hall k hmem) with hp | hc
        · cases hp
        · exact hc
    exact nestedKey_of_path hclosed T T
      (Relation.TransGen.mono (fun a b => refEdge_of_sameShape hshape.symm a b) hcycle)

/-- C2, amended, at the schema where `b` references `a` and nothing references
`b`: the spec of `a` never holds `a` as a nested key; and at the table `t`
that references itself and is configured with `no_infer_belongs_to`: the spec
of `t` holds `t`, although `genTable` keeps no reference for `t`. -/
theorem root_nested_iff_on_reference_cycle_witness :
    (∀ info ∈ chainRegistry, info.allIncludeSpec = none) ∧
    (∀ info ∈ chainRegistry, info.meta.PgName = info.config.Name) ∧
    (∀ k ∈ ["a", "b"], (lookupInfo chainRegistry k).isSome) ∧
    ¬ Relation.TransGen (refEdge chainRegistry) "a" "a" ∧
    (∃ tables', ensureAllSpecs (chainRegistry.length + 1) ["a", "b"] chainRegistry
        = some (.ok tables') ∧
      ∀ depth, nestedKeyWithin tables' depth "a" "a" = false) ∧
    genTableReferences selfRefNoInferRegistry "t" = .ok [] ∧
    Relation.TransGen (refEdge selfRefNoInferRegistry) "t" "t" ∧
    (∃ tables', ensureAllSpecs (selfRefNoInferRegistry.length + 1) ["t"] selfRefNoInferRegistry
        = some (.ok tables') ∧
      ∃ depth, nestedKeyWithin tables' depth "t" "t" = true) :=
  ⟨by decide, by decide, by decide, chainRegistry_acyclic,
    (root_nested_iff_on_reference_cycle chainRegistry ["a", "b"] "a" (by decide) (by decide)
      (by decide)).imp (fun _ h => ⟨h.1, h.2.1 chainRegistry_acyclic⟩),
    by decide,
    Relation.TransGen.single
      ⟨exampleInfo "t" true [exampleRef "t" "t"], by decide,
        ⟨exampleRef "t" "t", by decide, rfl⟩, by decide⟩,
    (root_nested_iff_on_reference_cycle selfRefNoInferRegistry ["t"] "t" (by decide)
      (by decide) (by decide)).imp
      (fun _ h => ⟨h.1, h.2.2 (by decide)
        (Relation.TransGen.single
          ⟨exampleInfo "t" true [exampleRef "t" "t"], by decide,
            ⟨exampleRef "t" "t", by decide, rfl⟩, by decide⟩)⟩)⟩

/-- C3, the code at the failing input: `b` references `a` and is configured
with `no_infer_belongs_to`.  `genTable` keeps no reference for `a`, so no
relationship edge leaves `a`; the include spec `ensureSpec` builds for `a`
nevertheless holds `b`, in either iteration order. -/
theorem closure_holds_inference_disabled_table :
    genTableReferences noInferRegistry "a" = .ok [] ∧
    (∃ tables', ensureAllSpecs 3 ["a", "b"] noInferRegistry = some (.ok tables') ∧
      includesAt tables' "a" = [("b", "b")]) ∧
    (∃ tables', ensureAllSpecs 3 ["b", "a"] noInferRegistry = some (.ok tables') ∧
      includesAt tables' "a" = [("b", "b")]) := by
  refine ⟨by decide, ⟨_, rfl, ?_⟩, ⟨_, rfl, ?_⟩⟩ <;> decide

/-! ## Theorems: `List`, `Get`, `BulkDelete` -/

theorem scanRows_ok_iff (scans : List (Except String Row)) :
    ∀ (acc ret : List Row), scanRows scans acc = .ok ret ↔
      ∃ recs, scans = recs.map Except.ok ∧ ret = acc ++ recs := by
  induction scans with
  | nil =>
    intro acc ret
    constructor
    · intro h
      refine ⟨[], rfl, ?_⟩
      simp only [scanRows, Except.ok.injEq] at h
      simp [h]
    · rintro ⟨recs, h1, h2⟩
      have : recs = [] := by
        cases recs with
        | nil => rfl
        | cons a b => simp at h1
      subst this
      simp [scanRows, h2]
  | cons hd tl ih =>
    intro acc ret
    cases hd with
    | error e =>
      constructor
      · intro h
        simp [scanRows] at h
      · rintro ⟨recs, h1, _⟩
        cases recs with
        | nil => simp at h1
        | cons a b => simp at h1
    | ok v =>
      simp only [scanRows]
      rw [ih]
      constructor
      · rintro ⟨recs, h1, h2⟩
        exact ⟨v :: recs, by simp [h1], by simp [h2]⟩
      · rintro ⟨recs, h1, h2⟩
        cases recs with
        | nil => simp at h1
        | cons a b =>
          simp only [List.map_cons, List.cons.injEq, Except.ok.injEq] at h1
          obtain ⟨hv, htl⟩ := h1
          subst hv
          exact ⟨b, htl, by simp [h2]⟩

theorem ListGoName_success_iff (ctx : tableGenCtx) (db : DB) (ids : List Val) (hne : ids ≠ [])
    (ret : Option (List Row)) :
    ((ListGoName ctx db ids).err = none ∧ (ListGoName ctx db ids).ret = ret) ↔
      ∃ recs, db.QueryContext (listStmt ctx) [.array ids]
          = .ok { scans := recs.map Except.ok, closeErr := none } ∧
        recs.length = ids.length ∧ ret = some recs := by
  have hlen : ¬ ids.length = 0 := by
    intro h
    exact hne (List.length_eq_zero.1 h)
  unfold ListGoName
  rw [if_neg hlen]
  cases hq : db.QueryContext (listStmt ctx) [.array ids] with
  | error e => simp
  | ok rows =>
    obtain ⟨scans, closeErr⟩ := rows
    simp only []
    cases hs : scanRows scans [] with
    | error e =>
      have hno : ¬ ∃ recs : List Row, scans = recs.map Except.ok := by
        rintro ⟨recs, hr⟩
        have := (scanRows_ok_iff scans [] recs).2 ⟨recs, hr, by simp⟩
        rw [hs] at this
        cases this
      cases closeErr with
      | none =>
        simp only [listDeferred]
        constructor
        · rintro ⟨h, _⟩
          cases h
        · rintro ⟨recs, h1, _⟩
          simp only [Except.ok.injEq, Rows.mk.injEq] at h1
          exact absurd ⟨recs, h1.1⟩ hno
      | some ce =>
        simp only [listDeferred]
        constructor
        · rintro ⟨h, _⟩
          cases h
        · rintro ⟨recs, h1, _⟩
          simp only [Except.ok.injEq, Rows.mk.injEq] at h1
          cases h1.2
    | ok got =>
      obtain ⟨recs, hrecs, hgot⟩ := (scanRows_ok_iff scans [] got).1 hs
      simp only [List.nil_append] at hgot
      subst hgot
      subst hrecs
      by_cases hcount : got.length = ids.length
      · have hc : (got.length != ids.length) = false := by simp [hcount]
        simp only [hc, Bool.false_eq_true, if_false]
        cases closeErr with
        | none =>
          simp only [listDeferred]
          constructor
          · rintro ⟨_, h⟩
            exact ⟨got, rfl, hcount, h.symm⟩
          · rintro ⟨recs, h1, _, h3⟩
            simp only [Except.ok.injEq, Rows.mk.injEq, and_true] at h1
            have : got = recs := by
              have hinj : Function.Injective (Except.ok : Row → Except String Row) := by
                intro a b hab
                cases hab
                rfl
              exact List.map_injective_iff.2 hinj h1
            subst this
            exact ⟨by trivial, h3.symm⟩
        | some ce =>
          simp only [listDeferred]
          constructor
          · rintro ⟨h, _⟩
            cases h
          · rintro ⟨recs, h1, _⟩
            simp only [Except.ok.injEq, Rows.mk.injEq] at h1
            cases h1.2
      · have hc : (got.length != ids.length) = true := by simp [hcount]
        simp only [hc, if_true]
        have hno : ¬ ∃ recs : List Row,
            got.map (Except.ok : Row → Except String Row) = recs.map Except.ok ∧
            recs.length = ids.length := by
          rintro ⟨recs, h1, h2⟩
          have hl := congrArg List.length h1
          simp only [List.length_map] at hl
          exact hcount (hl.trans h2)
        cases closeErr with
        | none =>
          simp only [listDeferred]
          constructor
          · rintro ⟨h, _⟩
            cases h
          · rintro ⟨recs, h1, h2, _⟩
            simp only [Except.ok.injEq, Rows.mk.injEq, and_true] at h1
            exact absurd ⟨recs, h1, h2⟩ hno
        | some ce =>
          simp only [listDeferred]
          constructor
          · rintro ⟨h, _⟩
            cases h
          · rintro ⟨recs, h1, _⟩
            simp only [Except.ok.injEq, Rows.mk.injEq] at h1
            cases h1.2

theorem ListGoName_error_ret (ctx : tableGenCtx) (db : DB) (ids : List Val) (hne : ids ≠ [])
    (h : (ListGoName ctx db ids).err ≠ none) : (ListGoName ctx db ids).ret = none := by
  have hlen : ¬ ids.length = 0 := by
    intro h0
    exact hne (List.length_eq_zero.1 h0)
  unfold ListGoName at h ⊢
  rw [if_neg hlen] at h ⊢
  cases hq : db.QueryContext (listStmt ctx) [.array ids] with
  | error e => rfl
  | ok rows =>
    obtain ⟨scans, closeErr⟩ := rows
    rw [hq] at h
    simp only [] at h ⊢
    cases hs : scanRows scans [] with
    | error e => cases closeErr <;> rfl
    | ok got =>
      rw [hs] at h
      simp only [] at h ⊢
      by_cases hcount : (got.length != ids.length) = true
      · rw [if_pos hcount]
        cases closeErr <;> rfl
      · rw [if_neg hcount] at h ⊢
        cases closeErr with
        | none => simp [listDeferred] at h
        | some ce => rfl

theorem BulkDeleteGoName_success_iff (ctx : tableGenCtx) (db : DB) (ids : List Val)
    (hne : ids ≠ []) :
    (BulkDeleteGoName ctx db ids).err = none ↔
      db.ExecContext (bulkDeleteStmt ctx) [.array ids]
        = .ok { RowsAffected := .ok (ids.length : Int) } := by
  have hlen : ¬ ids.length = 0 := by
    intro h0
    exact hne (List.length_eq_zero.1 h0)
  unfold BulkDeleteGoName
  rw [if_neg hlen]
  cases hq : db.ExecContext (bulkDeleteStmt ctx) [.array ids] with
  | error e => simp
  | ok res =>
    obtain ⟨affected⟩ := res
    cases affected with
    | error e => simp
    | ok nrows =>
      simp only []
      by_cases hn : nrows = (ids.length : Int)
      · simp [hn]
      · have hc : (nrows != (ids.length : Int)) = true := by simp [hn]
        rw [if_pos hc]
        simp [hn]

/-- C4: the exact-count contract.  For a non-empty key list, `List` returns a
nil error exactly when the query succeeded, every delivered row scanned, the
number of rows scanned equals `len(ids)` and `Close` succeeded, and it then
returns exactly the scanned rows; with a non-nil error it returns a nil slice,
never a shorter list.  `BulkDelete` returns a nil error exactly when the
statement ran and the reported affected-row count equals `len(ids)`. -/
theorem exact_count_contract (ctx : tableGenCtx) (db : DB) (ids : List Val) (hne : ids ≠ []) :
    ((ListGoName ctx db ids).err = none ↔
      ∃ recs, db.QueryContext (listStmt ctx) [.array ids]
          = .ok { scans := recs.map Except.ok, closeErr := none } ∧
        recs.length = ids.length ∧ (ListGoName ctx db ids).ret = some recs) ∧
    ((ListGoName ctx db ids).err ≠ none → (ListGoName ctx db ids).ret = none) ∧
    ((BulkDeleteGoName ctx db ids).err = none ↔
      db.ExecContext (bulkDeleteStmt ctx) [.array ids]
        = .ok { RowsAffected := .ok (ids.length : Int) }) := by
  refine ⟨⟨?_, ?_⟩, ListGoName_error_ret ctx db ids hne,
    BulkDeleteGoName_success_iff ctx db ids hne⟩
  · intro h
    exact (ListGoName_success_iff ctx db ids hne _).1 ⟨h, rfl⟩
  · rintro ⟨recs, h1, h2, h3⟩
    exact ((ListGoName_success_iff ctx db ids hne _).2 ⟨recs, h1, h2, h3⟩).1

/-- C4 at the table `users` holding the keys 1 and 2, asked for the keys 1, 2. -/
theorem exact_count_contract_witness :
    [Val.int 1, Val.int 2] ≠ [] ∧
    (((ListGoName usersCtx (storedDB 0 usersRows) [Val.int 1, Val.int 2]).err = none ↔
      ∃ recs, (storedDB 0 usersRows).QueryContext (listStmt usersCtx)
            [.array [Val.int 1, Val.int 2]]
          = .ok { scans := recs.map Except.ok, closeErr := none } ∧
        recs.length = [Val.int 1, Val.int 2].length ∧
        (ListGoName usersCtx (storedDB 0 usersRows) [Val.int 1, Val.int 2]).ret = some recs) ∧
    ((ListGoName usersCtx (storedDB 0 usersRows) [Val.int 1, Val.int 2]).err ≠ none →
      (ListGoName usersCtx (storedDB 0 usersRows) [Val.int 1, Val.int 2]).ret = none) ∧
    ((BulkDeleteGoName usersCtx (storedDB 0 usersRows) [Val.int 1, Val.int 2]).err = none ↔
      (storedDB 0 usersRows).ExecContext (bulkDeleteStmt usersCtx)
          [.array [Val.int 1, Val.int 2]]
        = .ok { RowsAffected := .ok ([Val.int 1, Val.int 2].length : Int) })) :=
  ⟨by decide, exact_count_contract usersCtx (storedDB 0 usersRows) [Val.int 1, Val.int 2]
    (by decide)⟩

/-- C7: `Get` never indexes out of range.  Whenever the `List` call on the
single key returns a nil error, the deferred `Close` included, its slice has
exactly one element; `Get` therefore always returns, and when the query
delivers zero rows it returns a nil record and a non-nil error. -/
theorem Get_index_in_range (ctx : tableGenCtx) (db : DB) (id : Val) :
    ((ListGoName ctx db [id]).err = none →
      ∃ value, (ListGoName ctx db [id]).ret = some [value]) ∧
    (∃ out, GetGoName ctx db id = some out ∧
      (out.err = none → ∃ value, out.ret = some value ∧
        (ListGoName ctx db [id]).ret = some [value])) ∧
    (∀ closeErr, db.QueryContext (listStmt ctx) [.array [id]]
        = .ok { scans := [], closeErr := closeErr } →
      ∃ e, GetGoName ctx db id
        = some { ret := none, err := some e, trace := [(listStmt ctx, [.array [id]])] }) := by
  have hne : [id] ≠ [] := by simp
  have hone : (ListGoName ctx db [id]).err = none →
      ∃ value, (ListGoName ctx db [id]).ret = some [value] := by
    intro h
    obtain ⟨recs, _, hlen, hret⟩ := (ListGoName_success_iff ctx db [id] hne _).1 ⟨h, rfl⟩
    match recs, hlen with
    | [v], _ => exact ⟨v, hret⟩
  refine ⟨hone, ?_, ?_⟩
  · cases herr : (ListGoName ctx db [id]).err with
    | some e =>
      refine ⟨{ ret := none, err := some e, trace := (ListGoName ctx db [id]).trace }, ?_, ?_⟩
      · simp only [GetGoName, herr]
      · intro h
        cases h
    | none =>
      obtain ⟨v, hv⟩ := hone herr
      refine ⟨{ ret := some v, err := none, trace := (ListGoName ctx db [id]).trace }, ?_, ?_⟩
      · simp only [GetGoName, herr, hv]
        rfl
      · intro _
        exact ⟨v, rfl, hv⟩
  · intro closeErr hq
    unfold GetGoName ListGoName
    simp only [List.length_singleton, one_ne_zero, if_false, hq, scanRows, List.length_nil]
    cases closeErr with
    | none => exact ⟨_, rfl⟩
    | some ce => exact ⟨_, rfl⟩

theorem matching_length (pk : Nat) (stored : List Row) (ids : List Val)
    (hstored : (stored.map (rowKey pk)).Nodup)
    (hex : ∀ id ∈ ids, id ∈ stored.map (rowKey pk)) :
    (matching pk stored ids).length = ids.dedup.length := by
  have hsub : ((matching pk stored ids).map (rowKey pk)).Sublist (stored.map (rowKey pk)) :=
    List.Sublist.map _ (List.filter_sublist _)
  have hnd : ((matching pk stored ids).map (rowKey pk)).Nodup := hstored.sublist hsub
  have hperm : ((matching pk stored ids).map (rowKey pk)).Perm ids.dedup := by
    rw [List.perm_ext_iff_of_nodup hnd (List.nodup_dedup ids)]
    intro k
    simp only [matching, List.mem_map, List.mem_filter, decide_eq_true_eq, List.mem_dedup]
    constructor
    · rintro ⟨r, ⟨_, hr⟩, rfl⟩
      exact hr
    · intro hk
      obtain ⟨r, hr, hkr⟩ := List.mem_map.1 (hex k hk)
      exact ⟨r, ⟨hr, by rw [hkr]; exact hk⟩, hkr⟩
  have := hperm.length_eq
  simpa using this

theorem matching_covers (pk : Nat) (stored : List Row) (ids : List Val)
    (hex : ∀ id ∈ ids, id ∈ stored.map (rowKey pk)) :
    ∀ id ∈ ids, ∃ r ∈ matching pk stored ids, rowKey pk r = id := by
  intro id hid
  obtain ⟨r, hr, hkr⟩ := List.mem_map.1 (hex id hid)
  refine ⟨r, ?_, hkr⟩
  simp only [matching, List.mem_filter, decide_eq_true_eq]
  exact ⟨hr, by rw [hkr]; exact hid⟩

theorem dedup_length_lt_of_not_nodup (ids : List Val) (h : ¬ ids.Nodup) :
    ids.dedup.length < ids.length := by
  have hsub : ids.dedup.Sublist ids := List.dedup_sublist ids
  rcases Nat.lt_or_ge ids.dedup.length ids.length with hlt | hge
  · exact hlt
  · exfalso
    have heq : ids.dedup = ids := hsub.eq_of_length_le hge
    apply h
    rw [← heq]
    exact List.nodup_dedup ids

/-- C5, refuted as stated: asked for the key 1 twice, the table holding it, the
database delivers the one matching row and `List` fails. -/
theorem List_rejects_duplicate_keys :
    (∀ id ∈ [Val.int 1, Val.int 1], id ∈ usersRows.map (rowKey 0)) ∧
    ListGoName usersCtx (storedDB 0 usersRows) [Val.int 1, Val.int 1]
      = { ret := none, err := some "ListUser: asked for 2 records, found 1",
          trace := [(listStmt usersCtx, [.array [Val.int 1, Val.int 1]])] } := by
  constructor
  · decide
  · decide

/-- C5, amended: for a non-empty key list all of whose keys are stored, the
database delivering each matching row once, as many rows come back as there are
distinct keys.  If no key is repeated `List` succeeds and returns that many
records, one for every requested key; if a key is repeated it fails with the
count mismatch and returns a nil slice. -/
theorem List_succeeds_on_distinct_keys (ctx : tableGenCtx) (pk : Nat) (stored : List Row)
    (ids : List Val) (hne : ids ≠ [])
    (hstored : (stored.map (rowKey pk)).Nodup)
    (hex : ∀ id ∈ ids, id ∈ stored.map (rowKey pk)) :
    (ids.Nodup →
      (ListGoName ctx (storedDB pk stored) ids).err = none ∧
      ∃ recs, (ListGoName ctx (storedDB pk stored) ids).ret = some recs ∧
        recs.length = ids.dedup.length ∧
        ∀ id ∈ ids, ∃ r ∈ recs, rowKey pk r = id) ∧
    (¬ ids.Nodup →
      (ListGoName ctx (storedDB pk stored) ids).ret = none ∧
      (ListGoName ctx (storedDB pk stored) ids).err
        = some ("List" ++ ctx.GoName ++ ": asked for " ++ toString ids.length
            ++ " records, found " ++ toString ids.dedup.length)) := by
  have hq : (storedDB pk stored).QueryContext (listStmt ctx) [.array ids]
      = .ok { scans := (matching pk stored ids).map Except.ok, closeErr := none } := rfl
  have hlen := matching_length pk stored ids hstored hex
  constructor
  · intro hnd
    have hd : ids.dedup = ids := List.Nodup.dedup hnd
    have := (ListGoName_success_iff ctx (storedDB pk stored) ids hne
      (some (matching pk stored ids))).2 ⟨_, hq, by rw [hlen, hd], rfl⟩
    exact ⟨this.1, matching pk stored ids, this.2, hlen, matching_covers pk stored ids hex⟩
  · intro hnd
    have hlt := dedup_length_lt_of_not_nodup ids hnd
    have hlen0 : ¬ ids.length = 0 := by
      intro h0
      exact hne (List.length_eq_zero.1 h0)
    have hs : scanRows ((matching pk stored ids).map Except.ok) []
        = .ok (matching pk stored ids) :=
      (scanRows_ok_iff _ [] _).2 ⟨_, rfl, by simp⟩
    have hc : (ids.dedup.length != ids.length) = true := by
      simp only [bne_iff_ne, ne_eq]
      omega
    unfold ListGoName
    rw [if_neg hlen0, hq]
    simp only [hs, hlen]
    rw [if_pos hc]
    exact ⟨rfl, rfl⟩

/-- C5, amended, at the table `users` holding the keys 1 and 2, asked for the
keys 2, 1. -/
theorem List_succeeds_on_distinct_keys_witness :
    [Val.int 2, Val.int 1] ≠ [] ∧
    (usersRows.map (rowKey 0)).Nodup ∧
    (∀ id ∈ [Val.int 2, Val.int 1], id ∈ usersRows.map (rowKey 0)) ∧
    (([Val.int 2, Val.int 1] : List Val).Nodup →
      (ListGoName usersCtx (storedDB 0 usersRows) [Val.int 2, Val.int 1]).err = none ∧
      ∃ recs, (ListGoName usersCtx (storedDB 0 usersRows) [Val.int 2, Val.int 1]).ret
          = some recs ∧
        recs.length = ([Val.int 2, Val.int 1] : List Val).dedup.length ∧
        ∀ id ∈ [Val.int 2, Val.int 1], ∃ r ∈ recs, rowKey 0 r = id) ∧
    (¬ ([Val.int 2, Val.int 1] : List Val).Nodup →
      (ListGoName usersCtx (storedDB 0 usersRows) [Val.int 2, Val.int 1]).ret = none ∧
      (ListGoName usersCtx (storedDB 0 usersRows) [Val.int 2, Val.int 1]).err
        = some ("List" ++ usersCtx.GoName ++ ": asked for "
            ++ toString ([Val.int 2, Val.int 1] : List Val).length
            ++ " records, found "
            ++ toString ([Val.int 2, Val.int 1] : List Val).dedup.length)) :=
  ⟨by decide, by decide, by decide,
    List_succeeds_on_distinct_keys usersCtx 0 usersRows [Val.int 2, Val.int 1]
      (by decide) (by decide) (by decide)⟩

/-! ## Theorems: `Update` and `BulkUpsert` -/

/-- C8: when the primary-key bit of the field mask is unset, whatever the other
bits, the record, the clock and the database are, `Update` returns the error
`primary key required for updates to '<table>'` with the record as it was (no
updated-at stamp) and no statement sent. -/
theorem Update_requires_primary_key (ctx : tableGenCtx)
    (genUpdateStmt : String → String → List String → FieldSet → String → String)
    (db : DB) (now : Time) (value : Row) (fieldMask : FieldSet)
    (h : fieldMask.Test (ctx.fieldIndex ctx.pkeyGoName) = false) :
    UpdateGoName ctx genUpdateStmt db now value fieldMask
      = { ret := none,
          err := some ("primary key required for updates to '" ++ ctx.PgName ++ "'"),
          value := value, trace := [] } := by
  unfold UpdateGoName
  simp [h]

/-- C8 at the table `notes`, every bit set but the primary key's. -/
theorem Update_requires_primary_key_witness :
    (FieldSet.mk [false, true, true]).Test (notesCtx.fieldIndex notesCtx.pkeyGoName) = false ∧
    UpdateGoName notesCtx (fun _ _ _ _ _ => "UPDATE ...") refusingDB
        { instant := 5, location := "CET" } [Val.int 1, Val.str "x", Val.null]
        (FieldSet.mk [false, true, true])
      = { ret := none,
          err := some ("primary key required for updates to '" ++ notesCtx.PgName ++ "'"),
          value := [Val.int 1, Val.str "x", Val.null], trace := [] } :=
  ⟨by decide, Update_requires_primary_key notesCtx (fun _ _ _ _ _ => "UPDATE ...") refusingDB
    { instant := 5, location := "CET" } [Val.int 1, Val.str "x", Val.null]
    (FieldSet.mk [false, true, true]) (by decide)⟩

theorem queryIds_trace (db : DB) (stmt : String) (args : List SqlArg) (values : List Row) :
    (queryIds db stmt args values).trace = [(stmt, args)] := by
  unfold queryIds
  cases db.QueryContext stmt args with
  | error e => rfl
  | ok rows =>
    simp only []
    cases scanIds rows.scans [] <;> rfl

theorem BulkUpsertGoName_trace (ctx : tableGenCtx)
    (genInsertCommon : String → List String → Nat → String → Bool → String)
    (db : DB) (now : Time) (values : List Row) (constraintNames : List String)
    (fieldMask : FieldSet) (hne : values ≠ []) :
    ∃ args, (BulkUpsertGoName ctx genInsertCommon db now values constraintNames fieldMask).trace
      = [(upsertStmt ctx genInsertCommon values.length
            (if constraintNames.length = 0 then [ctx.pkeyPgName] else constraintNames)
            (upsertMask ctx fieldMask), args)] := by
  have hlen : ¬ values.length = 0 := by
    intro h0
    exact hne (List.length_eq_zero.1 h0)
  have hl : (upsertStampUpdatedAt ctx now (stampCreatedAt ctx now values)).length
      = values.length := by
    unfold upsertStampUpdatedAt stampCreatedAt
    split <;> split <;> simp
  unfold BulkUpsertGoName
  rw [if_neg hlen]
  simp only [queryIds_trace, hl]
  exact ⟨_, rfl⟩

theorem FieldSet_Test_of_count_zero (m : FieldSet) (h : m.CountSetBits = 0) (i : Nat) :
    m.Test i = false := by
  unfold FieldSet.Test
  unfold FieldSet.CountSetBits at h
  have hnot : true ∉ m.bits := List.count_eq_zero.1 h
  rw [List.getD_eq_getElem?_getD]
  cases hi : m.bits[i]? with
  | none => rfl
  | some b =>
    cases b with
    | false => rfl
    | true =>
      exfalso
      exact hnot (List.getElem?_mem hi)

theorem FieldSet_Set_count_pos (m : FieldSet) (i : Nat) : 0 < (m.Set i true).CountSetBits := by
  unfold FieldSet.CountSetBits FieldSet.Set
  apply List.count_pos_iff.2
  split
  · rename_i h
    have : (m.bits.set i true)[i]? = some true := by
      simp [List.getElem?_set, h]
    exact List.getElem?_mem this
  · simp

/-- C9, refuted as stated: on the table `notes`, which declares an updated-at
field, `BulkUpsert` with a mask that has no bit set builds a `DO UPDATE SET`
clause on the updated-at column. -/
theorem upsert_zero_mask_updates_timestamp :
    notesCtx.HasUpdatedAtField = true ∧
    (FieldSet.mk [false, false, false]).CountSetBits = 0 ∧
    (BulkUpsertGoName notesCtx exampleInsertCommon refusingDB { instant := 5, location := "CET" }
        [[Val.int 1, Val.str "x", Val.null]] [] (FieldSet.mk [false, false, false])).trace
      = [("INSERT INTO \"notes\" VALUES ... ON CONFLICT (id) DO UPDATE SET updated_at = excluded.updated_at RETURNING \"id\"",
          [.scalar (Val.str "x"), .scalar (Val.time { instant := 5, location := "CET" })])] := by
  refine ⟨rfl, by decide, by decide⟩

/-- C9, amended: for a non-empty record list and a mask that has no bit set,
`BulkUpsert` on a table without an updated-at field builds the conflict clause
`ON CONFLICT DO NOTHING` and no `DO UPDATE SET`; on a table that declares an
updated-at field the bit of that field is set first and the clause is
`ON CONFLICT (...) DO UPDATE SET ...`. -/
theorem upsert_zero_mask (ctx : tableGenCtx)
    (genInsertCommon : String → List String → Nat → String → Bool → String)
    (db : DB) (now : Time) (values : List Row) (constraintNames : List String)
    (fieldMask : FieldSet) (hne : values ≠ []) (hzero : fieldMask.CountSetBits = 0) :
    (ctx.HasUpdatedAtField = false →
      ∃ args, (BulkUpsertGoName ctx genInsertCommon db now values constraintNames
          fieldMask).trace
        = [(genInsertCommon ctx.PgName ctx.fieldsFor values.length ctx.pkeyPgName false
              ++ "ON CONFLICT DO NOTHING" ++ " RETURNING \"" ++ ctx.pkeyPgName ++ "\"",
            args)]) ∧
    (ctx.HasUpdatedAtField = true →
      ∃ head setList args,
        (BulkUpsertGoName ctx genInsertCommon db now values constraintNames fieldMask).trace
        = [(head ++ ("ON CONFLICT ("
              ++ ",".intercalate
                  (if constraintNames.length = 0 then [ctx.pkeyPgName] else constraintNames)
              ++ ") DO UPDATE SET " ++ setList)
              ++ " RETURNING \"" ++ ctx.pkeyPgName ++ "\"", args)]) := by
  obtain ⟨args, htrace⟩ :=
    BulkUpsertGoName_trace ctx genInsertCommon db now values constraintNames fieldMask hne
  constructor
  · intro hno
    refine ⟨args, ?_⟩
    rw [htrace]
    have hm : upsertMask ctx fieldMask = fieldMask := by
      unfold upsertMask
      simp [hno]
    have hc : conflictClause ctx
        (if constraintNames.length = 0 then [ctx.pkeyPgName] else constraintNames) fieldMask
        = "ON CONFLICT DO NOTHING" := by
      unfold conflictClause
      simp [hzero]
    unfold upsertStmt
    rw [hm, hc, FieldSet_Test_of_count_zero fieldMask hzero]
  · intro hyes
    have hm : upsertMask ctx fieldMask
        = fieldMask.Set (ctx.fieldIndex ctx.UpdatedAtField) true := by
      unfold upsertMask
      simp [hyes]
    have hpos := FieldSet_Set_count_pos fieldMask (ctx.fieldIndex ctx.UpdatedAtField)
    refine ⟨genInsertCommon ctx.PgName ctx.fieldsFor values.length ctx.pkeyPgName
        ((upsertMask ctx fieldMask).Test (ctx.fieldIndex ctx.pkeyGoName)),
      parenIfMany (updateCols ctx (upsertMask ctx fieldMask)).length
          (",".intercalate (updateCols ctx (upsertMask ctx fieldMask)))
        ++ " = "
        ++ parenIfMany (updateCols ctx (upsertMask ctx fieldMask)).length
          (",".intercalate (updateExprs ctx (upsertMask ctx fieldMask))), args, ?_⟩
    rw [htrace]
    unfold upsertStmt conflictClause
    rw [hm, if_pos hpos]
    simp only [String.append_assoc]

/-- C9, amended, at the table `users`, which has no updated-at field. -/
theorem upsert_zero_mask_witness :
    ([[Val.int 1, Val.str "x"]] : List Row) ≠ [] ∧
    (FieldSet.mk [false, false]).CountSetBits = 0 ∧
    usersCtx.HasUpdatedAtField = false ∧
    ((usersCtx.HasUpdatedAtField = false →
      ∃ args, (BulkUpsertGoName usersCtx exampleInsertCommon refusingDB
          { instant := 5, location := "CET" } [[Val.int 1, Val.str "x"]] []
          (FieldSet.mk [false, false])).trace
        = [(exampleInsertCommon usersCtx.PgName usersCtx.fieldsFor
                ([[Val.int 1, Val.str "x"]] : List Row).length usersCtx.pkeyPgName false
              ++ "ON CONFLICT DO NOTHING" ++ " RETURNING \"" ++ usersCtx.pkeyPgName ++ "\"",
            args)]) ∧
    (usersCtx.HasUpdatedAtField = true →
      ∃ head setList args,
        (BulkUpsertGoName usersCtx exampleInsertCommon refusingDB
          { instant := 5, location := "CET" } [[Val.int 1, Val.str "x"]] []
          (FieldSet.mk [false, false])).trace
        = [(head ++ ("ON CONFLICT ("
              ++ ",".intercalate
                  (if ([] : List String).length = 0 then [usersCtx.pkeyPgName] else [])
              ++ ") DO UPDATE SET " ++ setList)
              ++ " RETURNING \"" ++ usersCtx.pkeyPgName ++ "\"", args)])) :=
  ⟨by decide, by decide, by decide,
    upsert_zero_mask usersCtx exampleInsertCommon refusingDB { instant := 5, location := "CET" }
      [[Val.int 1, Val.str "x"]] [] (FieldSet.mk [false, false]) (by decide) (by decide)⟩

theorem findIdx_goName_of_nodup : ∀ (cols : List colMeta) (i : Nat) (h : i < cols.length),
    (cols.map (fun c => c.GoName)).Nodup →
    cols.findIdx (fun c => c.GoName == (cols.get ⟨i, h⟩).GoName) = i := by
  intro cols
  induction cols with
  | nil =>
    intro i h
    simp at h
  | cons hd tl ih =>
    intro i h hnd
    cases i with
    | zero => simp [List.findIdx_cons]
    | succ j =>
      have hj : j < tl.length := by simpa using h
      have hnd' : (tl.map (fun c => c.GoName)).Nodup := (List.nodup_cons.1 hnd).2
      have hnot : hd.GoName ∉ tl.map (fun c => c.GoName) := (List.nodup_cons.1 hnd).1
      have hne : (hd.GoName == (tl.get ⟨j, hj⟩).GoName) = false := by
        simp only [beq_eq_false_iff_ne, ne_eq]
        intro heq
        apply hnot
        rw [heq]
        exact List.mem_map_of_mem _ (List.get_mem tl j hj)
      have := ih j hj hnd'
      simp only [List.get_eq_getElem, List.getElem_cons_succ] at hne this ⊢
      rw [List.findIdx_cons, hne]
      simp [this]

theorem filterMap_by_fieldIndex {β : Type} (ctx : tableGenCtx) (m : FieldSet) (g : colMeta → β)
    (hnames : (ctx.Cols.map (fun c => c.GoName)).Nodup)
    (hwidth : m.bits.length = ctx.Cols.length) :
    ctx.Cols.filterMap (fun c => if m.Test (ctx.fieldIndex c.GoName) then some (g c) else none)
      = (maskedColumns ctx.Cols m.bits).map g := by
  unfold maskedColumns
  rw [List.map_filterMap]
  have hfst : ctx.Cols = (ctx.Cols.zip m.bits).map Prod.fst := by
    rw [List.map_fst_zip]
    omega
  conv_lhs => rw [hfst]
  rw [List.filterMap_map]
  apply List.filterMap_congr
  intro p hp
  obtain ⟨i, hi, hget⟩ := List.mem_iff_getElem.1 hp
  have hi1 : i < ctx.Cols.length := by
    have := hi
    simp only [List.length_zip] at this
    omega
  have hi2 : i < m.bits.length := by omega
  have hp' : p = (ctx.Cols[i], m.bits[i]) := by
    rw [← hget]
    simp
  subst hp'
  have hidx : ctx.fieldIndex ctx.Cols[i].GoName = i := by
    have := findIdx_goName_of_nodup ctx.Cols i hi1 hnames
    simpa [tableGenCtx.fieldIndex] using this
  simp only [Function.comp, hidx, FieldSet.Test]
  have hb : m.bits.getD i false = m.bits[i] := by
    simp [List.getD_eq_getElem?_getD, List.getElem?_eq_getElem hi2]
  rw [hb]
  cases m.bits[i] <;> simp

theorem maskedColumns_ne_nil (cols : List colMeta) (bits : List Bool)
    (hwidth : bits.length = cols.length) (hbit : 0 < bits.count true) :
    maskedColumns cols bits ≠ [] := by
  have hmem : true ∈ bits := List.count_pos_iff.1 hbit
  obtain ⟨i, hi, hget⟩ := List.mem_iff_getElem.1 hmem
  have hi1 : i < cols.length := by omega
  intro hnil
  have hin : cols[i] ∈ maskedColumns cols bits := by
    unfold maskedColumns
    rw [List.mem_filterMap]
    refine ⟨(cols[i], bits[i]), ?_, by simp [hget]⟩
    rw [List.mem_iff_getElem]
    exact ⟨i, by simp [List.length_zip]; omega, by simp⟩
  rw [hnil] at hin
  cases hin

theorem FieldSet_Set_length (m : FieldSet) (i : Nat) (v : Bool) (h : i < m.bits.length) :
    (m.Set i v).bits.length = m.bits.length := by
  unfold FieldSet.Set
  simp [h]

theorem FieldSet_Set_count_le (m : FieldSet) (i : Nat) :
    m.CountSetBits ≤ (m.Set i true).CountSetBits := by
  unfold FieldSet.CountSetBits FieldSet.Set
  split
  · rename_i h
    rw [List.count_set true true m.bits i h]
    simp only [beq_self_eq_true, if_true]
    split <;> omega
  · simp

/-- C10, refuted as stated: on the table `users(id, name)` the mask with both
bits set, of width the column count, puts the primary-key column `id` in the
`DO UPDATE SET` column list. -/
theorem upsert_set_clause_names_primary_key :
    usersCtx.pkeyPgName = "id" ∧
    (FieldSet.mk [true, true]).bits.length = usersCtx.Cols.length ∧
    0 < (FieldSet.mk [true, true]).CountSetBits ∧
    updateCols usersCtx (upsertMask usersCtx (FieldSet.mk [true, true])) = ["id", "name"] ∧
    (BulkUpsertGoName usersCtx exampleInsertCommon refusingDB { instant := 5, location := "CET" }
        [[Val.int 1, Val.str "x"]] [] (FieldSet.mk [true, true])).trace
      = [("INSERT INTO \"users\" VALUES ... ON CONFLICT (id) DO UPDATE SET (id,name) = (excluded.id,excluded.name) RETURNING \"id\"",
          [.scalar (Val.int 1), .scalar (Val.str "x")])] := by
  refine ⟨by decide, by decide, by decide, by decide, by decide⟩

theorem upsertMask_facts (ctx : tableGenCtx) (fieldMask : FieldSet)
    (hwidth : fieldMask.bits.length = ctx.Cols.length)
    (hupd : ctx.HasUpdatedAtField = true → ctx.fieldIndex ctx.UpdatedAtField < ctx.Cols.length)
    (hbit : 0 < fieldMask.CountSetBits) :
    (upsertMask ctx fieldMask).bits.length = ctx.Cols.length ∧
    0 < (upsertMask ctx fieldMask).CountSetBits := by
  unfold upsertMask
  by_cases h : ctx.HasUpdatedAtField = true
  · rw [if_pos h]
    refine ⟨?_, FieldSet_Set_count_pos _ _⟩
    rw [FieldSet_Set_length _ _ _ (by rw [hwidth]; exact hupd h), hwidth]
  · rw [if_neg h]
    exact ⟨hwidth, hbit⟩

/-- C10, amended: for a non-empty record list and a field mask with at least
one bit set, of width the column count, the `DO UPDATE SET` clause built by
`BulkUpsert` names exactly the columns whose bit is set once the updated-at bit
has been set for a table with an updated-at field, the primary-key column among
them when its bit is set, in generation-time column order, each assigned from
`excluded.<column>`; the column list is never empty, and both sides are
parenthesised iff there is more than one column. -/
theorem upsert_set_clause (ctx : tableGenCtx)
    (genInsertCommon : String → List String → Nat → String → Bool → String)
    (db : DB) (now : Time) (values : List Row) (constraintNames : List String)
    (fieldMask : FieldSet) (hne : values ≠ [])
    (hnames : (ctx.Cols.map (fun c => c.GoName)).Nodup)
    (hwidth : fieldMask.bits.length = ctx.Cols.length)
    (hupd : ctx.HasUpdatedAtField = true → ctx.fieldIndex ctx.UpdatedAtField < ctx.Cols.length)
    (hbit : 0 < fieldMask.CountSetBits) :
    upsertColumns ctx fieldMask ≠ [] ∧
    ∃ head setList args,
      (BulkUpsertGoName ctx genInsertCommon db now values constraintNames fieldMask).trace
        = [(head ++ ("ON CONFLICT ("
              ++ ",".intercalate
                  (if constraintNames.length = 0 then [ctx.pkeyPgName] else constraintNames)
              ++ ") DO UPDATE SET " ++ setList)
              ++ " RETURNING \"" ++ ctx.pkeyPgName ++ "\"", args)] ∧
      (1 < (upsertColumns ctx fieldMask).length →
        setList = "(" ++ ",".intercalate ((upsertColumns ctx fieldMask).map (fun c => c.PgName))
          ++ ")" ++ " = " ++ "("
          ++ ",".intercalate ((upsertColumns ctx fieldMask).map (fun c => "excluded." ++ c.PgName))
          ++ ")") ∧
      ((upsertColumns ctx fieldMask).length ≤ 1 →
        setList = ",".intercalate ((upsertColumns ctx fieldMask).map (fun c => c.PgName))
          ++ " = "
          ++ ",".intercalate
              ((upsertColumns ctx fieldMask).map (fun c => "excluded." ++ c.PgName))) := by
  obtain ⟨hw, hpos⟩ := upsertMask_facts ctx fieldMask hwidth hupd hbit
  have hcols : updateCols ctx (upsertMask ctx fieldMask)
      = (upsertColumns ctx fieldMask).map (fun c => c.PgName) :=
    filterMap_by_fieldIndex ctx (upsertMask ctx fieldMask) (fun c => c.PgName) hnames hw
  have hexprs : updateExprs ctx (upsertMask ctx fieldMask)
      = (upsertColumns ctx fieldMask).map (fun c => "excluded." ++ c.PgName) :=
    filterMap_by_fieldIndex ctx (upsertMask ctx fieldMask) (fun c => "excluded." ++ c.PgName)
      hnames hw
  obtain ⟨args, htrace⟩ :=
    BulkUpsertGoName_trace ctx genInsertCommon db now values constraintNames fieldMask hne
  refine ⟨maskedColumns_ne_nil ctx.Cols _ hw hpos, ?_⟩
  refine ⟨genInsertCommon ctx.PgName ctx.fieldsFor values.length ctx.pkeyPgName
      ((upsertMask ctx fieldMask).Test (ctx.fieldIndex ctx.pkeyGoName)),
    parenIfMany (upsertColumns ctx fieldMask).length
        (",".intercalate ((upsertColumns ctx fieldMask).map (fun c => c.PgName)))
      ++ " = "
      ++ parenIfMany (upsertColumns ctx fieldMask).length
        (",".intercalate ((upsertColumns ctx fieldMask).map (fun c => "excluded." ++ c.PgName))),
    args, ?_, ?_, ?_⟩
  · rw [htrace]
    unfold upsertStmt conflictClause
    rw [if_pos hpos, hcols, hexprs]
    simp only [String.append_assoc, List.length_map]
  · intro hmany
    unfold parenIfMany
    simp only [gt_iff_lt, hmany, if_true, String.append_assoc]
  · intro hfew
    have hnot : ¬ (upsertColumns ctx fieldMask).length > 1 := by omega
    unfold parenIfMany
    simp only [hnot, if_false]
    simp

/-- C10, amended, at the table `notes(id, body, updated_at)` with the mask of
`id` alone: the clause names `id` and `updated_at`. -/
theorem upsert_set_clause_witness :
    ([[Val.int 1, Val.str "x", Val.null]] : List Row) ≠ [] ∧
    (notesCtx.Cols.map (fun c => c.GoName)).Nodup ∧
    (FieldSet.mk [true, false, false]).bits.length = notesCtx.Cols.length ∧
    (notesCtx.HasUpdatedAtField = true →
      notesCtx.fieldIndex notesCtx.UpdatedAtField < notesCtx.Cols.length) ∧
    0 < (FieldSet.mk [true, false, false]).CountSetBits ∧
    (upsertColumns notesCtx (FieldSet.mk [true, false, false])).map (fun c => c.PgName)
      = ["id", "updated_at"] ∧
    (upsertColumns notesCtx (FieldSet.mk [true, false, false]) ≠ [] ∧
    ∃ head setList args,
      (BulkUpsertGoName notesCtx exampleInsertCommon refusingDB
          { instant := 5, location := "CET" } [[Val.int 1, Val.str "x", Val.null]] []
          (FieldSet.mk [true, false, false])).trace
        = [(head ++ ("ON CONFLICT ("
              ++ ",".intercalate
                  (if ([] : List String).length = 0 then [notesCtx.pkeyPgName] else [])
              ++ ") DO UPDATE SET " ++ setList)
              ++ " RETURNING \"" ++ notesCtx.pkeyPgName ++ "\"", args)] ∧
      (1 < (upsertColumns notesCtx (FieldSet.mk [true, false, false])).length →
        setList = "("
          ++ ",".intercalate
              ((upsertColumns notesCtx (FieldSet.mk [true, false, false])).map
                (fun c => c.PgName))
          ++ ")" ++ " = " ++ "("
          ++ ",".intercalate
              ((upsertColumns notesCtx (FieldSet.mk [true, false, false])).map
                (fun c => "excluded." ++ c.PgName))
          ++ ")") ∧
      ((upsertColumns notesCtx (FieldSet.mk [true, false, false])).length ≤ 1 →
        setList = ",".intercalate
              ((upsertColumns notesCtx (FieldSet.mk [true, false, false])).map
                (fun c => c.PgName))
          ++ " = "
          ++ ",".intercalate
              ((upsertColumns notesCtx (FieldSet.mk [true, false, false])).map
                (fun c => "excluded." ++ c.PgName)))) :=
  ⟨by decide, by decide, by decide, by decide, by decide, by decide,
    upsert_set_clause notesCtx exampleInsertCommon refusingDB { instant := 5, location := "CET" }
      [[Val.int 1, Val.str "x", Val.null]] [] (FieldSet.mk [true, false, false])
      (by decide) (by decide) (by decide) (by decide) (by decide)⟩

/-! ## Theorems: empty input -/

theorem fillReferences_none_named (prog : List tableGenCtx) (db : DB)
    (recurse : String → List (Option Nat) → IncludeSpec → FillState → Option (Step FillState))
    (recs : List (Option Nat)) (includes : IncludeSpec) (st : FillState) :
    ∀ refs : List refMeta, (∀ ref ∈ refs, includes.Includes.lookup ref.PointsFrom = none) →
      fillReferences prog db recurse recs includes refs st = some (.ret st none) := by
  intro refs
  induction refs with
  | nil =>
    intro _
    rfl
  | cons ref rest ih =>
    intro h
    unfold fillReferences
    rw [h ref (List.mem_cons_self _ _)]
    exact ih (fun r hr => h r (List.mem_cons_of_mem _ hr))

/-- C6, refuted as stated: `BulkFillIncludes` of `customers`, called with no
record and the spec `customers.orders`, sends the query for `orders` with an
empty key array; called with no record and a spec for another table it returns
an error. -/
theorem fill_includes_queries_on_empty_input :
    GoNameBulkFillIncludes shopProg (storedDB 1 []) 2 "customers" [] [] customersWithOrders
      = some (.ret
          { heap := [], loadedRecordTab := [("customers", []), ("orders", [])],
            trace := [("SELECT * FROM \"orders\"\n\t\t WHERE \"customer_id\" = ANY($1)\n\t\t ",
              [.array []])] }
          none) ∧
    GoNameBulkFillIncludes shopProg (storedDB 1 []) 2 "customers" [] [] (.mk "orders" [])
      = some (.ret { heap := [], loadedRecordTab := [], trace := [] }
          (some "expected includes for 'customers', got 'orders'")) := by
  constructor <;> decide

theorem privateGoNameFill_trace (prog : List tableGenCtx) (db : DB) (ref : refMeta)
    (st st' : FillState) (err : Option String)
    (h : privateGoNameFill prog db ref st = .ret st' err) :
    ∃ tail, st'.trace = st.trace ++ tail := by
  unfold privateGoNameFill at h
  split at h
  · cases h
    exact ⟨[], by simp⟩
  · split at h
    · simp only at h
      split at h
      · cases h
        exact ⟨_, rfl⟩
      · split at h
        · cases h
        · cases h
          exact ⟨_, rfl⟩
    · cases h

theorem privateGoNameFill_empty_parents (prog : List tableGenCtx) (db : DB) (ref : refMeta)
    (st st' : FillState) (err : Option String)
    (hloaded : st.loadedRecordTab.lookup ref.PointsTo = some [])
    (h : privateGoNameFill prog db ref st = .ret st' err) :
    st'.trace = st.trace ++ [(fillStmt ref, [.array []])] := by
  unfold privateGoNameFill at h
  rw [hloaded] at h
  simp only at h
  split at h
  · simp only [List.map_nil] at h
    split at h
    · cases h
      rfl
    · split at h
      · cases h
      · cases h
        rfl
  · cases h

theorem fillReferences_trace (prog : List tableGenCtx) (db : DB)
    (recurse : String → List (Option Nat) → IncludeSpec → FillState → Option (Step FillState))
    (recs : List (Option Nat)) (includes : IncludeSpec)
    (hrec : ∀ (table : String) (subRecs : List (Option Nat)) (subSpec : IncludeSpec)
      (s s' : FillState) (e : Option String),
      recurse table subRecs subSpec s = some (.ret s' e) → ∃ tail, s'.trace = s.trace ++ tail) :
    ∀ (refs : List refMeta) (st st' : FillState) (err : Option String),
      fillReferences prog db recurse recs includes refs st = some (.ret st' err) →
      ∃ tail, st'.trace = st.trace ++ tail := by
  intro refs
  induction refs with
  | nil =>
    intro st st' err h
    unfold fillReferences at h
    cases h
    exact ⟨[], by simp⟩
  | cons ref rest ih =>
    intro st st' err h
    unfold fillReferences at h
    cases hlk : includes.Includes.lookup ref.PointsFrom with
    | none =>
      rw [hlk] at h
      exact ih st st' err h
    | some subSpec =>
      rw [hlk] at h
      simp only at h
      cases hp : privateGoNameFill prog db ref st with
      | panic msg =>
        rw [hp] at h
        cases h
      | ret s1 e1 =>
        rw [hp] at h
        obtain ⟨t1, ht1⟩ := privateGoNameFill_trace prog db ref st s1 e1 hp
        cases e1 with
        | some e =>
          cases h
          exact ⟨t1, ht1⟩
        | none =>
          simp only at h
          cases hc : collectSubRecs ref s1.heap recs with
          | none =>
            rw [hc] at h
            cases h
          | some subRecs =>
            rw [hc] at h
            simp only at h
            cases hr : recurse ref.PointsFrom subRecs subSpec s1 with
            | none =>
              rw [hr] at h
              cases h
            | some r =>
              rw [hr] at h
              cases r with
              | panic msg => cases h
              | ret s2 e2 =>
                obtain ⟨t2, ht2⟩ := hrec _ _ _ _ _ _ hr
                cases e2 with
                | some e =>
                  cases h
                  exact ⟨t1 ++ t2, by rw [ht2, ht1, List.append_assoc]⟩
                | none =>
                  obtain ⟨t3, ht3⟩ := ih s2 st' err h
                  exact ⟨t1 ++ t2 ++ t3, by rw [ht3, ht2, ht1]; simp⟩

theorem implGoNameBulkFillIncludes_trace (prog : List tableGenCtx) (db : DB) :
    ∀ (fuel : Nat) (table : String) (recs : List (Option Nat)) (includes : IncludeSpec)
      (st st' : FillState) (err : Option String),
      implGoNameBulkFillIncludes prog db fuel table recs includes st = some (.ret st' err) →
      ∃ tail, st'.trace = st.trace ++ tail := by
  intro fuel
  induction fuel with
  | zero =>
    intro table recs includes st st' err h
    unfold implGoNameBulkFillIncludes at h
    cases h
  | succ fuel ih =>
    intro table recs includes st st' err h
    unfold implGoNameBulkFillIncludes at h
    split at h
    · cases h
    · split at h
      · cases h
        exact ⟨[], by simp⟩
      · simp only at h
        split at h
        · cases h
        · have htr := fillReferences_trace prog db (implGoNameBulkFillIncludes prog db fuel)
            recs includes
            (fun table subRecs subSpec s s' e hr => ih table subRecs subSpec s s' e hr)
            _ _ st' err h
          exact htr

theorem fillReferences_skip (prog : List tableGenCtx) (db : DB)
    (recurse : String → List (Option Nat) → IncludeSpec → FillState → Option (Step FillState))
    (recs : List (Option Nat)) (includes : IncludeSpec) (rest : List refMeta) (st : FillState) :
    ∀ pre : List refMeta, (∀ ref ∈ pre, includes.Includes.lookup ref.PointsFrom = none) →
      fillReferences prog db recurse recs includes (pre ++ rest) st
        = fillReferences prog db recurse recs includes rest st := by
  intro pre
  induction pre with
  | nil =>
    intro _
    rfl
  | cons ref more ih =>
    intro h
    rw [List.cons_append]
    conv_lhs => unfold fillReferences
    rw [h ref (List.mem_cons_self _ _)]
    exact ih (fun r hr => h r (List.mem_cons_of_mem _ hr))

/-- C6, amended: `List`, `BulkInsert`, `BulkUpsert` and `BulkDelete` called with
an empty list return at once an empty result and a nil error and send nothing.
`BulkFillIncludes` called with no record, for a spec that carries the table's
name: when the spec names none of the table's references it registers the
table as loaded and returns a nil error without sending anything; when it names
a reference of the table, then whenever the call returns, with or without an
error, the first statement it has sent is the fill query of the first named
reference, with an empty key array, and when the database refuses that query
the call returns the database's error. -/
theorem empty_input_returns_immediately (ctx : tableGenCtx)
    (genBulkInsertStmt : String → List String → Nat → String → String)
    (genInsertCommon : String → List String → Nat → String → Bool → String)
    (db : DB) (now : Time) (constraintNames : List String) (fieldMask : FieldSet)
    (prog : List tableGenCtx) (heap : List Record) (includes : IncludeSpec) (fuel : Nat)
    (hctx : ctxOf prog ctx.PgName = some ctx)
    (hname : includes.TableName = ctx.PgName) :
    ListGoName ctx db [] = { ret := some [], err := none, trace := [] } ∧
    BulkInsertGoName ctx genBulkInsertStmt db now []
      = { ret := some [], err := none, values := [], trace := [] } ∧
    BulkUpsertGoName ctx genInsertCommon db now [] constraintNames fieldMask
      = { ret := some [], err := none, values := [], trace := [] } ∧
    BulkDeleteGoName ctx db [] = { ret := (), err := none, trace := [] } ∧
    ((∀ ref ∈ ctx.References, includes.Includes.lookup ref.PointsFrom = none) →
      GoNameBulkFillIncludes prog db (fuel + 1) ctx.PgName heap [] includes
        = some (.ret { heap := heap, loadedRecordTab := [(ctx.PgName, [])], trace := [] }
            none)) ∧
    (∀ (pre post : List refMeta) (ref : refMeta) (subSpec : IncludeSpec),
      ctx.References = pre ++ ref :: post →
      (∀ r ∈ pre, includes.Includes.lookup r.PointsFrom = none) →
      includes.Includes.lookup ref.PointsFrom = some subSpec →
      ref.PointsTo = ctx.PgName →
      (∀ (st' : FillState) (err : Option String),
        GoNameBulkFillIncludes prog db (fuel + 1) ctx.PgName heap [] includes
          = some (.ret st' err) →
        ∃ rest, st'.trace = (fillStmt ref, [.array []]) :: rest) ∧
      (∀ (childCtx : tableGenCtx) (e : String), ctxOf prog ref.PointsFrom = some childCtx →
        db.QueryContext (fillStmt ref) [.array []] = .error e →
        GoNameBulkFillIncludes prog db (fuel + 1) ctx.PgName heap [] includes
          = some (.ret { heap := heap, loadedRecordTab := [(ctx.PgName, [])],
                         trace := [(fillStmt ref, [.array []])] } (some e)))) := by
  have hentry : GoNameBulkFillIncludes prog db (fuel + 1) ctx.PgName heap [] includes
      = fillReferences prog db (implGoNameBulkFillIncludes prog db fuel) [] includes
          ctx.References
          { heap := heap, loadedRecordTab := [(ctx.PgName, [])], trace := [] } := by
    unfold GoNameBulkFillIncludes implGoNameBulkFillIncludes
    rw [hctx]
    simp only [hname, bne_self_eq_false, Bool.false_eq_true, if_false, List.lookup_nil,
      loadRecords]
    rfl
  refine ⟨rfl, rfl, rfl, rfl, ?_, ?_⟩
  · intro hnone
    rw [hentry]
    exact fillReferences_none_named prog db _ [] includes _ ctx.References hnone
  · intro pre post ref subSpec hrefs hpre hnamed hto
    have hloaded : (FillState.mk heap [(ctx.PgName, [])] []).loadedRecordTab.lookup
        ref.PointsTo = some [] := by
      rw [hto]
      simp [List.lookup]
    rw [hentry, hrefs, fillReferences_skip prog db _ [] includes (ref :: post) _ pre hpre]
    constructor
    · intro st' err h
      unfold fillReferences at h
      rw [hnamed] at h
      simp only at h
      cases hp : privateGoNameFill prog db ref
          { heap := heap, loadedRecordTab := [(ctx.PgName, [])], trace := [] } with
      | panic msg =>
        rw [hp] at h
        cases h
      | ret s1 e1 =>
        rw [hp] at h
        have ht1 := privateGoNameFill_empty_parents prog db ref _ s1 e1 hloaded hp
        simp only [List.nil_append] at ht1
        cases e1 with
        | some e =>
          cases h
          exact ⟨[], ht1⟩
        | none =>
          simp only at h
          cases hc : collectSubRecs ref s1.heap [] with
          | none =>
            rw [hc] at h
            cases h
          | some subRecs =>
            rw [hc] at h
            simp only at h
            cases hr : implGoNameBulkFillIncludes prog db fuel ref.PointsFrom subRecs subSpec
                s1 with
            | none =>
              rw [hr] at h
              cases h
            | some r =>
              rw [hr] at h
              cases r with
              | panic msg => cases h
              | ret s2 e2 =>
                obtain ⟨t2, ht2⟩ := implGoNameBulkFillIncludes_trace prog db fuel _ _ _ _ _ _ hr
                cases e2 with
                | some e =>
                  cases h
                  exact ⟨t2, by rw [ht2, ht1]; rfl⟩
                | none =>
                  obtain ⟨t3, ht3⟩ := fillReferences_trace prog db
                    (implGoNameBulkFillIncludes prog db fuel) [] includes
                    (fun table subRecs subSpec s s' e hr =>
                      implGoNameBulkFillIncludes_trace prog db fuel table subRecs subSpec s s' e
                        hr)
                    post s2 st' err h
                  exact ⟨t2 ++ t3, by rw [ht3, ht2, ht1]; simp⟩
    · intro childCtx e hchild hrefuse
      unfold fillReferences
      rw [hnamed]
      have hp : privateGoNameFill prog db ref
          { heap := heap, loadedRecordTab := [(ctx.PgName, [])], trace := [] }
          = .ret { heap := heap, loadedRecordTab := [(ctx.PgName, [])],
                   trace := [(fillStmt ref, [.array []])] } (some e) := by
        unfold privateGoNameFill
        rw [hloaded, hto, hctx, hchild]
        simp only [List.map_nil, hrefuse, List.nil_append]
      simp only [hp]

/-- C6, amended, at the table `customers`: with the spec `customers` that names
no related table nothing is sent; with the spec `customers.orders` the query
for `orders` is sent with an empty key array, and its failure is returned. -/
theorem empty_input_returns_immediately_witness :
    ctxOf shopProg customersCtx.PgName = some customersCtx ∧
    customersWithOrders.TableName = customersCtx.PgName ∧
    GoNameBulkFillIncludes shopProg refusingDB (0 + 1) customersCtx.PgName [] []
        (IncludeSpec.mk "customers" [])
      = some (.ret { heap := [], loadedRecordTab := [(customersCtx.PgName, [])], trace := [] }
          none) ∧
    GoNameBulkFillIncludes shopProg (storedDB 1 []) (1 + 1) customersCtx.PgName [] []
        customersWithOrders
      = some (.ret { heap := [], loadedRecordTab := [("customers", []), ("orders", [])],
                     trace := [("SELECT * FROM \"orders\"\n\t\t WHERE \"customer_id\" = ANY($1)\n\t\t ",
                       [.array []])] } none) ∧
    GoNameBulkFillIncludes shopProg refusingDB (1 + 1) customersCtx.PgName [] []
        customersWithOrders
      = some (.ret { heap := [], loadedRecordTab := [("customers", [])],
                     trace := [("SELECT * FROM \"orders\"\n\t\t WHERE \"customer_id\" = ANY($1)\n\t\t ",
                       [.array []])] } (some "connection refused")) ∧
    (ListGoName customersCtx refusingDB [] = { ret := some [], err := none, trace := [] } ∧
    BulkInsertGoName customersCtx (fun _ _ _ _ => "INSERT ...") refusingDB
        { instant := 5, location := "CET" } []
      = { ret := some [], err := none, values := [], trace := [] } ∧
    BulkUpsertGoName customersCtx exampleInsertCommon refusingDB
        { instant := 5, location := "CET" } [] [] (FieldSet.mk [true, true])
      = { ret := some [], err := none, values := [], trace := [] } ∧
    BulkDeleteGoName customersCtx refusingDB [] = { ret := (), err := none, trace := [] } ∧
    ((∀ ref ∈ customersCtx.References,
        customersWithOrders.Includes.lookup ref.PointsFrom = none) →
      GoNameBulkFillIncludes shopProg refusingDB (1 + 1) customersCtx.PgName [] []
          customersWithOrders
        = some (.ret { heap := [], loadedRecordTab := [(customersCtx.PgName, [])], trace := [] }
            none)) ∧
    (∀ (pre post : List refMeta) (ref : refMeta) (subSpec : IncludeSpec),
      customersCtx.References = pre ++ ref :: post →
      (∀ r ∈ pre, customersWithOrders.Includes.lookup r.PointsFrom = none) →
      customersWithOrders.Includes.lookup ref.PointsFrom = some subSpec →
      ref.PointsTo = customersCtx.PgName →
      (∀ (st' : FillState) (err : Option String),
        GoNameBulkFillIncludes shopProg refusingDB (1 + 1) customersCtx.PgName [] []
            customersWithOrders
          = some (.ret st' err) →
        ∃ rest, st'.trace = (fillStmt ref, [.array []]) :: rest) ∧
      (∀ (childCtx : tableGenCtx) (e : String), ctxOf shopProg ref.PointsFrom = some childCtx →
        refusingDB.QueryContext (fillStmt ref) [.array []] = .error e →
        GoNameBulkFillIncludes shopProg refusingDB (1 + 1) customersCtx.PgName [] []
            customersWithOrders
          = some (.ret { heap := [], loadedRecordTab := [(customersCtx.PgName, [])],
                         trace := [(fillStmt ref, [.array []])] } (some e))))) :=
  ⟨by decide, rfl, by decide, by decide, by decide,
    empty_input_returns_immediately customersCtx (fun _ _ _ _ => "INSERT ...")
      exampleInsertCommon refusingDB { instant := 5, location := "CET" } []
      (FieldSet.mk [true, true]) shopProg [] customersWithOrders 1
      (by decide) rfl⟩

/-! ## Theorems: include filling -/

/-- C11: when the `TableName` of the requested spec differs from the table's
name, the include-fill routine returns
`expected includes for '<table>', got '<name>'` and the state it was given: no
statement is sent, `loadedRecordTab` and every record are as before.  This holds
for the inner routine in any state and for the entry point, which starts from
an empty `loadedRecordTab`. -/
theorem fill_rejects_other_table (prog : List tableGenCtx) (db : DB) (fuel : Nat)
    (table : String) (heap : List Record) (recs : List (Option Nat)) (includes : IncludeSpec)
    (st : FillState) (ctx : tableGenCtx)
    (hctx : ctxOf prog table = some ctx)
    (hname : includes.TableName ≠ ctx.PgName) :
    implGoNameBulkFillIncludes prog db (fuel + 1) table recs includes st
      = some (.ret st (some ("expected includes for '" ++ ctx.PgName ++ "', got '"
          ++ includes.TableName ++ "'"))) ∧
    GoNameBulkFillIncludes prog db (fuel + 1) table heap recs includes
      = some (.ret { heap := heap, loadedRecordTab := [], trace := [] }
          (some ("expected includes for '" ++ ctx.PgName ++ "', got '"
            ++ includes.TableName ++ "'"))) := by
  have hne : (includes.TableName != ctx.PgName) = true := by
    simp only [bne_iff_ne, ne_eq]
    exact hname
  constructor
  · unfold implGoNameBulkFillIncludes
    rw [hctx]
    simp only [hne, if_true]
  · unfold GoNameBulkFillIncludes implGoNameBulkFillIncludes
    rw [hctx]
    simp only [hne, if_true]

/-- C11 at the table `customers`, two records, asked with a spec for `orders`. -/
theorem fill_rejects_other_table_witness :
    ctxOf shopProg "customers" = some customersCtx ∧
    (IncludeSpec.mk "orders" []).TableName ≠ customersCtx.PgName ∧
    (implGoNameBulkFillIncludes shopProg refusingDB (0 + 1) "customers" [some 0, some 1]
        (IncludeSpec.mk "orders" [])
        { heap := customersHeap, loadedRecordTab := [("orders", [])], trace := [] }
      = some (.ret { heap := customersHeap, loadedRecordTab := [("orders", [])], trace := [] }
          (some ("expected includes for '" ++ customersCtx.PgName ++ "', got '"
            ++ (IncludeSpec.mk "orders" []).TableName ++ "'"))) ∧
    GoNameBulkFillIncludes shopProg refusingDB (0 + 1) "customers" customersHeap
        [some 0, some 1] (IncludeSpec.mk "orders" [])
      = some (.ret { heap := customersHeap, loadedRecordTab := [], trace := [] }
          (some ("expected includes for '" ++ customersCtx.PgName ++ "', got '"
            ++ (IncludeSpec.mk "orders" []).TableName ++ "'")))) :=
  ⟨by decide, by decide,
    fill_rejects_other_table shopProg refusingDB 0 "customers" customersHeap [some 0, some 1]
      (IncludeSpec.mk "orders" [])
      { heap := customersHeap, loadedRecordTab := [("orders", [])], trace := [] }
      customersCtx (by decide) (by decide)⟩

theorem fillReferences_congr (prog : List tableGenCtx) (db : DB)
    (recurse : String → List (Option Nat) → IncludeSpec → FillState → Option (Step FillState))
    (recs : List (Option Nat)) (includes includes' : IncludeSpec) :
    ∀ (refs : List refMeta) (st : FillState),
      (∀ ref ∈ refs, includes.Includes.lookup ref.PointsFrom
        = includes'.Includes.lookup ref.PointsFrom) →
      fillReferences prog db recurse recs includes refs st
        = fillReferences prog db recurse recs includes' refs st := by
  intro refs
  induction refs with
  | nil =>
    intro st _
    rfl
  | cons ref rest ih =>
    intro st h
    have hrest : ∀ r ∈ rest, includes.Includes.lookup r.PointsFrom
        = includes'.Includes.lookup r.PointsFrom :=
      fun r hr => h r (List.mem_cons_of_mem _ hr)
    unfold fillReferences
    rw [h ref (List.mem_cons_self _ _)]
    cases includes'.Includes.lookup ref.PointsFrom with
    | none => exact ih st hrest
    | some subSpec =>
      simp only []
      cases privateGoNameFill prog db ref st with
      | panic msg => rfl
      | ret st1 err =>
        cases err with
        | some e => rfl
        | none =>
          simp only []
          cases collectSubRecs ref st1.heap recs with
          | none => rfl
          | some subRecs =>
            simp only []
            cases recurse ref.PointsFrom subRecs subSpec st1 with
            | none => rfl
            | some r =>
              cases r with
              | panic msg => rfl
              | ret st2 err2 =>
                cases err2 with
                | some e => rfl
                | none => exact ih st2 hrest

theorem lookup_filter_ne {ν : Type} (key k : String) (hk : k ≠ key) :
    ∀ l : List (String × ν), (l.filter (fun e => e.1 != key)).lookup k = l.lookup k := by
  intro l
  induction l with
  | nil => rfl
  | cons hd tl ih =>
    obtain ⟨k', v'⟩ := hd
    by_cases h1 : k' = key
    · subst h1
      have hf : ((k', v') :: tl).filter (fun e => e.1 != k') = tl.filter (fun e => e.1 != k') := by
        simp [List.filter_cons]
      rw [hf, ih]
      have hne : (k == k') = false := by simp [hk]
      simp [List.lookup_cons, hne]
    · have hf : ((k', v') :: tl).filter (fun e => e.1 != key)
          = (k', v') :: tl.filter (fun e => e.1 != key) := by
        simp [List.filter_cons, h1]
      rw [hf]
      simp only [List.lookup_cons]
      rw [ih]

/-- C12, refuted as stated: `customers`, two records, asked with the spec
`customers.ghost`, `ghost` being no reference of `customers` and the database
refusing every call: the routine returns a nil error and has sent nothing. -/
theorem fill_accepts_unknown_table :
    customersWithGhost.TableName = customersCtx.PgName ∧
    (∀ ref ∈ customersCtx.References, ref.PointsFrom ≠ "ghost") ∧
    GoNameBulkFillIncludes shopProg refusingDB 2 "customers" customersHeap [some 0, some 1]
        customersWithGhost
      = some (.ret
          { heap := customersHeap,
            loadedRecordTab := [("customers", [(Val.int 1, 0), (Val.int 2, 1)])],
            trace := [] }
          none) := by
  refine ⟨by decide, by decide, by decide⟩

/-- C12, amended: a key of the requested spec that names no generated reference
of the table is ignored.  The include-fill routine does for the spec what it
does for the spec without that key: the same result, error included, the same
statements and the same records. -/
theorem fill_ignores_unknown_key (prog : List tableGenCtx) (db : DB) (fuel : Nat)
    (table : String) (recs : List (Option Nat)) (name : String)
    (incs : List (String × IncludeSpec)) (key : String) (st : FillState) (ctx : tableGenCtx)
    (hctx : ctxOf prog table = some ctx)
    (hkey : ∀ ref ∈ ctx.References, ref.PointsFrom ≠ key) :
    implGoNameBulkFillIncludes prog db fuel table recs (.mk name incs) st
      = implGoNameBulkFillIncludes prog db fuel table recs
          (.mk name (incs.filter (fun e => e.1 != key))) st := by
  cases fuel with
  | zero => rfl
  | succ fuel =>
    unfold implGoNameBulkFillIncludes
    rw [hctx]
    simp only [IncludeSpec.TableName]
    split
    · rfl
    · split
      · rfl
      · apply fillReferences_congr
        intro ref hr
        simp only [IncludeSpec.Includes]
        exact (lookup_filter_ne key ref.PointsFrom (hkey ref hr) incs).symm

/-- C12, amended, at `customers` asked with the keys `ghost` and `orders`. -/
theorem fill_ignores_unknown_key_witness :
    ctxOf shopProg "customers" = some customersCtx ∧
    (∀ ref ∈ customersCtx.References, ref.PointsFrom ≠ "ghost") ∧
    implGoNameBulkFillIncludes shopProg (storedDB 1 []) 2 "customers" [some 0, some 1]
        (.mk "customers" [("ghost", .mk "ghost" []), ("orders", .mk "orders" [])])
        { heap := customersHeap, loadedRecordTab := [], trace := [] }
      = implGoNameBulkFillIncludes shopProg (storedDB 1 []) 2 "customers" [some 0, some 1]
          (.mk "customers"
            ([("ghost", IncludeSpec.mk "ghost" []), ("orders", IncludeSpec.mk "orders" [])].filter
              (fun e => e.1 != "ghost")))
          { heap := customersHeap, loadedRecordTab := [], trace := [] } :=
  ⟨by decide, by decide,
    fill_ignores_unknown_key shopProg (storedDB 1 []) 2 "customers" [some 0, some 1]
      "customers" [("ghost", .mk "ghost" []), ("orders", .mk "orders" [])] "ghost"
      { heap := customersHeap, loadedRecordTab := [], trace := [] } customersCtx
      (by decide) (by decide)⟩

/-- C13, the code at the failing input: the table `notes` has an updated-at
column of type timestamp with time zone (`UpdatedAtHasTimezone`) and no
created-at column.  `BulkInsert` stamps the updated-at field with `now.UTC()`,
where `BulkUpsert` and `Update` keep the zone of `now`. -/
theorem BulkInsert_stamps_updated_at_by_created_at_flag :
    notesCtx.HasUpdatedAtField = true ∧ notesCtx.UpdatedAtHasTimezone = true ∧
    notesCtx.CreatedAtHasTimezone = false ∧
    (BulkInsertGoName notesCtx (fun _ _ _ _ => "INSERT ...") refusingDB
        { instant := 5, location := "CET" } [[Val.int 1, Val.str "x", Val.null]]).values
      = [[Val.int 1, Val.str "x", Val.time { instant := 5, location := "UTC" }]] ∧
    (BulkUpsertGoName notesCtx exampleInsertCommon refusingDB
        { instant := 5, location := "CET" } [[Val.int 1, Val.str "x", Val.null]] []
        (FieldSet.mk [true, true, false])).values
      = [[Val.int 1, Val.str "x", Val.time { instant := 5, location := "CET" }]] ∧
    (UpdateGoName notesCtx (fun _ _ _ _ _ => "UPDATE ...") refusingDB
        { instant := 5, location := "CET" } [Val.int 1, Val.str "x", Val.null]
        (FieldSet.mk [true, true, false])).value
      = [Val.int 1, Val.str "x", Val.time { instant := 5, location := "CET" }] := by
  refine ⟨rfl, rfl, rfl, by decide, by decide, by decide⟩

/-! ## Theorems: `genTable` -/

theorem filterReferencesRun_err (tables : Registry) :
    ∀ (n i : Nat) (arr : List refMeta) (kept : Nat), kept ≤ i → i + n = arr.length →
      (∃ j ref, i ≤ j ∧ arr[j]? = some ref ∧ ref.PointsFromFields.length ≠ 1) →
      (filterReferencesRun tables n i arr kept).err
        = some "multi-column foreign keys not supported" := by
  intro n
  induction n with
  | zero =>
    intro i arr kept _ hlen hbad
    obtain ⟨j, ref, hij, hj, _⟩ := hbad
    have : arr[j]? = none := List.getElem?_eq_none (by omega)
    rw [this] at hj
    cases hj
  | succ n ih =>
    intro i arr kept hk hlen hbad
    have hi : i < arr.length := by omega
    unfold filterReferencesRun
    rw [List.getElem?_eq_getElem hi]
    simp only []
    by_cases hone : (arr[i].PointsFromFields.length != 1) = true
    · rw [if_pos hone]
    · rw [if_neg hone]
      obtain ⟨j, ref, hij, hj, hbadref⟩ := hbad
      have hji : j ≠ i := by
        intro heq
        subst heq
        rw [List.getElem?_eq_getElem hi] at hj
        simp only [Option.some.injEq] at hj
        apply hone
        rw [hj]
        simpa using hbadref
      by_cases hkeep : inferenceKept tables arr[i] = true
      · rw [if_pos hkeep]
        apply ih (i + 1) (arr.set kept arr[i]) (kept + 1) (by omega) (by simp; omega)
        refine ⟨j, ref, by omega, ?_, hbadref⟩
        rw [List.getElem?_set_ne (by omega)]
        exact hj
      · rw [if_neg hkeep]
        exact ih (i + 1) arr kept (by omega) (by omega) ⟨j, ref, by omega, hj, hbadref⟩

theorem take_set_self (arr : List refMeta) (k : Nat) (a : refMeta) :
    (arr.set k a).take k = arr.take k := by
  rw [List.set_take]
  apply List.set_eq_of_length_le
  simp

theorem filterReferencesRun_ok (tables : Registry) (orig : List refMeta) :
    ∀ (n i : Nat) (arr : List refMeta) (kept : Nat), kept ≤ i → i + n = orig.length →
      arr.length = orig.length → (∀ j, i ≤ j → arr[j]? = orig[j]?) →
      arr.take kept = (orig.take i).filter (inferenceKept tables) →
      (filterReferencesRun tables n i arr kept).err = none →
      (filterReferencesRun tables n i arr kept).arr.take
          (filterReferencesRun tables n i arr kept).kept
        = orig.filter (inferenceKept tables) := by
  intro n
  induction n with
  | zero =>
    intro i arr kept _ hlen _ _ htake _
    have : orig.take i = orig := List.take_of_length_le (by omega)
    rw [this] at htake
    exact htake
  | succ n ih =>
    intro i arr kept hk hlen hal hsame htake
    have hi : i < arr.length := by omega
    have hio : i < orig.length := by omega
    have href : arr[i] = orig[i] := by
      have := hsame i (le_refl _)
      rw [List.getElem?_eq_getElem hi, List.getElem?_eq_getElem hio] at this
      simpa using this
    have htk : orig.take (i + 1) = orig.take i ++ [orig[i]] := by
      rw [List.take_succ, List.getElem?_eq_getElem hio]
      rfl
    unfold filterReferencesRun
    rw [List.getElem?_eq_getElem hi]
    simp only []
    by_cases hone : (arr[i].PointsFromFields.length != 1) = true
    · rw [if_pos hone]
      intro herr
      cases herr
    · rw [if_neg hone]
      by_cases hkeep : inferenceKept tables arr[i] = true
      · rw [if_pos hkeep]
        apply ih (i + 1) (arr.set kept arr[i]) (kept + 1) (by omega) (by omega) (by simp [hal])
        · intro j hj
          rw [List.getElem?_set_ne (by omega)]
          exact hsame j (by omega)
        · have hkl : kept < (arr.set kept arr[i]).length := by simp; omega
          rw [List.take_succ, take_set_self, List.getElem?_set_self (by omega), htake, htk,
            List.filter_append]
          rw [← href]
          simp [hkeep]
      · rw [if_neg hkeep]
        apply ih (i + 1) arr kept (by omega) (by omega) hal
        · intro j hj
          exact hsame j (by omega)
        · rw [htake, htk, List.filter_append, ← href]
          simp [hkeep]

/-- C15: `genTable` on a registered table returns an error of the form
`while generating table '<name>': ...` whenever the table has no primary-key
column or one of the references pointing at it has a number of referencing
columns other than one, and it then executes no template: no code is emitted
for the table. -/
theorem genTable_rejects (pgToGoName : String → String) (emit : tableGenCtx → Option String)
    (cap : Nat) (tables : Registry) (table : tableConfig) (info : tableGenInfo)
    (hinfo : lookupInfo tables table.Name = some info)
    (hbad : info.meta.PkeyCol = none ∨
      ∃ ref ∈ info.meta.References, ref.PointsFromFields.length ≠ 1) :
    ∃ tables' msg,
      genTable pgToGoName emit cap tables table
        = .ret { emitted := none, tables := tables', importsTime := false }
            (some ("while generating table '" ++ table.Name ++ "': " ++ msg)) ∧
      (msg = "no primary key for table" ∨ msg = "multi-column foreign keys not supported") := by
  unfold genTable
  rw [hinfo]
  simp only [tableGenCtxFromInfo]
  cases hpk : info.meta.PkeyCol with
  | none => exact ⟨tables, _, rfl, Or.inl rfl⟩
  | some pk =>
    simp only []
    rcases hbad with hnone | ⟨ref, hmem, hlen⟩
    · rw [hpk] at hnone
      cases hnone
    · obtain ⟨j, hj, hget⟩ := List.mem_iff_getElem.1 hmem
      have herr := filterReferencesRun_err tables info.meta.References.length 0
        info.meta.References 0 (le_refl _) (by omega)
        ⟨j, ref, by omega, by rw [List.getElem?_eq_getElem hj, hget], hlen⟩
      rw [herr]
      exact ⟨_, _, rfl, Or.inr rfl⟩

/-- C15 at the table `a` referenced by a two-column foreign key. -/
theorem genTable_rejects_witness :
    lookupInfo compositeRegistry (exampleConfig "a").Name
      = some (compositeRegistry.headD (exampleInfo "a" false [])) ∧
    ((compositeRegistry.headD (exampleInfo "a" false [])).meta.PkeyCol = none ∨
      ∃ ref ∈ (compositeRegistry.headD (exampleInfo "a" false [])).meta.References,
        ref.PointsFromFields.length ≠ 1) ∧
    ∃ tables' msg,
      genTable (fun n => n) (fun _ => none) 1 compositeRegistry (exampleConfig "a")
        = .ret { emitted := none, tables := tables', importsTime := false }
            (some ("while generating table '" ++ (exampleConfig "a").Name ++ "': " ++ msg)) ∧
      (msg = "no primary key for table" ∨ msg = "multi-column foreign keys not supported") :=
  ⟨by decide, by decide,
    genTable_rejects (fun n => n) (fun _ => none) 1 compositeRegistry (exampleConfig "a")
      (compositeRegistry.headD (exampleInfo "a" false [])) (by decide) (by decide)⟩

/-- C16: when `genTable` returns a nil error for a registered table, the
reference list the templates were executed with is a list `kept` followed by
the table's explicit belongs-to references in their declared order, where
`kept` is the table's catalog references filtered, in their original order, by
the test that the referencing table is in the registry and has
`NoInferBelongsTo` false: a catalog reference is in `kept` exactly when its
referencing table is registered with inference enabled, so none from an
unconfigured or inference-disabled table is kept. -/
theorem genTable_reference_list (pgToGoName : String → String)
    (emit : tableGenCtx → Option String) (cap : Nat) (tables : Registry) (table : tableConfig)
    (info : tableGenInfo) (st : genTableState)
    (hinfo : lookupInfo tables table.Name = some info)
    (hok : genTable pgToGoName emit cap tables table = .ret st none) :
    ∃ (genCtx : tableGenCtx) (kept : List refMeta), st.emitted = some genCtx ∧
      genCtx.References = kept ++ info.explicitBelongsTo ∧
      kept = info.meta.References.filter (fun ref =>
        (lookupInfo tables ref.PointsFrom).any
          (fun fromTable => !fromTable.config.NoInferBelongsTo)) ∧
      kept.Sublist info.meta.References ∧
      (∀ ref : refMeta, ref ∈ kept ↔
        ref ∈ info.meta.References ∧
          ∃ fromTable : tableGenInfo, lookupInfo tables ref.PointsFrom = some fromTable ∧
            fromTable.config.NoInferBelongsTo = false) ∧
      (∀ ref ∈ kept, lookupInfo tables ref.PointsFrom ≠ none) ∧
      (∀ ref ∈ kept, ∀ fromTable : tableGenInfo,
        lookupInfo tables ref.PointsFrom = some fromTable →
        fromTable.config.NoInferBelongsTo ≠ true) := by
  have hpred : inferenceKept tables = (fun ref =>
      (lookupInfo tables ref.PointsFrom).any
        (fun fromTable => !fromTable.config.NoInferBelongsTo)) := by
    funext ref
    unfold inferenceKept
    cases lookupInfo tables ref.PointsFrom with
    | none => rfl
    | some fromTable => rfl
  have hmem : ∀ ref : refMeta, ref ∈ info.meta.References.filter (inferenceKept tables) ↔
      ref ∈ info.meta.References ∧
        ∃ fromTable : tableGenInfo, lookupInfo tables ref.PointsFrom = some fromTable ∧
          fromTable.config.NoInferBelongsTo = false := by
    intro ref
    rw [List.mem_filter]
    unfold inferenceKept
    cases hl : lookupInfo tables ref.PointsFrom with
    | none => simp
    | some fromTable => simp
  unfold genTable at hok
  rw [hinfo] at hok
  simp only [tableGenCtxFromInfo] at hok
  cases hpk : info.meta.PkeyCol with
  | none =>
    rw [hpk] at hok
    cases hok
  | some pk =>
    rw [hpk] at hok
    simp only [] at hok
    cases herr : (filterReferencesRun tables info.meta.References.length 0
        info.meta.References 0).err with
    | some e =>
      rw [herr] at hok
      cases hok
    | none =>
      rw [herr] at hok
      simp only [Step.ret.injEq] at hok
      have hfilter := filterReferencesRun_ok tables info.meta.References
        info.meta.References.length 0 info.meta.References 0 (le_refl _) (by omega) rfl
        (fun _ _ => rfl) (by simp) herr
      obtain ⟨hst, _⟩ := hok
      rw [← hst]
      refine ⟨_, info.meta.References.filter (inferenceKept tables), rfl, ?_, ?_,
        List.filter_sublist _, hmem, ?_, ?_⟩
      · simp only []
        rw [hfilter]
      · rw [hpred]
      · intro ref href hnone
        obtain ⟨_, fromTable, hl, _⟩ := (hmem ref).1 href
        rw [hl] at hnone
        cases hnone
      · intro ref href fromTable hl htrue
        obtain ⟨_, fromTable', hl', hfalse⟩ := (hmem ref).1 href
        rw [hl] at hl'
        cases hl'
        rw [hfalse] at htrue
        cases htrue

/-- C16 at the table `a` with catalog references from the unconfigured `ghost`,
from `b` and from the inference-disabled `c`, and an explicit belongs-to
declared by `c`: the templates are executed with the reference from `b`
followed by the explicit one. -/
theorem genTable_reference_list_witness :
    lookupInfo inferenceRegistry (exampleConfig "a").Name
      = some (inferenceRegistry.headD (exampleInfo "a" false [])) ∧
    (inferenceRegistry.headD (exampleInfo "a" false [])).meta.References
      = [exampleRef "ghost" "a", exampleRef "b" "a", exampleRef "c" "a"] ∧
    lookupInfo inferenceRegistry "ghost" = none ∧
    (lookupInfo inferenceRegistry "b").map (fun i => i.config.NoInferBelongsTo) = some false ∧
    (lookupInfo inferenceRegistry "c").map (fun i => i.config.NoInferBelongsTo) = some true ∧
    (∃ st, genTable (fun n => n) (fun _ => none) 3 inferenceRegistry (exampleConfig "a")
        = .ret st none ∧
      st.emitted.map (fun genCtx => genCtx.References)
        = some [exampleRef "b" "a", { exampleRef "c" "a" with OneToOne := true }] ∧
      ∃ (genCtx : tableGenCtx) (kept : List refMeta), st.emitted = some genCtx ∧
        genCtx.References
          = kept ++ (inferenceRegistry.headD (exampleInfo "a" false [])).explicitBelongsTo ∧
        kept = (inferenceRegistry.headD (exampleInfo "a" false [])).meta.References.filter
          (fun ref => (lookupInfo inferenceRegistry ref.PointsFrom).any
            (fun fromTable => !fromTable.config.NoInferBelongsTo)) ∧
        kept.Sublist (inferenceRegistry.headD (exampleInfo "a" false [])).meta.References ∧
        (∀ ref : refMeta, ref ∈ kept ↔
          ref ∈ (inferenceRegistry.headD (exampleInfo "a" false [])).meta.References ∧
            ∃ fromTable : tableGenInfo,
              lookupInfo inferenceRegistry ref.PointsFrom = some fromTable ∧
              fromTable.config.NoInferBelongsTo = false) ∧
        (∀ ref ∈ kept, lookupInfo inferenceRegistry ref.PointsFrom ≠ none) ∧
        (∀ ref ∈ kept, ∀ fromTable : tableGenInfo,
          lookupInfo inferenceRegistry ref.PointsFrom = some fromTable →
          fromTable.config.NoInferBelongsTo ≠ true)) :=
  ⟨by decide, by decide, by decide, by decide, by decide,
    ⟨_, rfl, by decide,
      genTable_reference_list (fun n => n) (fun _ => none) 3 inferenceRegistry
        (exampleConfig "a") (inferenceRegistry.headD (exampleInfo "a" false [])) _
        (by decide) rfl⟩⟩

/-- C20, the code at the failing input.  Table `a` has the catalog references
from `ghost` (not configured) and from `b`: after `genTable` has run for `a`,
successfully, `info.meta.References` in the registry holds the reference from
`b` twice.  Table `a` with the one catalog reference from `ghost` and an
explicit belongs-to from `b`, capacity 1: after `genTable` the registry holds
the explicit reference in place of the catalog one. -/
theorem genTable_overwrites_registry_references :
    (lookupInfo aliasRegistry "a").map (fun i => i.meta.References)
      = some [exampleRef "ghost" "a", exampleRef "b" "a"] ∧
    (∃ st, genTable (fun n => n) (fun _ => none) 2 aliasRegistry (exampleConfig "a")
        = .ret st none ∧
      (lookupInfo st.tables "a").map (fun i => i.meta.References)
        = some [exampleRef "b" "a", exampleRef "b" "a"]) ∧
    (lookupInfo explicitRegistry "a").map (fun i => i.meta.References)
      = some [exampleRef "ghost" "a"] ∧
    (∃ st, genTable (fun n => n) (fun _ => none) 1 explicitRegistry (exampleConfig "a")
        = .ret st none ∧
      (lookupInfo st.tables "a").map (fun i => i.meta.References)
        = some [exampleRef "b" "a"]) := by
  refine ⟨by decide, ⟨_, rfl, by decide⟩, by decide, ⟨_, rfl, by decide⟩⟩

/-! ## Theorems: `buildExplicitBelongsToMapping` -/

theorem findKeyColumn_fold (keyField : String) :
    ∀ (cols : List colMeta) (found : Option colMeta),
      (cols.foldl (fun found col => if col.PgName == keyField then some col else found) found
          = found ∧ ∀ col ∈ cols, col.PgName ≠ keyField) ∨
      ∃ col ∈ cols, col.PgName = keyField ∧
        cols.foldl (fun found col => if col.PgName == keyField then some col else found) found
          = some col := by
  intro cols
  induction cols with
  | nil =>
    intro found
    left
    exact ⟨rfl, fun _ h => by cases h⟩
  | cons c cs ih =>
    intro found
    simp only [List.foldl_cons]
    by_cases hc : c.PgName = keyField
    · have hb : (c.PgName == keyField) = true := by simp [hc]
      rw [if_pos hb]
      rcases ih (some c) with ⟨h1, _⟩ | ⟨col, hmem, hname, hres⟩
      · right
        exact ⟨c, List.mem_cons_self _ _, hc, h1⟩
      · right
        exact ⟨col, List.mem_cons_of_mem _ hmem, hname, hres⟩
    · have hb : ¬ (c.PgName == keyField) = true := by simp [hc]
      rw [if_neg hb]
      rcases ih found with ⟨h1, h2⟩ | ⟨col, hmem, hname, hres⟩
      · left
        refine ⟨h1, ?_⟩
        intro col hmem
        rcases List.mem_cons.1 hmem with h | h
        · rw [h]
          exact hc
        · exact h2 col h
      · right
        exact ⟨col, List.mem_cons_of_mem _ hmem, hname, hres⟩

theorem belongsToAttached_refl (infoTab0 : Registry) : belongsToAttached infoTab0 [] infoTab0 := by
  intro T infoT hT
  exact ⟨infoT, [], hT, rfl, by simp, List.Forall₂.nil⟩

theorem attachBelongsTo_attached (infoTab0 infoTab : Registry) (done : List (String × belongsTo))
    (S : String) (entry : belongsTo) (infoS0 : tableGenInfo)
    (hinv : belongsToAttached infoTab0 done infoTab)
    (hT : entry.Table.length ≠ 0) (hk : entry.KeyField.length ≠ 0)
    (hTreg : (lookupInfo infoTab0 entry.Table).isSome = true)
    (hS : lookupInfo infoTab0 S = some infoS0)
    (hcol : ∃ col ∈ infoS0.meta.Cols, col.PgName = entry.KeyField) :
    ∃ infoTab', attachBelongsTo infoTab S entry = .ret infoTab' none ∧
      belongsToAttached infoTab0 (done ++ [(S, entry)]) infoTab' := by
  obtain ⟨infoS', _, hS', heqS, _, _⟩ := hinv S infoS0 hS
  have hmetaS : infoS'.meta = infoS0.meta := by
    have h1 := congrArg (fun z : tableGenInfo => z.meta) heqS
    exact h1
  cases hT0 : lookupInfo infoTab0 entry.Table with
  | none => simp [hT0] at hTreg
  | some infoT0 =>
    obtain ⟨infoT', addedT, hT', heqT, hexpT, hallT⟩ := hinv entry.Table infoT0 hT0
    have hmetaT : infoT'.meta = infoT0.meta := by
      have h1 := congrArg (fun z : tableGenInfo => z.meta) heqT
      exact h1
    obtain ⟨c0, hc0, hname0⟩ := hcol
    rcases findKeyColumn_fold entry.KeyField infoS'.meta.Cols none with
      ⟨_, hno⟩ | ⟨col, hmem, hname, hres⟩
    · rw [hmetaS] at hno
      exact absurd hname0 (hno c0 hc0)
    · refine ⟨modifyInfo (appendExplicit (explicitRef infoS' infoT' col entry.OneToOne))
          entry.Table infoTab, ?_, ?_⟩
      · unfold attachBelongsTo
        rw [if_neg hT, if_neg hk, hS']
        simp only [findKeyColumn, hres, hT']
      · intro T infoT hTl
        by_cases hTe : T = entry.Table
        · subst hTe
          rw [hT0] at hTl
          cases hTl
          refine ⟨appendExplicit (explicitRef infoS' infoT' col entry.OneToOne) infoT',
            addedT ++ [explicitRef infoS' infoT' col entry.OneToOne], ?_, heqT, ?_, ?_⟩
          · rw [lookupInfo_modifyInfo_self
              (appendExplicit (explicitRef infoS' infoT' col entry.OneToOne)) entry.Table
              (fun _ => rfl), hT']
            rfl
          · show infoT'.explicitBelongsTo ++ [explicitRef infoS' infoT' col entry.OneToOne] = _
            rw [hexpT, List.append_assoc]
          · rw [List.filter_append]
            apply List.rel_append hallT
            have hf : ([(S, entry)] : List (String × belongsTo)).filter
                (fun se => se.2.Table == entry.Table) = [(S, entry)] := by
              simp
            rw [hf]
            refine List.Forall₂.cons ?_ List.Forall₂.nil
            refine ⟨infoS0, col, hS, ?_, hname, ?_⟩
            · rw [← hmetaS]
              exact hmem
            · unfold explicitRef
              rw [hmetaS, hmetaT]
        · obtain ⟨infoT'', added, hl, heq, hexp, hall⟩ := hinv T infoT hTl
          refine ⟨infoT'', added, ?_, heq, hexp, ?_⟩
          · rw [lookupInfo_modifyInfo_ne
              (appendExplicit (explicitRef infoS' infoT' col entry.OneToOne)) entry.Table T
              (fun _ => rfl) hTe]
            exact hl
          · rw [List.filter_append]
            have hf : ([(S, entry)] : List (String × belongsTo)).filter
                (fun se => se.2.Table == T) = [] := by
              simp [Ne.symm hTe]
            rw [hf, List.append_nil]
            exact hall

theorem attachAllBelongsTo_attached (infoTab0 : Registry) (S : String) (infoS0 : tableGenInfo)
    (hS : lookupInfo infoTab0 S = some infoS0) :
    ∀ (entries : List belongsTo) (done : List (String × belongsTo)) (infoTab : Registry),
      belongsToAttached infoTab0 done infoTab →
      (∀ entry ∈ entries, entry.Table.length ≠ 0 ∧ entry.KeyField.length ≠ 0 ∧
        (lookupInfo infoTab0 entry.Table).isSome = true ∧
        ∃ col ∈ infoS0.meta.Cols, col.PgName = entry.KeyField) →
      ∃ infoTab', attachAllBelongsTo S entries infoTab = .ret infoTab' none ∧
        belongsToAttached infoTab0 (done ++ entries.map (fun entry => (S, entry))) infoTab' := by
  intro entries
  induction entries with
  | nil =>
    intro done infoTab hinv _
    exact ⟨infoTab, rfl, by simpa using hinv⟩
  | cons entry rest ih =>
    intro done infoTab hinv hvalid
    obtain ⟨hT, hk, hTreg, hcol⟩ := hvalid entry (List.mem_cons_self _ _)
    obtain ⟨infoTab1, hstep, hinv1⟩ :=
      attachBelongsTo_attached infoTab0 infoTab done S entry infoS0 hinv hT hk hTreg hS hcol
    obtain ⟨infoTab', hrest, hinv'⟩ := ih (done ++ [(S, entry)]) infoTab1 hinv1
      (fun e he => hvalid e (List.mem_cons_of_mem _ he))
    refine ⟨infoTab', ?_, ?_⟩
    · unfold attachAllBelongsTo
      rw [hstep]
      exact hrest
    · have hl : done ++ List.map (fun entry => (S, entry)) (entry :: rest)
          = done ++ [(S, entry)] ++ List.map (fun entry => (S, entry)) rest := by
        simp
      rw [hl]
      exact hinv'

theorem buildExplicitBelongsToMapping_attached (infoTab0 : Registry) :
    ∀ (tables : List tableConfig) (done : List (String × belongsTo)) (infoTab : Registry),
      belongsToAttached infoTab0 done infoTab →
      (∀ table ∈ tables, ∀ entry ∈ table.BelongsTo,
        entry.Table.length ≠ 0 ∧ entry.KeyField.length ≠ 0 ∧
        (lookupInfo infoTab0 entry.Table).isSome = true ∧
        ∃ infoS, lookupInfo infoTab0 table.Name = some infoS ∧
          ∃ col ∈ infoS.meta.Cols, col.PgName = entry.KeyField) →
      ∃ infoTab', buildExplicitBelongsToMapping tables infoTab = .ret infoTab' none ∧
        belongsToAttached infoTab0
          (done ++ tables.flatMap
            (fun table => table.BelongsTo.map (fun entry => (table.Name, entry)))) infoTab' := by
  intro tables
  induction tables with
  | nil =>
    intro done infoTab hinv _
    exact ⟨infoTab, rfl, by simpa using hinv⟩
  | cons table rest ih =>
    intro done infoTab hinv hvalid
    have hrestv := fun t (ht : t ∈ rest) => hvalid t (List.mem_cons_of_mem _ ht)
    cases hb : table.BelongsTo with
    | nil =>
      obtain ⟨infoTab', hres, hinv'⟩ := ih done infoTab hinv hrestv
      refine ⟨infoTab', ?_, ?_⟩
      · unfold buildExplicitBelongsToMapping
        rw [hb]
        exact hres
      · rw [List.flatMap_cons, hb]
        exact hinv'
    | cons e0 es =>
      obtain ⟨_, _, _, infoS0, hS, _⟩ := hvalid table (List.mem_cons_self _ _) e0
        (by rw [hb]; exact List.mem_cons_self _ _)
      obtain ⟨infoTab1, hstep, hinv1⟩ :=
        attachAllBelongsTo_attached infoTab0 table.Name infoS0 hS table.BelongsTo done infoTab
          hinv
          (by
            intro entry he
            obtain ⟨h1, h2, h3, infoS, hS2, hcol⟩ :=
              hvalid table (List.mem_cons_self _ _) entry he
            rw [hS] at hS2
            cases hS2
            exact ⟨h1, h2, h3, hcol⟩)
      obtain ⟨infoTab', hres, hinv'⟩ := ih _ infoTab1 hinv1 hrestv
      refine ⟨infoTab', ?_, ?_⟩
      · unfold buildExplicitBelongsToMapping
        rw [hstep]
        exact hres
      · rw [List.flatMap_cons, ← List.append_assoc]
        exact hinv'

theorem attachAllBelongsTo_missing_column (infoTab0 : Registry) (S : String)
    (infoS0 : tableGenInfo) (hS : lookupInfo infoTab0 S = some infoS0)
    (entry : belongsTo) (epost : List belongsTo)
    (hT : entry.Table.length ≠ 0) (hk : entry.KeyField.length ≠ 0)
    (hno : ∀ col ∈ infoS0.meta.Cols, col.PgName ≠ entry.KeyField) :
    ∀ (epre : List belongsTo) (done : List (String × belongsTo)) (infoTab : Registry),
      belongsToAttached infoTab0 done infoTab →
      (∀ e ∈ epre, e.Table.length ≠ 0 ∧ e.KeyField.length ≠ 0 ∧
        (lookupInfo infoTab0 e.Table).isSome = true ∧
        ∃ col ∈ infoS0.meta.Cols, col.PgName = e.KeyField) →
      ∃ infoTab', attachAllBelongsTo S (epre ++ entry :: epost) infoTab
        = .ret infoTab'
            (some ("table '" ++ S ++ "' has no field '" ++ entry.KeyField ++ "'")) := by
  intro epre
  induction epre with
  | nil =>
    intro done infoTab hinv _
    obtain ⟨infoS', _, hS', heqS, _, _⟩ := hinv S infoS0 hS
    have hmetaS : infoS'.meta = infoS0.meta := by
      have h1 := congrArg (fun z : tableGenInfo => z.meta) heqS
      exact h1
    refine ⟨infoTab, ?_⟩
    rcases findKeyColumn_fold entry.KeyField infoS'.meta.Cols none with
      ⟨hnone, _⟩ | ⟨col, hmem, hname, _⟩
    · rw [List.nil_append]
      unfold attachAllBelongsTo attachBelongsTo
      rw [if_neg hT, if_neg hk, hS']
      simp only [findKeyColumn, hnone]
    · rw [hmetaS] at hmem
      exact absurd hname (hno col hmem)
  | cons e rest ih =>
    intro done infoTab hinv hvalid
    obtain ⟨h1, h2, h3, hcol⟩ := hvalid e (List.mem_cons_self _ _)
    obtain ⟨infoTab1, hstep, hinv1⟩ :=
      attachBelongsTo_attached infoTab0 infoTab done S e infoS0 hinv h1 h2 h3 hS hcol
    obtain ⟨infoTab', hres⟩ := ih (done ++ [(S, e)]) infoTab1 hinv1
      (fun x hx => hvalid x (List.mem_cons_of_mem _ hx))
    refine ⟨infoTab', ?_⟩
    rw [List.cons_append]
    unfold attachAllBelongsTo
    rw [hstep]
    exact hres

/-- C17: `buildExplicitBelongsToMapping` over the whole configuration.  When
every belongs-to entry of every configured table has a non-empty target and key
field, a registered target and a declaring table that is registered and has a
column of that name, the function returns a nil error and every registered
table `T` then holds its former explicit references followed by exactly one
reference per entry naming `T`, in the order of the configuration, each with
`PointsTo` the table `T`, `PointsToFields` the primary key of `T`, `PointsFrom`
the declaring table `S`, `PointsFromFields` the column of `S` named by the
entry, `OneToOne` the entry's flag and `Nullable` the column's nullability; a
table no entry names receives none and nothing else in the registry changes.
When the entries before an entry `{T, k}` of a table `S` are of that kind and
`S` has no column named `k`, the function returns the error
`table '<S>' has no field '<k>'`. -/
theorem belongsTo_attaches_one_reference (tables : List tableConfig) (infoTab : Registry) :
    ((∀ table ∈ tables, ∀ entry ∈ table.BelongsTo,
        entry.Table.length ≠ 0 ∧ entry.KeyField.length ≠ 0 ∧
        (lookupInfo infoTab entry.Table).isSome = true ∧
        ∃ infoS, lookupInfo infoTab table.Name = some infoS ∧
          ∃ col ∈ infoS.meta.Cols, col.PgName = entry.KeyField) →
      ∃ infoTab', buildExplicitBelongsToMapping tables infoTab = .ret infoTab' none ∧
        ∀ (T : String) (infoT : tableGenInfo), lookupInfo infoTab T = some infoT →
          ∃ (infoT' : tableGenInfo) (added : List refMeta),
            lookupInfo infoTab' T = some infoT' ∧
            { infoT' with explicitBelongsTo := infoT.explicitBelongsTo } = infoT ∧
            infoT'.explicitBelongsTo = infoT.explicitBelongsTo ++ added ∧
            List.Forall₂ (fun (se : String × belongsTo) (ref : refMeta) =>
                ∃ (infoS : tableGenInfo) (col : colMeta),
                  lookupInfo infoTab se.1 = some infoS ∧
                  col ∈ infoS.meta.Cols ∧ col.PgName = se.2.KeyField ∧
                  ref = ⟨infoT.meta.PgName, [infoT.meta.PkeyCol], infoS.meta.PgName, [some col],
                    se.2.OneToOne, col.Nullable⟩)
              ((tables.flatMap (fun table =>
                  table.BelongsTo.map (fun entry => (table.Name, entry)))).filter
                (fun se => se.2.Table == T))
              added) ∧
    (∀ (pre post : List tableConfig) (S : tableConfig) (epre epost : List belongsTo)
        (entry : belongsTo) (infoS : tableGenInfo),
      tables = pre ++ S :: post → S.BelongsTo = epre ++ entry :: epost →
      (∀ table ∈ pre ++ [{ S with BelongsTo := epre }], ∀ e ∈ table.BelongsTo,
        e.Table.length ≠ 0 ∧ e.KeyField.length ≠ 0 ∧
        (lookupInfo infoTab e.Table).isSome = true ∧
        ∃ infoS, lookupInfo infoTab table.Name = some infoS ∧
          ∃ col ∈ infoS.meta.Cols, col.PgName = e.KeyField) →
      entry.Table.length ≠ 0 → entry.KeyField.length ≠ 0 →
      lookupInfo infoTab S.Name = some infoS →
      (∀ col ∈ infoS.meta.Cols, col.PgName ≠ entry.KeyField) →
      ∃ infoTab', buildExplicitBelongsToMapping tables infoTab
        = .ret infoTab'
            (some ("table '" ++ S.Name ++ "' has no field '" ++ entry.KeyField ++ "'"))) := by
  constructor
  · intro hvalid
    obtain ⟨infoTab', hres, hinv⟩ :=
      buildExplicitBelongsToMapping_attached infoTab tables [] infoTab
        (belongsToAttached_refl infoTab) hvalid
    rw [List.nil_append] at hinv
    exact ⟨infoTab', hres, hinv⟩
  · intro pre post S epre epost entry infoS htables hentries hvalid hT hk hS hno
    subst htables
    have hpre : ∀ (pre : List tableConfig) (done : List (String × belongsTo))
        (infoTab1 : Registry), belongsToAttached infoTab done infoTab1 →
        (∀ table ∈ pre, ∀ e ∈ table.BelongsTo,
          e.Table.length ≠ 0 ∧ e.KeyField.length ≠ 0 ∧
          (lookupInfo infoTab e.Table).isSome = true ∧
          ∃ infoS, lookupInfo infoTab table.Name = some infoS ∧
            ∃ col ∈ infoS.meta.Cols, col.PgName = e.KeyField) →
        ∃ infoTab', buildExplicitBelongsToMapping (pre ++ S :: post) infoTab1
          = .ret infoTab'
              (some ("table '" ++ S.Name ++ "' has no field '" ++ entry.KeyField ++ "'")) := by
      intro pre
      induction pre with
      | nil =>
        intro done infoTab1 hinv _
        obtain ⟨infoTab', hres⟩ :=
          attachAllBelongsTo_missing_column infoTab S.Name infoS hS entry epost hT hk hno epre
            done infoTab1 hinv
            (by
              intro e he
              obtain ⟨h1, h2, h3, infoS2, hS2, hcol⟩ :=
                hvalid { S with BelongsTo := epre } (by simp) e he
              have hS3 : lookupInfo infoTab S.Name = some infoS2 := hS2
              rw [hS] at hS3
              cases hS3
              exact ⟨h1, h2, h3, hcol⟩)
        refine ⟨infoTab', ?_⟩
        rw [List.nil_append]
        unfold buildExplicitBelongsToMapping
        rw [hentries, hres]
      | cons table rest ih =>
        intro done infoTab1 hinv hv
        obtain ⟨infoTab2, hstep, hinv2⟩ :=
          buildExplicitBelongsToMapping_attached infoTab [table] done infoTab1 hinv
            (by
              intro t ht
              rw [List.mem_singleton] at ht
              subst ht
              exact hv t (List.mem_cons_self _ _))
        obtain ⟨infoTab', hres⟩ := ih _ infoTab2 hinv2
          (fun t ht => hv t (List.mem_cons_of_mem _ ht))
        refine ⟨infoTab', ?_⟩
        rw [List.cons_append]
        unfold buildExplicitBelongsToMapping at hstep ⊢
        cases hall : attachAllBelongsTo table.Name table.BelongsTo infoTab1 with
        | panic msg =>
          rw [hall] at hstep
          cases hstep
        | ret infoTab3 err =>
          rw [hall] at hstep
          cases err with
          | some e =>
            simp only [] at hstep
            cases hstep
          | none =>
            simp only [] at hstep ⊢
            unfold buildExplicitBelongsToMapping at hstep
            cases hstep
            exact hres
    exact hpre pre [] infoTab (belongsToAttached_refl infoTab)
      (fun t ht => hvalid t (List.mem_append_left _ ht))

/-- C17 at `customers`, `orders` and `payments`: `orders` declares one entry on
`customers`, `payments` one on `customers` and one on `orders`.  Every entry
leaves its reference on its target, in the order of the configuration; with
`orders` naming the missing column `nope` the function returns the error. -/
theorem belongsTo_attaches_one_reference_witness :
    (∃ st, buildExplicitBelongsToMapping (ledgerTables "customer_id")
          (ledgerRegistry "customer_id") = .ret st none ∧
      (lookupInfo st "customers").map (fun i => i.explicitBelongsTo)
        = some [⟨"customers", [some exampleIdCol], "orders", [some customerIdCol], true, true⟩,
                ⟨"customers", [some exampleIdCol], "payments", [some customerIdCol], false,
                  true⟩] ∧
      (lookupInfo st "orders").map (fun i => i.explicitBelongsTo)
        = some [⟨"orders", [some exampleIdCol], "payments",
                  [some (exampleFkCol "order_id" "OrderId")], true, false⟩] ∧
      (lookupInfo st "payments").map (fun i => i.explicitBelongsTo) = some []) ∧
    buildExplicitBelongsToMapping (ledgerTables "nope") (ledgerRegistry "nope")
      = .ret (ledgerRegistry "nope") (some "table 'orders' has no field 'nope'") ∧
    (∃ infoTab', buildExplicitBelongsToMapping (ledgerTables "customer_id")
          (ledgerRegistry "customer_id") = .ret infoTab' none ∧
        ∀ (T : String) (infoT : tableGenInfo),
          lookupInfo (ledgerRegistry "customer_id") T = some infoT →
          ∃ (infoT' : tableGenInfo) (added : List refMeta),
            lookupInfo infoTab' T = some infoT' ∧
            { infoT' with explicitBelongsTo := infoT.explicitBelongsTo } = infoT ∧
            infoT'.explicitBelongsTo = infoT.explicitBelongsTo ++ added ∧
            List.Forall₂ (fun (se : String × belongsTo) (ref : refMeta) =>
                ∃ (infoS : tableGenInfo) (col : colMeta),
                  lookupInfo (ledgerRegistry "customer_id") se.1 = some infoS ∧
                  col ∈ infoS.meta.Cols ∧ col.PgName = se.2.KeyField ∧
                  ref = ⟨infoT.meta.PgName, [infoT.meta.PkeyCol], infoS.meta.PgName, [some col],
                    se.2.OneToOne, col.Nullable⟩)
              (((ledgerTables "customer_id").flatMap (fun table =>
                  table.BelongsTo.map (fun entry => (table.Name, entry)))).filter
                (fun se => se.2.Table == T))
              added) ∧
    (∃ infoTab', buildExplicitBelongsToMapping (ledgerTables "nope") (ledgerRegistry "nope")
        = .ret infoTab' (some ("table '" ++ (ordersConfig "customers" "nope").Name
            ++ "' has no field '" ++ "nope" ++ "'"))) :=
  ⟨⟨_, rfl, by decide, by decide, by decide⟩, by decide,
    (belongsTo_attaches_one_reference (ledgerTables "customer_id")
      (ledgerRegistry "customer_id")).1
      (by
        intro table ht entry he
        simp only [ledgerTables, List.mem_cons, List.mem_singleton, List.not_mem_nil,
          or_false] at ht
        rcases ht with rfl | rfl | rfl
        · simp [exampleConfig] at he
        · simp only [ordersConfig, List.mem_singleton] at he
          subst he
          exact ⟨by decide, by decide, by decide, _, rfl, by decide⟩
        · simp only [paymentsConfig, List.mem_cons, List.mem_singleton, List.not_mem_nil,
            or_false] at he
          rcases he with rfl | rfl
          · exact ⟨by decide, by decide, by decide, _, rfl, by decide⟩
          · exact ⟨by decide, by decide, by decide, _, rfl, by decide⟩),
    (belongsTo_attaches_one_reference (ledgerTables "nope") (ledgerRegistry "nope")).2
      [exampleConfig "customers"] [paymentsConfig] (ordersConfig "customers" "nope") []
      [] { Table := "customers", KeyField := "nope", OneToOne := true }
      (freshInfo (ordersConfig "customers" "nope") [exampleIdCol, customerIdCol])
      rfl rfl
      (by
        intro table ht e he
        simp only [List.mem_append, List.mem_singleton] at ht
        rcases ht with rfl | rfl
        · simp [exampleConfig] at he
        · simp at he)
      (by decide) (by decide) (by decide) (by decide)⟩

/-- C18, the code at the failing input: `orders` declares `belongs_to` the
table `ghost`, which is not configured, through its existing column
`customer_id`.  `buildExplicitBelongsToMapping` returns no error: it panics on
the nil entry of the registry. -/
theorem belongsTo_unconfigured_target_panics :
    lookupInfo (shopRegistry "ghost" "customer_id") "ghost" = none ∧
    buildExplicitBelongsToMapping
        [exampleConfig "customers", ordersConfig "ghost" "customer_id"]
        (shopRegistry "ghost" "customer_id")
      = .panic "invalid memory address or nil pointer dereference" ∧
    buildExplicitBelongsToMapping
        [exampleConfig "customers", ordersConfig "ghost" "nope"]
        (shopRegistry "ghost" "nope")
      = .ret (shopRegistry "ghost" "nope") (some "table 'orders' has no field 'nope'") ∧
    buildExplicitBelongsToMapping
        [exampleConfig "customers", ordersConfig "" "customer_id"]
        (shopRegistry "" "customer_id")
      = .ret (shopRegistry "" "customer_id") (some "orders: belongs_to requires 'name' key") := by
  refine ⟨by decide, by decide, by decide, by decide⟩

/-! ## Theorems: `setTimestampFlags` -/

/-- C19, refuted as stated: `events(id, updated_at)` is configured with the
created-at field `created_at`, which is no column of the table.
`populateTableInfo` returns a nil error; it has handed one warning to `g.warn`
and left `hasCreatedAtField` false. -/
theorem populateTableInfo_accepts_missing_timestamp_column :
    (∀ cm ∈ eventsMeta.Cols, cm.PgName ≠ eventsConfig.CreatedAtField) ∧
    ∃ tables' warnings,
      populateTableInfo (fun _ => .ok eventsMeta) (fun _ m => .ok m) ["events"] ["events"]
          ["events"] [eventsConfig]
        = .ret (tables', warnings) none ∧
      warnings = ["WARN: table 'events' has no 'created_at' created at timestamp\n"] ∧
      (lookupInfo tables' "events").map (fun i => i.hasCreatedAtField) = some false ∧
      (lookupInfo tables' "events").map (fun i => i.hasUpdateAtField) = some true := by
  refine ⟨by decide, _, _, rfl, by decide, by decide, by decide⟩

theorem find?_none_of_no_column (cols : List colMeta) (name : String)
    (h : ∀ cm ∈ cols, cm.PgName ≠ name) :
    cols.find? (fun cm => cm.PgName == name) = none := by
  rw [List.find?_eq_none]
  intro cm hcm
  simpa using h cm hcm

theorem setCreatedAtFlags_frame (info : tableGenInfo) :
    (setCreatedAtFlags info).1.config = info.config ∧
    (setCreatedAtFlags info).1.meta = info.meta ∧
    (setCreatedAtFlags info).1.hasUpdateAtField = info.hasUpdateAtField := by
  unfold setCreatedAtFlags
  by_cases h : info.config.CreatedAtField.length > 0
  · rw [if_pos h]
    cases info.meta.Cols.find? (fun cm => cm.PgName == info.config.CreatedAtField) with
    | none =>
      simp only []
      by_cases h2 : (!info.hasCreatedAtField) = true
      · rw [if_pos h2]
        exact ⟨rfl, rfl, rfl⟩
      · rw [if_neg h2]
        exact ⟨rfl, rfl, rfl⟩
    | some cm =>
      simp only [Bool.not_true, Bool.false_eq_true, if_false]
      exact ⟨trivial, trivial, trivial⟩
  · rw [if_neg h]
    exact ⟨rfl, rfl, rfl⟩

theorem setUpdatedAtFlags_frame (info : tableGenInfo) :
    (setUpdatedAtFlags info).1.hasCreatedAtField = info.hasCreatedAtField := by
  unfold setUpdatedAtFlags
  by_cases h : info.config.UpdatedAtField.length > 0
  · rw [if_pos h]
    cases info.meta.Cols.find? (fun cm => cm.PgName == info.config.UpdatedAtField) with
    | none =>
      simp only []
      by_cases h2 : (!info.hasUpdateAtField) = true
      · rw [if_pos h2]
      · rw [if_neg h2]
    | some cm =>
      simp only [Bool.not_true, Bool.false_eq_true, if_false]
  · rw [if_neg h]

theorem setCreatedAtFlags_missing (info : tableGenInfo)
    (hlen : info.config.CreatedAtField.length > 0) (hflag : info.hasCreatedAtField = false)
    (hmissing : ∀ cm ∈ info.meta.Cols, cm.PgName ≠ info.config.CreatedAtField) :
    setCreatedAtFlags info
      = (info, ["WARN: table '" ++ info.config.Name ++ "' has no '"
          ++ info.config.CreatedAtField ++ "' created at timestamp\n"]) := by
  unfold setCreatedAtFlags
  rw [if_pos hlen, find?_none_of_no_column _ _ hmissing]
  simp [hflag]

theorem setUpdatedAtFlags_missing (info : tableGenInfo)
    (hlen : info.config.UpdatedAtField.length > 0) (hflag : info.hasUpdateAtField = false)
    (hmissing : ∀ cm ∈ info.meta.Cols, cm.PgName ≠ info.config.UpdatedAtField) :
    setUpdatedAtFlags info
      = (info, ["WARN: table '" ++ info.config.Name ++ "' has no '"
          ++ info.config.UpdatedAtField ++ "' updated at timestamp\n"]) := by
  unfold setUpdatedAtFlags
  rw [if_pos hlen, find?_none_of_no_column _ _ hmissing]
  simp [hflag]

/-- C19, amended: when the configuration of a table names a created-at or an
updated-at field that is no column of the table, `setTimestampFlags`, which
returns no error, hands `g.warn` a warning naming the table and the field and
leaves the flag of that field as it was, false on the info `populateTableInfo`
created; and `populateTableInfo` returns a nil error whenever the phases before
the timestamp flags did, with the registry those flags were set on. -/
theorem missing_timestamp_column_warns (info : tableGenInfo)
    (tableMetaOf : String → Except String tableMeta)
    (fillTableReferences : Registry → tableMeta → Except String tableMeta)
    (fillOrder specOrder flagOrder : List String) (tables : List tableConfig) :
    (info.config.CreatedAtField.length > 0 → info.hasCreatedAtField = false →
      (∀ cm ∈ info.meta.Cols, cm.PgName ≠ info.config.CreatedAtField) →
      (setTimestampFlags info).1.hasCreatedAtField = false ∧
      ("WARN: table '" ++ info.config.Name ++ "' has no '" ++ info.config.CreatedAtField
        ++ "' created at timestamp\n") ∈ (setTimestampFlags info).2) ∧
    (info.config.UpdatedAtField.length > 0 → info.hasUpdateAtField = false →
      (∀ cm ∈ info.meta.Cols, cm.PgName ≠ info.config.UpdatedAtField) →
      (setTimestampFlags info).1.hasUpdateAtField = false ∧
      ("WARN: table '" ++ info.config.Name ++ "' has no '" ++ info.config.UpdatedAtField
        ++ "' updated at timestamp\n") ∈ (setTimestampFlags info).2) ∧
    (∀ tables1, populateBeforeTimestamps tableMetaOf fillTableReferences fillOrder specOrder
          tables = .ret tables1 none →
      populateTableInfo tableMetaOf fillTableReferences fillOrder specOrder flagOrder tables
        = .ret (setAllTimestampFlags flagOrder tables1) none) := by
  refine ⟨?_, ?_, ?_⟩
  · intro hlen hflag hmissing
    have hc := setCreatedAtFlags_missing info hlen hflag hmissing
    constructor
    · unfold setTimestampFlags
      rw [setUpdatedAtFlags_frame, hc]
      exact hflag
    · unfold setTimestampFlags
      rw [hc]
      simp
  · intro hlen hflag hmissing
    obtain ⟨hcfg, hmeta, hupd⟩ := setCreatedAtFlags_frame info
    have hu := setUpdatedAtFlags_missing (setCreatedAtFlags info).1
      (by rw [hcfg]; exact hlen) (by rw [hupd]; exact hflag)
      (by rw [hcfg, hmeta]; exact hmissing)
    rw [hcfg] at hu
    constructor
    · unfold setTimestampFlags
      rw [hu, hupd]
      exact hflag
    · unfold setTimestampFlags
      rw [hu]
      simp
  · intro tables1 h
    unfold populateTableInfo
    rw [h]

/-! ## Theorems: `Scan` -/

theorem nodup_getElem?_inj {tab : List Nat} (hnd : tab.Nodup) {i j x : Nat}
    (hi : tab[i]? = some x) (hj : tab[j]? = some x) : i = j := by
  obtain ⟨hil, hix⟩ := List.getElem?_eq_some_iff.1 hi
  obtain ⟨hjl, hjx⟩ := List.getElem?_eq_some_iff.1 hj
  exact (List.Nodup.getElem_inj_iff hnd).1 (hix.trans hjx.symm)

theorem fillScanTgts_spec (ncols m : Nat) (tab : List Nat) (hlen : tab.length ≤ ncols)
    (hbound : ∀ x ∈ tab, x < m) (hnd : tab.Nodup) :
    ∀ (k genIdx : Nat) (scanTgts : List (Option Nat)), genIdx + k = tab.length →
      scanTgts.length = m →
      (∀ i x : Nat, tab[i]? = some x → i < genIdx → scanTgts[x]? = some (some i)) →
      ∃ res : List (Option Nat), fillScanTgts ncols genIdx (tab.drop genIdx) scanTgts = some res ∧
        res.length = m ∧ ∀ i x : Nat, tab[i]? = some x → res[x]? = some (some i) := by
  intro k
  induction k with
  | zero =>
    intro genIdx scanTgts hk hm hinv
    have hdrop : tab.drop genIdx = [] := List.drop_eq_nil_of_le (by omega)
    rw [hdrop]
    refine ⟨scanTgts, rfl, hm, ?_⟩
    intro i x hix
    obtain ⟨hil, _⟩ := List.getElem?_eq_some_iff.1 hix
    exact hinv i x hix (by omega)
  | succ k ih =>
    intro genIdx scanTgts hk hm hinv
    have hg : genIdx < tab.length := by omega
    have hx : tab[genIdx] < m := hbound _ (List.getElem_mem hg)
    rw [List.drop_eq_getElem_cons hg]
    unfold fillScanTgts
    rw [if_pos ⟨by omega, by omega⟩]
    apply ih (genIdx + 1) (scanTgts.set tab[genIdx] (some genIdx)) (by omega) (by simp [hm])
    intro i x hix hi
    by_cases hig : i = genIdx
    · subst hig
      have : x = tab[i] := by
        rw [List.getElem?_eq_getElem hg] at hix
        simpa using hix.symm
      subst this
      exact List.getElem?_set_self (by omega)
    · have hne : tab[genIdx] ≠ x := by
        intro heq
        apply hig
        exact nodup_getElem?_inj hnd hix (by rw [List.getElem?_eq_getElem hg, heq])
      rw [List.getElem?_set_ne hne]
      exact hinv i x hix (by omega)

theorem rowsScanFrom_spec (convertAssign : Nat → Val → Except String Val) (n : Nat)
    (tab : List Nat) (scanTgts : List (Option Nat))
    (rs : List Val) (vals : Row) (hnd : tab.Nodup) (htab : tab.length = n)
    (htg : scanTgts.length = n) (hrs : rs.length = n)
    (hA : ∀ i x : Nat, tab[i]? = some x → scanTgts[x]? = some (some i))
    (hB : ∀ pos : Nat, pos < n → ∃ i : Nat, tab[i]? = some pos)
    (hconv : ∀ i x : Nat, tab[i]? = some x →
      ∃ stored : Val, convertAssign i (rs.getD x Val.null) = .ok stored ∧
        vals[i]? = some stored) :
    ∀ (k pos : Nat) (staged : Row), pos + k = n → staged.length = n →
      ∃ res : Row,
        rowsScanFrom convertAssign pos (scanTgts.drop pos) (rs.drop pos) staged = (res, none) ∧
        res.length = n ∧
        ∀ i x : Nat, tab[i]? = some x →
          (pos ≤ x → res[i]? = vals[i]?) ∧ (x < pos → res[i]? = staged[i]?) := by
  intro k
  induction k with
  | zero =>
    intro pos staged hk hst
    have hdrop : scanTgts.drop pos = [] := List.drop_eq_nil_of_le (by omega)
    rw [hdrop]
    refine ⟨staged, by simp [rowsScanFrom], hst, ?_⟩
    intro i x hix
    have hx : x < n := by
      obtain ⟨j, hj⟩ := List.getElem?_eq_some_iff.1 (hA i x hix)
      omega
    exact ⟨fun h => by omega, fun _ => rfl⟩
  | succ k ih =>
    intro pos staged hk hst
    have hp : pos < n := by omega
    obtain ⟨i0, hi0⟩ := hB pos hp
    have htgt : scanTgts[pos]? = some (some i0) := hA i0 pos hi0
    obtain ⟨hpt, hptv⟩ := List.getElem?_eq_some_iff.1 htgt
    have hi0l : i0 < n := by
      obtain ⟨h, _⟩ := List.getElem?_eq_some_iff.1 hi0
      omega
    obtain ⟨stored, hstored, hval⟩ := hconv i0 pos hi0
    have hgetD : rs.getD pos Val.null = rs[pos] := by
      rw [List.getD_eq_getElem?_getD, List.getElem?_eq_getElem (by omega : pos < rs.length)]
      rfl
    rw [hgetD] at hstored
    rw [List.drop_eq_getElem_cons hpt, List.drop_eq_getElem_cons (by omega : pos < rs.length),
      hptv]
    unfold rowsScanFrom
    rw [hstored]
    obtain ⟨res, hres, hlen, hprop⟩ := ih (pos + 1) (staged.set i0 stored) (by omega)
      (by simp [hst])
    refine ⟨res, hres, hlen, ?_⟩
    intro i x hix
    obtain ⟨h1, h2⟩ := hprop i x hix
    constructor
    · intro hle
      by_cases hxp : x = pos
      · subst hxp
        have hii : i = i0 := nodup_getElem?_inj hnd hix hi0
        subst hii
        rw [h2 (by omega), List.getElem?_set_self (by omega), hval]
      · exact h1 (by omega)
    · intro hlt
      rw [h2 (by omega)]
      have hne : i0 ≠ i := by
        intro heq
        subst heq
        have := Option.some.inj (hi0.symm.trans hix)
        omega
      exact List.getElem?_set_ne hne

theorem rowsScanFrom_conversion_error (convertAssign : Nat → Val → Except String Val) (n : Nat)
    (scanTgts : List (Option Nat)) (rs : List Val)
    (htg : scanTgts.length = n) (hrs : rs.length = n)
    (bad genIdx : Nat) (e : String) (hbad : scanTgts[bad]? = some (some genIdx))
    (herr : convertAssign genIdx (rs.getD bad Val.null) = .error e) :
    ∀ (k pos : Nat) (staged : Row), pos + k = n → pos ≤ bad →
      (rowsScanFrom convertAssign pos (scanTgts.drop pos) (rs.drop pos) staged).2.isSome
        = true := by
  have hbadn : bad < n := by
    obtain ⟨h, _⟩ := List.getElem?_eq_some_iff.1 hbad
    omega
  intro k
  induction k with
  | zero =>
    intro pos staged hk hle
    omega
  | succ k ih =>
    intro pos staged hk hle
    have hp : pos < n := by omega
    rw [List.drop_eq_getElem_cons (by omega : pos < scanTgts.length),
      List.drop_eq_getElem_cons (by omega : pos < rs.length)]
    cases htgt : scanTgts[pos] with
    | none => simp [rowsScanFrom]
    | some j =>
      unfold rowsScanFrom
      cases hc : convertAssign j rs[pos] with
      | error e' => rfl
      | ok stored =>
        simp only []
        apply ih (pos + 1) (staged.set j stored) (by omega)
        by_contra hlt
        have hpb : pos = bad := by omega
        subst hpb
        rw [List.getElem?_eq_getElem (by omega : pos < scanTgts.length), htgt] at hbad
        have hj : j = genIdx := Option.some.inj (Option.some.inj hbad)
        subst hj
        have hgetD : rs.getD pos Val.null = rs[pos] := by
          rw [List.getD_eq_getElem?_getD,
            List.getElem?_eq_getElem (by omega : pos < rs.length)]
          rfl
        rw [hgetD, hc] at herr
        cases herr

/-- C14: for a table with `n` columns, a translation table that is a
permutation of `0..n-1` and a current row of `n` values in deployed order, the
generated `Scan` builds a target list of length `n` in which the position
`colIdxTab[i]` holds the scanner of the generation-time column `i`, every
position being filled.  When the value at position `colIdxTab[i]` converts into
the receiver of column `i`, for every `i`, `Scan` returns a nil error with the
field of each generation-time column `i` holding the converted value of the
row's position `colIdxTab[i]`; when one of them does not convert, `Scan`
returns an error. -/
theorem Scan_routes_through_colIdxTab (ctx : tableGenCtx)
    (convertAssign : Nat → Val → Except String Val)
    (fillColPosTab : Except String (List Nat)) (colIdxTab : List Nat) (r : Row) (rs : List Val)
    (hperm : colIdxTab.Perm (List.range ctx.Cols.length))
    (hrs : rs.length = ctx.Cols.length) (hr : r.length = ctx.Cols.length) :
    ∃ scanTgts : List (Option Nat),
      fillScanTgts ctx.Cols.length 0 colIdxTab (List.replicate colIdxTab.length none)
        = some scanTgts ∧
      scanTgts.length = ctx.Cols.length ∧
      (∀ i runIdx : Nat, colIdxTab[i]? = some runIdx → scanTgts[runIdx]? = some (some i)) ∧
      (∀ pos : Nat, pos < ctx.Cols.length → ∃ i : Nat, scanTgts[pos]? = some (some i)) ∧
      (∀ vals : Row, vals.length = ctx.Cols.length →
        (∀ i : Nat, i < ctx.Cols.length →
          convertAssign i (rs.getD (colIdxTab.getD i 0) Val.null)
            = .ok (vals.getD i Val.null)) →
        ScanGoName ctx convertAssign fillColPosTab (some colIdxTab) r rs
          = some { colIdxTab := some colIdxTab, record := vals, err := none }) ∧
      (∀ (i : Nat) (e : String), i < ctx.Cols.length →
        convertAssign i (rs.getD (colIdxTab.getD i 0) Val.null) = .error e →
        ∃ out : ScanOutcome,
          ScanGoName ctx convertAssign fillColPosTab (some colIdxTab) r rs = some out ∧
          out.colIdxTab = some colIdxTab ∧ out.err.isSome = true) := by
  have hlen : colIdxTab.length = ctx.Cols.length := by
    rw [hperm.length_eq, List.length_range]
  have hnd : colIdxTab.Nodup := (hperm.nodup_iff).2 (List.nodup_range _)
  have hbound : ∀ x ∈ colIdxTab, x < ctx.Cols.length := by
    intro x hx
    exact List.mem_range.1 ((hperm.mem_iff).1 hx)
  have hB : ∀ pos : Nat, pos < ctx.Cols.length → ∃ i : Nat, colIdxTab[i]? = some pos := by
    intro pos hpos
    have hmem : pos ∈ colIdxTab := (hperm.mem_iff).2 (List.mem_range.2 hpos)
    obtain ⟨i, hi, hget⟩ := List.mem_iff_getElem.1 hmem
    exact ⟨i, by rw [List.getElem?_eq_getElem hi, hget]⟩
  obtain ⟨scanTgts, hfill, htl, hA⟩ :=
    fillScanTgts_spec ctx.Cols.length ctx.Cols.length colIdxTab (by omega) hbound hnd
      colIdxTab.length 0 (List.replicate colIdxTab.length none) (by omega) (by simp [hlen])
      (fun _ _ _ h => by omega)
  rw [List.drop_zero] at hfill
  have hstage : (scanStage ctx.Cols r).length = ctx.Cols.length := by
    simp [scanStage, hr]
  have hne : (scanTgts.length != rs.length) = false := by simp [htl, hrs]
  have hgetD : ∀ i x : Nat, colIdxTab[i]? = some x → colIdxTab.getD i 0 = x := by
    intro i x hix
    rw [List.getD_eq_getElem?_getD, hix]
    rfl
  refine ⟨scanTgts, hfill, htl, hA, ?_, ?_, ?_⟩
  · intro pos hpos
    obtain ⟨i, hi⟩ := hB pos hpos
    exact ⟨i, hA i pos hi⟩
  · intro vals hvl hconv
    obtain ⟨res, hscan, hresl, hprop⟩ :=
      rowsScanFrom_spec convertAssign ctx.Cols.length colIdxTab scanTgts rs vals hnd hlen htl
        hrs hA hB
        (by
          intro i x hix
          have hi : i < ctx.Cols.length := by
            obtain ⟨h, _⟩ := List.getElem?_eq_some_iff.1 hix
            omega
          refine ⟨vals.getD i Val.null, ?_, ?_⟩
          · rw [← hgetD i x hix]
            exact hconv i hi
          · rw [List.getD_eq_getElem?_getD,
              List.getElem?_eq_getElem (by omega : i < vals.length)]
            rfl)
        ctx.Cols.length 0 (scanStage ctx.Cols r) (by omega) hstage
    rw [List.drop_zero, List.drop_zero] at hscan
    have hrec : res = vals := by
      apply List.ext_getElem?
      intro i
      by_cases hi : i < ctx.Cols.length
      · have hit : i < colIdxTab.length := by omega
        exact (hprop i colIdxTab[i] (List.getElem?_eq_getElem hit)).1 (Nat.zero_le _)
      · rw [List.getElem?_eq_none (by omega), List.getElem?_eq_none (by omega)]
    unfold ScanGoName
    simp only [hfill]
    unfold rowsScan
    rw [hne]
    simp only [Bool.false_eq_true, if_false, hscan, hrec]
  · intro i e hi herr
    have hit : i < colIdxTab.length := by omega
    have hix : colIdxTab[i]? = some colIdxTab[i] := List.getElem?_eq_getElem hit
    rw [hgetD i _ hix] at herr
    have hsome := rowsScanFrom_conversion_error convertAssign ctx.Cols.length scanTgts rs htl
      hrs colIdxTab[i] i e (hA i _ hix) herr ctx.Cols.length 0 (scanStage ctx.Cols r)
      (by omega) (Nat.zero_le _)
    rw [List.drop_zero, List.drop_zero] at hsome
    unfold ScanGoName
    simp only [hfill]
    unfold rowsScan
    rw [hne]
    simp only [Bool.false_eq_true, if_false]
    generalize rowsScanFrom convertAssign 0 scanTgts rs (scanStage ctx.Cols r) = result at hsome
    obtain ⟨staged, err⟩ := result
    cases err with
    | none => simp at hsome
    | some e' => exact ⟨_, rfl, rfl, rfl⟩

/-- C14 at `people(id, name, email)` deployed as `(id, email, name)`: the
translation table is `[0, 2, 1]` and the row `(7, e, n)` fills the record
`(7, n, e)`; a row with NULL at the position of `name` makes `Scan` return the
conversion error. -/
theorem Scan_routes_through_colIdxTab_witness :
    ([0, 2, 1] : List Nat).Perm (List.range peopleCtx.Cols.length) ∧
    ([Val.int 7, Val.str "e", Val.str "n"] : List Val).length = peopleCtx.Cols.length ∧
    ([Val.null, Val.null, Val.null] : Row).length = peopleCtx.Cols.length ∧
    ScanGoName peopleCtx peopleConvertAssign (.error "unused") (some [0, 2, 1])
        [Val.null, Val.null, Val.null] [Val.int 7, Val.str "e", Val.str "n"]
      = some { colIdxTab := some [0, 2, 1],
               record := [Val.int 7, Val.str "n", Val.str "e"], err := none } ∧
    ScanGoName peopleCtx peopleConvertAssign (.error "unused") (some [0, 2, 1])
        [Val.null, Val.null, Val.null] [Val.int 7, Val.null, Val.str "n"]
      = some { colIdxTab := some [0, 2, 1],
               record := [Val.int 7, Val.str "n", Val.null], err := none } ∧
    ScanGoName peopleCtx peopleConvertAssign (.error "unused") (some [0, 2, 1])
        [Val.null, Val.null, Val.null] [Val.int 7, Val.str "e", Val.null]
      = some { colIdxTab := some [0, 2, 1],
               record := [Val.int 7, Val.null, Val.null],
               err := some "sql: Scan error on column index 2: converting NULL is unsupported" } ∧
    ∃ scanTgts : List (Option Nat),
      fillScanTgts peopleCtx.Cols.length 0 [0, 2, 1]
          (List.replicate ([0, 2, 1] : List Nat).length none)
        = some scanTgts ∧
      scanTgts.length = peopleCtx.Cols.length ∧
      (∀ i runIdx : Nat, ([0, 2, 1] : List Nat)[i]? = some runIdx →
        scanTgts[runIdx]? = some (some i)) ∧
      (∀ pos : Nat, pos < peopleCtx.Cols.length → ∃ i : Nat, scanTgts[pos]? = some (some i)) ∧
      (∀ vals : Row, vals.length = peopleCtx.Cols.length →
        (∀ i : Nat, i < peopleCtx.Cols.length →
          peopleConvertAssign i
              (([Val.int 7, Val.str "e", Val.str "n"] : List Val).getD
                (([0, 2, 1] : List Nat).getD i 0) Val.null)
            = .ok (vals.getD i Val.null)) →
        ScanGoName peopleCtx peopleConvertAssign (.error "unused") (some [0, 2, 1])
            [Val.null, Val.null, Val.null] [Val.int 7, Val.str "e", Val.str "n"]
          = some { colIdxTab := some [0, 2, 1], record := vals, err := none }) ∧
      (∀ (i : Nat) (e : String), i < peopleCtx.Cols.length →
        peopleConvertAssign i
            (([Val.int 7, Val.str "e", Val.str "n"] : List Val).getD
              (([0, 2, 1] : List Nat).getD i 0) Val.null)
          = .error e →
        ∃ out : ScanOutcome,
          ScanGoName peopleCtx peopleConvertAssign (.error "unused") (some [0, 2, 1])
            [Val.null, Val.null, Val.null] [Val.int 7, Val.str "e", Val.str "n"] = some out ∧
          out.colIdxTab = some [0, 2, 1] ∧ out.err.isSome = true) :=
  ⟨by decide, by decide, by decide, by decide, by decide, by decide,
    Scan_routes_through_colIdxTab peopleCtx peopleConvertAssign (.error "unused") [0, 2, 1]
      [Val.null, Val.null, Val.null] [Val.int 7, Val.str "e", Val.str "n"]
      (by decide) (by decide) (by decide)⟩

/-! ## Theorems: the fill of one reference -/

theorem attachChildren_oneToOne_frame (childCtx : tableGenCtx) (ref : refMeta)
    (parentIDToRecord childIDToRecord : List (Val × Nat)) (hone : ref.OneToOne = true)
    (scans : List (Except String Row)) (heap : List Record) :
    (∃ msg, attachChildren childCtx ref parentIDToRecord childIDToRecord scans heap
        = .panic msg) ∨
    ∃ (heap' : List Record) (err : Option String),
      attachChildren childCtx ref parentIDToRecord childIDToRecord scans heap = .ret heap' err ∧
      ∃ p : Nat, ∀ i : Nat, i ≠ p → i < heap.length → heap'[i]? = heap[i]? := by
  cases scans with
  | nil => exact Or.inr ⟨heap, none, by simp [attachChildren], 0, fun _ _ _ => rfl⟩
  | cons scan rest =>
    cases scan with
    | error e => exact Or.inr ⟨heap, some e, by simp [attachChildren], 0, fun _ _ _ => rfl⟩
    | ok scannedChildRec =>
      unfold attachChildren
      cases List.lookup (childCtx.field childCtx.pkeyGoName scannedChildRec) childIDToRecord
        <;> simp only
        <;> (
          split
          · exact Or.inl ⟨_, rfl⟩
          · split
            · exact Or.inl ⟨_, rfl⟩
            · split
              · exact Or.inl ⟨_, rfl⟩
              · rename_i p parent _
                refine Or.inr ⟨_, none, rfl, p, ?_⟩
                intro i hip hi
                exact (List.getElem?_set_ne (Ne.symm hip)).trans
                  (by first
                    | rfl
                    | exact List.getElem?_append_left hi))

/-- C21: for a one-to-one reference, whatever the database answers and whatever
parents are loaded, `private<GoName>Fill<PointsFrom.GoName>` panics or returns
with at most one of the records that existed before the call changed: it
assigns a child to at most one parent, so of two loaded parents that both have
a child row one stays without its child. -/
theorem one_to_one_fill_changes_at_most_one_parent (prog : List tableGenCtx) (db : DB)
    (ref : refMeta) (st : FillState) (hone : ref.OneToOne = true) :
    (∃ msg, privateGoNameFill prog db ref st = .panic msg) ∨
    ∃ (st' : FillState) (err : Option String),
      privateGoNameFill prog db ref st = .ret st' err ∧
      ∃ p : Nat, ∀ i : Nat, i ≠ p → i < st.heap.length → st'.heap[i]? = st.heap[i]? := by
  unfold privateGoNameFill
  split
  · exact Or.inr ⟨st, _, rfl, 0, fun _ _ _ => rfl⟩
  · rename_i parentIDToRecord _
    split
    · rename_i parentCtx childCtx _ _
      simp only
      split
      · exact Or.inr ⟨_, _, rfl, 0, fun _ _ _ => rfl⟩
      · rename_i rows _
        have key := attachChildren_oneToOne_frame childCtx ref parentIDToRecord
          ((st.loadedRecordTab.lookup ref.PointsFrom).getD []) hone rows.scans st.heap
        split
        · exact Or.inl ⟨_, rfl⟩
        · rename_i heap err hret
          rcases key with ⟨msg, hp⟩ | ⟨heap', err', hr, p, hframe⟩
          · exact absurd (hp.symm.trans hret) (by simp)
          · have heq := hr.symm.trans hret
            injection heq with hh he
            subst hh
            exact Or.inr ⟨_, _, rfl, p, hframe⟩
    · exact Or.inl ⟨_, rfl⟩

/-- C21 at `customers` 1 and 2, both loaded, and `profiles` holding profile 10
of customer 1 and profile 11 of customer 2, the reference being one-to-one: the
fill returns a nil error, customer 1 has profile 10 assigned and customer 2,
whose profile 11 is stored, is left without a profile. -/
theorem one_to_one_fill_changes_at_most_one_parent_witness :
    (profilesRef true).OneToOne = true ∧
    matching 1 profilesRows [Val.int 2] = [[Val.int 11, Val.int 2]] ∧
    privateGoNameFill (clubProg true) (referencingDB (profilesRef true) 1 profilesRows)
        (profilesRef true) customersLoaded
      = .ret { heap := [{ cols := [Val.int 1, Val.str "ann"], single := [("profiles", 2)],
                          plural := [] },
                        { cols := [Val.int 2, Val.str "bob"], single := [], plural := [] },
                        { cols := [Val.int 10, Val.int 1], single := [], plural := [] }],
               loadedRecordTab := customersLoaded.loadedRecordTab,
               trace := [(fillStmt (profilesRef true),
                 [.array [Val.int 1, Val.int 2]])] } none ∧
    ((∃ msg, privateGoNameFill (clubProg true)
        (referencingDB (profilesRef true) 1 profilesRows) (profilesRef true) customersLoaded
          = .panic msg) ∨
      ∃ (st' : FillState) (err : Option String),
        privateGoNameFill (clubProg true) (referencingDB (profilesRef true) 1 profilesRows)
          (profilesRef true) customersLoaded = .ret st' err ∧
        ∃ p : Nat, ∀ i : Nat, i ≠ p → i < customersLoaded.heap.length →
          st'.heap[i]? = customersLoaded.heap[i]?) :=
  ⟨by decide, by decide, by decide,
    one_to_one_fill_changes_at_most_one_parent (clubProg true)
      (referencingDB (profilesRef true) 1 profilesRows) (profilesRef true) customersLoaded
      (by decide)⟩

/-! ## Theorems: the fill of a one-to-many reference -/

theorem lookup_assocSet_self {κ ν : Type} [BEq κ] [LawfulBEq κ] (k : κ) (v : ν)
    (l : List (κ × ν)) : (assocSet k v l).lookup k = some v := by
  induction l with
  | nil => simp [assocSet, List.lookup]
  | cons e rest ih =>
    obtain ⟨k', v'⟩ := e
    unfold assocSet
    by_cases h : (k' == k) = true
    · rw [if_pos h]
      simp [List.lookup]
    · rw [if_neg h]
      have hne : (k == k') = false := by
        cases hkk : (k == k') with
        | false => rfl
        | true =>
          exfalso
          apply h
          have := eq_of_beq hkk
          subst this
          exact beq_self_eq_true _
      simp only [List.lookup, hne]
      exact ih

theorem lookup_some_mem {κ ν : Type} [BEq κ] [LawfulBEq κ] (k : κ) (v : ν) :
    ∀ l : List (κ × ν), l.lookup k = some v → (k, v) ∈ l := by
  intro l
  induction l with
  | nil => intro h; simp [List.lookup] at h
  | cons e rest ih =>
    obtain ⟨k', v'⟩ := e
    intro h
    cases hkk : (k == k') with
    | true =>
      simp only [List.lookup, hkk] at h
      have hk := eq_of_beq hkk
      have hv := Option.some.inj h
      subst hk
      subst hv
      exact List.mem_cons_self _ _
    | false =>
      simp only [List.lookup, hkk] at h
      exact List.mem_cons_of_mem _ (ih h)

theorem lookup_isSome_of_mem_keys {κ ν : Type} [BEq κ] [LawfulBEq κ] (k : κ) :
    ∀ l : List (κ × ν), k ∈ l.map Prod.fst → ∃ v, l.lookup k = some v := by
  intro l
  induction l with
  | nil => intro h; simp at h
  | cons e rest ih =>
    obtain ⟨k', v'⟩ := e
    intro h
    cases hkk : (k == k') with
    | true => exact ⟨v', by simp only [List.lookup, hkk]⟩
    | false =>
      have hne : k ≠ k' := by
        intro heq
        subst heq
        simp at hkk
      have hmem : k ∈ rest.map Prod.fst := by
        rcases List.mem_cons.1 h with h1 | h1
        · exact absurd h1 hne
        · exact h1
      obtain ⟨v, hv⟩ := ih hmem
      exact ⟨v, by simp only [List.lookup, hkk]; exact hv⟩

theorem attachChildren_cons_oneToMany (childCtx : tableGenCtx) (ref : refMeta)
    (parentIDToRecord childIDToRecord : List (Val × Nat)) (hmany : ref.OneToOne = false)
    (row : Row) (rest : List (Except String Row)) (heap h1 : List Record) (c p : Nat)
    (child parent : Record)
    (halloc :
      (childIDToRecord.lookup (childCtx.field childCtx.pkeyGoName row) = some c ∧ h1 = heap) ∨
      (childIDToRecord.lookup (childCtx.field childCtx.pkeyGoName row) = none ∧
        h1 = heap ++ [{ cols := row, single := [], plural := [] }] ∧ c = heap.length))
    (hchild : h1[c]? = some child)
    (hnn : (ref.Nullable && childCtx.field ref.fromGoName child.cols == Val.null) = false)
    (hp : parentIDToRecord.lookup (childCtx.field ref.fromGoName child.cols) = some p)
    (hparent : h1[p]? = some parent) :
    attachChildren childCtx ref parentIDToRecord childIDToRecord (.ok row :: rest) heap
      = attachChildren childCtx ref parentIDToRecord childIDToRecord rest
          (h1.set p (parent.appendPlural ref.PointsFrom c)) := by
  rcases halloc with ⟨hlk, rfl⟩ | ⟨hlk, rfl, rfl⟩
  · conv_lhs => unfold attachChildren
    simp only [hlk, hchild, hnn, hp, hparent, hmany, Option.some_bind, Option.map_some',
      Bool.false_eq_true, if_false]
  · conv_lhs => unfold attachChildren
    simp only [hlk, hchild, hnn, hp, hparent, hmany, Option.some_bind, Option.map_some',
      Bool.false_eq_true, if_false]

theorem attachChildren_oneToMany (childCtx : tableGenCtx) (ref : refMeta)
    (parentIDToRecord childIDToRecord : List (Val × Nat)) (hmany : ref.OneToOne = false) :
    ∀ (rows : List Row) (heap : List Record),
      (∀ row ∈ rows,
        (ref.Nullable = true → childCtx.field ref.fromGoName row ≠ Val.null) ∧
        ∃ p : Nat, parentIDToRecord.lookup (childCtx.field ref.fromGoName row) = some p ∧
          p < heap.length) →
      (∀ row ∈ rows, ∀ c : Nat,
        childIDToRecord.lookup (childCtx.field childCtx.pkeyGoName row) = some c →
        ∃ rec : Record, heap[c]? = some rec ∧ rec.cols = row) →
      ∃ heap' : List Record,
        attachChildren childCtx ref parentIDToRecord childIDToRecord (rows.map Except.ok) heap
          = .ret heap' none ∧
        (∀ (i : Nat) (rec : Record), heap[i]? = some rec →
          ∃ rec' : Record, heap'[i]? = some rec' ∧ rec'.cols = rec.cols ∧
            ∀ x ∈ (rec.plural.lookup ref.PointsFrom).getD [],
              x ∈ (rec'.plural.lookup ref.PointsFrom).getD []) ∧
        (∀ row ∈ rows, ∀ p : Nat,
          parentIDToRecord.lookup (childCtx.field ref.fromGoName row) = some p →
          ∃ (parent : Record) (c : Nat) (child : Record), heap'[p]? = some parent ∧
            some c ∈ (parent.plural.lookup ref.PointsFrom).getD [] ∧
            heap'[c]? = some child ∧ child.cols = row) := by
  intro rows
  induction rows with
  | nil =>
    intro heap _ _
    exact ⟨heap, by simp [attachChildren], fun i rec h => ⟨rec, h, rfl, fun _ hx => hx⟩,
      fun row hrow => absurd hrow (List.not_mem_nil _)⟩
  | cons row rest ih =>
    intro heap hrows hpre
    obtain ⟨hnn, p, hp, hpl⟩ := hrows row (List.mem_cons_self _ _)
    have halloc : ∃ (h1 : List Record) (c : Nat) (child : Record),
        ((childIDToRecord.lookup (childCtx.field childCtx.pkeyGoName row) = some c ∧ h1 = heap) ∨
          (childIDToRecord.lookup (childCtx.field childCtx.pkeyGoName row) = none ∧
            h1 = heap ++ [{ cols := row, single := [], plural := [] }] ∧ c = heap.length)) ∧
        h1[c]? = some child ∧ child.cols = row ∧ heap.length ≤ h1.length ∧
        ∀ (i : Nat) (rec : Record), heap[i]? = some rec → h1[i]? = some rec := by
      cases hlk : childIDToRecord.lookup (childCtx.field childCtx.pkeyGoName row) with
      | some c =>
        obtain ⟨rec, hrec, hcols⟩ := hpre row (List.mem_cons_self _ _) c hlk
        exact ⟨heap, c, rec, Or.inl ⟨rfl, rfl⟩, hrec, hcols, le_refl _, fun _ _ h => h⟩
      | none =>
        refine ⟨heap ++ [{ cols := row, single := [], plural := [] }], heap.length,
          { cols := row, single := [], plural := [] }, Or.inr ⟨rfl, rfl, rfl⟩, by simp, rfl,
          by simp, ?_⟩
        intro i rec h
        obtain ⟨hi, _⟩ := List.getElem?_eq_some_iff.1 h
        rw [List.getElem?_append_left hi]
        exact h
    obtain ⟨h1, c, child, hal, hchild, hcols, hlen1, hmono1⟩ := halloc
    have hp1 : p < h1.length := by omega
    have hparent : h1[p]? = some h1[p] := List.getElem?_eq_getElem hp1
    have hnn1 : (ref.Nullable && childCtx.field ref.fromGoName child.cols == Val.null)
        = false := by
      rw [hcols]
      cases hN : ref.Nullable with
      | false => rfl
      | true =>
        have := hnn hN
        simp [this]
    have hstep := attachChildren_cons_oneToMany childCtx ref parentIDToRecord childIDToRecord
      hmany row (rest.map Except.ok) heap h1 c p child h1[p] hal hchild hnn1
      (by rw [hcols]; exact hp) hparent
    have hmono12 : ∀ (i : Nat) (rec : Record), h1[i]? = some rec →
        ∃ rec' : Record,
          (h1.set p (h1[p].appendPlural ref.PointsFrom c))[i]? = some rec' ∧
          rec'.cols = rec.cols ∧
          ∀ x ∈ (rec.plural.lookup ref.PointsFrom).getD [],
            x ∈ (rec'.plural.lookup ref.PointsFrom).getD [] := by
      intro i rec h
      by_cases hip : i = p
      · subst hip
        have hrec : rec = h1[i] := (Option.some.inj (h.symm.trans hparent))
        subst hrec
        refine ⟨h1[i].appendPlural ref.PointsFrom c, List.getElem?_set_self hp1, rfl, ?_⟩
        intro x hx
        unfold Record.appendPlural
        simp only [lookup_assocSet_self, Option.getD_some]
        exact List.mem_append_left _ hx
      · exact ⟨rec, by rw [List.getElem?_set_ne (Ne.symm hip)]; exact h, rfl, fun _ hx => hx⟩
    obtain ⟨heap', hres, hmono, hall⟩ := ih (h1.set p (h1[p].appendPlural ref.PointsFrom c))
      (by
        intro r hr
        obtain ⟨a, q, hq, hql⟩ := hrows r (List.mem_cons_of_mem _ hr)
        exact ⟨a, q, hq, by rw [List.length_set]; omega⟩)
      (by
        intro r hr c' hc'
        obtain ⟨rec, hrec, hc⟩ := hpre r (List.mem_cons_of_mem _ hr) c' hc'
        obtain ⟨rec', hrec', hcols', _⟩ := hmono12 c' rec (hmono1 c' rec hrec)
        exact ⟨rec', hrec', hcols'.trans hc⟩)
    refine ⟨heap', by rw [List.map_cons, hstep]; exact hres, ?_, ?_⟩
    · intro i rec h
      obtain ⟨rec2, hrec2, hcols2, hpl2⟩ := hmono12 i rec (hmono1 i rec h)
      obtain ⟨rec', hrec', hcols', hpl'⟩ := hmono i rec2 hrec2
      exact ⟨rec', hrec', hcols'.trans hcols2, fun x hx => hpl' x (hpl2 x hx)⟩
    · intro r hr q hq
      rcases List.mem_cons.1 hr with hrow | hr'
      · subst hrow
        have hqp : q = p := Option.some.inj (hq.symm.trans hp)
        subst hqp
        have hin : some c ∈ ((h1[q].appendPlural ref.PointsFrom c).plural.lookup
            ref.PointsFrom).getD [] := by
          unfold Record.appendPlural
          simp only [lookup_assocSet_self, Option.getD_some]
          exact List.mem_append_right _ (List.mem_singleton_self _)
        obtain ⟨parent', hparent', _, hpl'⟩ := hmono q _ (List.getElem?_set_self hp1)
        obtain ⟨child2, hchild2, hcols2, _⟩ := hmono12 c child hchild
        obtain ⟨child', hchild', hcols', _⟩ := hmono c child2 hchild2
        exact ⟨parent', c, child', hparent', hpl' _ hin, hchild',
          (hcols'.trans hcols2).trans hcols⟩
      · exact hall r hr' q hq

/-- The one-to-many path of `private<GoName>Fill<PointsFrom.GoName>` against a
database that holds the child table: when the loaded parents are keyed by the
referenced column and no key is null, the routine returns a nil error and
every loaded parent has, for each stored child row whose referencing column
equals its key, a record with the columns of that row in its list. -/
theorem one_to_many_fill_appends_every_child (prog : List tableGenCtx) (ref : refMeta)
    (fk : Nat) (stored : List Row) (st : FillState) (parentCtx childCtx : tableGenCtx)
    (parentIDToRecord : List (Val × Nat)) (hmany : ref.OneToOne = false)
    (hP : ctxOf prog ref.PointsTo = some parentCtx)
    (hC : ctxOf prog ref.PointsFrom = some childCtx)
    (hload : st.loadedRecordTab.lookup ref.PointsTo = some parentIDToRecord)
    (hfk : ∀ row : Row, childCtx.field ref.fromGoName row = rowKey fk row)
    (hkeys : ∀ e ∈ parentIDToRecord, e.1 ≠ Val.null ∧
      ∃ rec : Record, st.heap[e.2]? = some rec ∧ parentCtx.field ref.toGoName rec.cols = e.1)
    (hpre : ∀ row ∈ stored, ∀ c : Nat,
      ((st.loadedRecordTab.lookup ref.PointsFrom).getD []).lookup
          (childCtx.field childCtx.pkeyGoName row) = some c →
      ∃ rec : Record, st.heap[c]? = some rec ∧ rec.cols = row) :
    ∃ heap' : List Record,
      privateGoNameFill prog (referencingDB ref fk stored) ref st
        = .ret { heap := heap', loadedRecordTab := st.loadedRecordTab,
                 trace := st.trace ++
                   [(fillStmt ref, [.array (parentIDToRecord.map Prod.fst)])] } none ∧
      ∀ (k : Val) (p : Nat) (row : Row), parentIDToRecord.lookup k = some p → row ∈ stored →
        rowKey fk row = k →
        ∃ (parent : Record) (c : Nat) (child : Record), heap'[p]? = some parent ∧
          some c ∈ (parent.plural.lookup ref.PointsFrom).getD [] ∧
          heap'[c]? = some child ∧ child.cols = row := by
  have hids : parentIDToRecord.map (fun e =>
      parentCtx.field ref.toGoName ((st.heap[e.2]?.map (fun r => r.cols)).getD []))
      = parentIDToRecord.map Prod.fst := by
    apply List.map_congr_left
    intro e he
    obtain ⟨_, rec, hrec, hkey⟩ := hkeys e he
    rw [hrec]
    exact hkey
  have hrefeq : ({ ref with OneToOne := false } : refMeta) = ref := by
    cases ref
    simp only at hmany
    subst hmany
    rfl
  have hmatch : ∀ row ∈ matching fk stored (parentIDToRecord.map Prod.fst),
      row ∈ stored ∧ rowKey fk row ∈ parentIDToRecord.map Prod.fst := by
    intro row hrow
    unfold matching at hrow
    rw [List.mem_filter] at hrow
    exact ⟨hrow.1, of_decide_eq_true hrow.2⟩
  obtain ⟨heap', hres, _, hall⟩ := attachChildren_oneToMany childCtx ref parentIDToRecord
    ((st.loadedRecordTab.lookup ref.PointsFrom).getD []) hmany
    (matching fk stored (parentIDToRecord.map Prod.fst)) st.heap
    (by
      intro row hrow
      obtain ⟨_, hkey⟩ := hmatch row hrow
      obtain ⟨p, hp⟩ := lookup_isSome_of_mem_keys (rowKey fk row) parentIDToRecord hkey
      have hmem := lookup_some_mem _ _ _ hp
      obtain ⟨hnull, rec, hrec, _⟩ := hkeys _ hmem
      refine ⟨fun _ => by rw [hfk]; exact hnull, p, by rw [hfk]; exact hp, ?_⟩
      exact (List.getElem?_eq_some_iff.1 hrec).1)
    (fun row hrow c hc => hpre row (hmatch row hrow).1 c hc)
  refine ⟨heap', ?_, ?_⟩
  · unfold privateGoNameFill
    simp only [hload, hP, hC, hids]
    have hq : (referencingDB ref fk stored).QueryContext (fillStmt ref)
        [.array (parentIDToRecord.map Prod.fst)]
        = .ok { scans := (matching fk stored (parentIDToRecord.map Prod.fst)).map Except.ok,
                closeErr := none } := by
      simp only [referencingDB, hrefeq, beq_self_eq_true, if_true]
    rw [hq]
    simp only [hres]
  · intro k p row hp hrow hk
    have hmem := lookup_some_mem _ _ _ hp
    have hin : row ∈ matching fk stored (parentIDToRecord.map Prod.fst) := by
      unfold matching
      rw [List.mem_filter]
      refine ⟨hrow, decide_eq_true ?_⟩
      rw [hk]
      exact List.mem_map.2 ⟨(k, p), hmem, rfl⟩
    exact hall row hin p (by rw [hfk, hk]; exact hp)

/-- The one-to-many path at `customers` 1 and 2 and `profiles` holding profile 10
of customer 1 and profile 11 of customer 2: both customers get their profile. -/
theorem one_to_many_fill_appends_every_child_witness :
    privateGoNameFill (clubProg false) (referencingDB (profilesRef false) 1 profilesRows)
        (profilesRef false) customersLoaded
      = .ret { heap := [{ cols := [Val.int 1, Val.str "ann"], single := [],
                          plural := [("profiles", [some 2])] },
                        { cols := [Val.int 2, Val.str "bob"], single := [],
                          plural := [("profiles", [some 3])] },
                        { cols := [Val.int 10, Val.int 1], single := [], plural := [] },
                        { cols := [Val.int 11, Val.int 2], single := [], plural := [] }],
               loadedRecordTab := customersLoaded.loadedRecordTab,
               trace := [(fillStmt (profilesRef false),
                 [.array [Val.int 1, Val.int 2]])] } none ∧
    ∃ heap' : List Record,
      privateGoNameFill (clubProg false) (referencingDB (profilesRef false) 1 profilesRows)
          (profilesRef false) customersLoaded
        = .ret { heap := heap', loadedRecordTab := customersLoaded.loadedRecordTab,
                 trace := customersLoaded.trace ++
                   [(fillStmt (profilesRef false),
                     [.array ([(Val.int 1, 0), (Val.int 2, 1)].map Prod.fst)])] } none ∧
      ∀ (k : Val) (p : Nat) (row : Row),
        [(Val.int 1, 0), (Val.int 2, 1)].lookup k = some p → row ∈ profilesRows →
        rowKey 1 row = k →
        ∃ (parent : Record) (c : Nat) (child : Record), heap'[p]? = some parent ∧
          some c ∈ (parent.plural.lookup (profilesRef false).PointsFrom).getD [] ∧
          heap'[c]? = some child ∧ child.cols = row :=
  ⟨by decide,
    one_to_many_fill_appends_every_child (clubProg false) (profilesRef false) 1 profilesRows
      customersLoaded { customersCtx with References := [profilesRef false] } profilesCtx
      [(Val.int 1, 0), (Val.int 2, 1)] rfl (by decide) (by decide) (by decide)
      (fun _ => rfl)
      (by
        intro e he
        simp only [List.mem_cons, List.mem_singleton, List.not_mem_nil, or_false] at he
        rcases he with rfl | rfl
        · exact ⟨by decide, _, rfl, by decide⟩
        · exact ⟨by decide, _, rfl, by decide⟩)
      (by
        intro row _ c hc
        exact absurd hc (by simp [customersLoaded, List.lookup]))⟩

end Pggen
